import Mathlib

/-!
# CRC-32 by carry-less folding (`src/yencode/crc_folding.cc`)

A shallow embedding of the PCLMULQDQ folding kernel `crc_fold` and of the
registration stub `crc_clmul_set_funcs`, together with the portable byte-wise
CRC-32 it is compared against.

Modelling conventions
* a `__m128i` value is a natural number below `2 ^ 128`; lane `i` of width `w`
  is `v / 2 ^ (w * i) % 2 ^ w` (little endian, as on x86);
* memory is a total map from addresses to bytes (`mem a % 256` is the byte at
  `a`), so a 16-byte load that runs past the end of the caller's buffer returns
  whatever the memory holds there;
* `long` values are integers, `size_t`/`uintptr_t` values are naturals reduced
  modulo `2 ^ 64` where the source wraps;
* undefined behaviour (an aligned load from a misaligned address, a read
  outside `pshufb_shf_table`) is the result `none`;
* the build without `ENABLE_AVX512` and without GFNI is the one embedded; the
  functions that differ under `ENABLE_AVX512` are embedded a second time, with
  the suffix `_avx512` (`do_one_fold_merge` keeps its own name), and the GFNI
  variant of `reverse_bits_epi8` is left out.
-/

namespace CrcFolding

/-! ## The portable byte-wise CRC-32 -/

/-- One bit round of the reflected CRC-32: shift right, and XOR the reflected
generator `0xEDB88320` in when the bit shifted out is set. -/
def crcBit (c : Nat) : Nat :=
  (c >>> 1) ^^^ (if c % 2 = 1 then 0xEDB88320 else 0)

/-- Byte update: XOR the byte into the register, then eight bit rounds. -/
def upd (c b : Nat) : Nat :=
  crcBit (crcBit (crcBit (crcBit (crcBit (crcBit (crcBit (crcBit (c ^^^ b))))))))

/-- Left fold of `upd` over a byte sequence: the raw CRC register, with no
complement on entry or exit. -/
def raw (c : Nat) (bytes : List Nat) : Nat :=
  bytes.foldl upd c

/-- Complement of a 32-bit value. -/
def not32 (x : Nat) : Nat :=
  (x % 2 ^ 32) ^^^ 0xFFFFFFFF

/-- The portable CRC-32 in the zlib calling convention: complement the seed,
run the byte-wise register over the buffer, complement the result. -/
def crc32_portable (seed : Nat) (bytes : List Nat) : Nat :=
  not32 (raw (not32 seed) bytes)

/-! ## 128-bit vectors -/

/-- The `n` lowest lanes of width `w` of `v`, lowest first. -/
def toLanes (w : Nat) : Nat → Nat → List Nat
  | 0, _ => []
  | n + 1, v => v % 2 ^ w :: toLanes w n (v / 2 ^ w)

/-- Assemble lanes of width `w`, lowest first; each lane is truncated to `w` bits. -/
def ofLanes (w : Nat) : List Nat → Nat
  | [] => 0
  | x :: xs => x % 2 ^ w + 2 ^ w * ofLanes w xs

/-- The sixteen bytes of a vector in memory order. -/
def vecBytes (v : Nat) : List Nat :=
  toLanes 8 16 v

/-- The two's complement bit pattern of a C `int` in `w` bits. -/
def bitsOfInt (w : Nat) (e : Int) : Nat :=
  (e % 2 ^ w).toNat

def _mm_setzero_si128 : Nat := 0

def _mm_cvtsi32_si128 (a : Int) : Nat :=
  ofLanes 32 [bitsOfInt 32 a, 0, 0, 0]

def _mm_set_epi32 (e3 e2 e1 e0 : Int) : Nat :=
  ofLanes 32 [bitsOfInt 32 e0, bitsOfInt 32 e1, bitsOfInt 32 e2, bitsOfInt 32 e3]

def _mm_set1_epi32 (a : Int) : Nat :=
  ofLanes 32 (List.replicate 4 (bitsOfInt 32 a))

def _mm_set1_epi8 (a : Int) : Nat :=
  ofLanes 8 (List.replicate 16 (bitsOfInt 8 a))

def _mm_set_epi8 (e15 e14 e13 e12 e11 e10 e9 e8 e7 e6 e5 e4 e3 e2 e1 e0 : Int) : Nat :=
  ofLanes 8 ([e0, e1, e2, e3, e4, e5, e6, e7, e8, e9, e10, e11, e12, e13, e14, e15].map
    (bitsOfInt 8))

def _mm_and_si128 (a b : Nat) : Nat := a &&& b

def _mm_or_si128 (a b : Nat) : Nat := a ||| b

def _mm_xor_si128 (a b : Nat) : Nat := a ^^^ b

/-- Logical right shift of each of the eight 16-bit lanes. -/
def _mm_srli_epi16 (a : Nat) (imm8 : Nat) : Nat :=
  ofLanes 16 ((toLanes 16 8 a).map (fun x => x >>> imm8))

/-- Byte shuffle (PSHUFB): result byte `i` is zero when bit 7 of control byte
`i` is set, and byte `b[i] & 15` of `a` otherwise. -/
def _mm_shuffle_epi8 (a b : Nat) : Nat :=
  ofLanes 8 ((vecBytes b).map
    (fun c => if c &&& 0x80 ≠ 0 then 0 else (vecBytes a).getD (c &&& 0x0F) 0))

/-- Whole-register right shift by `imm8` bytes. -/
def _mm_srli_si128 (a : Nat) (imm8 : Nat) : Nat :=
  a >>> (8 * imm8)

/-- Whole-register left shift by `imm8` bytes, the overflow discarded. -/
def _mm_slli_si128 (a : Nat) (imm8 : Nat) : Nat :=
  (a <<< (8 * imm8)) % 2 ^ 128

def _mm_extract_epi32 (a : Nat) (imm8 : Nat) : Nat :=
  (toLanes 32 4 a).getD imm8 0

/-- Carry-less product of `a` by the low `n` bits of `b`. -/
def clmulAux : Nat → Nat → Nat → Nat
  | 0, _, _ => 0
  | n + 1, a, b => (if b % 2 = 1 then a else 0) ^^^ clmulAux n (a <<< 1) (b / 2)

/-- PCLMULQDQ: bit 0 of `imm8` picks the 64-bit half of `a`, bit 4 that of `b`. -/
def _mm_clmulepi64_si128 (a b : Nat) (imm8 : Nat) : Nat :=
  clmulAux 64
    ((toLanes 64 2 a).getD (if imm8 &&& 0x01 = 0 then 0 else 1) 0)
    ((toLanes 64 2 b).getD (if imm8 &&& 0x10 = 0 then 0 else 1) 0)

/-- Unaligned 16-byte load. -/
def _mm_loadu_si128 (mem : Nat → Nat) (p : Nat) : Nat :=
  ofLanes 8 ((List.range 16).map (fun i => mem (p + i)))

/-- Aligned 16-byte load: faults unless the address is a multiple of 16. -/
def _mm_load_si128 (mem : Nat → Nat) (p : Nat) : Option Nat :=
  if p % 16 = 0 then some (_mm_loadu_si128 mem p) else none

/-- Vector `j` of a table of 32-bit words, read as `(__m128i *)table + j`. -/
def tableVec (table : List Nat) (j : Nat) : Nat :=
  ofLanes 32 ((table.drop (4 * j)).take 4)

/-! ## The kernel -/

def fold_xor (a b : Nat) : Nat := _mm_xor_si128 a b

def do_one_fold (src : Nat) : Nat :=
  let xmm_fold4 := _mm_set_epi32 0x00000001 0x54442bd4 0x00000001 0xc6e41596
  fold_xor
    (_mm_clmulepi64_si128 src xmm_fold4 0x01)
    (_mm_clmulepi64_si128 src xmm_fold4 0x10)

def pshufb_shf_table : List Nat := [
  0x84838281, 0x88878685, 0x8c8b8a89, 0x008f8e8d,
  0x85848382, 0x89888786, 0x8d8c8b8a, 0x01008f8e,
  0x86858483, 0x8a898887, 0x8e8d8c8b, 0x0201008f,
  0x87868584, 0x8b8a8988, 0x8f8e8d8c, 0x03020100,
  0x88878685, 0x8c8b8a89, 0x008f8e8d, 0x04030201,
  0x89888786, 0x8d8c8b8a, 0x01008f8e, 0x05040302,
  0x8a898887, 0x8e8d8c8b, 0x0201008f, 0x06050403,
  0x8b8a8988, 0x8f8e8d8c, 0x03020100, 0x07060504,
  0x8c8b8a89, 0x008f8e8d, 0x04030201, 0x08070605,
  0x8d8c8b8a, 0x01008f8e, 0x05040302, 0x09080706,
  0x8e8d8c8b, 0x0201008f, 0x06050403, 0x0a090807,
  0x8f8e8d8c, 0x03020100, 0x07060504, 0x0b0a0908,
  0x008f8e8d, 0x04030201, 0x08070605, 0x0c0b0a09,
  0x01008f8e, 0x05040302, 0x09080706, 0x0d0c0b0a,
  0x0201008f, 0x06050403, 0x0a090807, 0x0e0d0c0b]

/-- The four accumulator lanes `xmm_crc0 .. xmm_crc3`. -/
structure FoldState where
  crc0 : Nat
  crc1 : Nat
  crc2 : Nat
  crc3 : Nat
deriving DecidableEq, Repr

/-- Every lane is a 128-bit value. -/
def FoldState.WF (s : FoldState) : Prop :=
  s.crc0 < 2 ^ 128 ∧ s.crc1 < 2 ^ 128 ∧ s.crc2 < 2 ^ 128 ∧ s.crc3 < 2 ^ 128

/-- Source `partial_fold`, with `len` of type `size_t`. The table read at
`pshufb_shf_table + (len - 1)` is defined only inside the 15-entry table. -/
def partial_fold (len : Nat) (s : FoldState) (xmm_crc_part : Nat) : Option FoldState :=
  let xmm_mask3 := _mm_set1_epi32 0x80808080
  let idx := (len % 2 ^ 64 + (2 ^ 64 - 1)) % 2 ^ 64
  if idx < 15 then
    let xmm_shl := tableVec pshufb_shf_table idx
    let xmm_shr := xmm_shl
    let xmm_shr := _mm_xor_si128 xmm_shr xmm_mask3
    let xmm_a0_0 := _mm_shuffle_epi8 s.crc0 xmm_shl
    let xmm_crc0 := _mm_shuffle_epi8 s.crc0 xmm_shr
    let xmm_tmp1 := _mm_shuffle_epi8 s.crc1 xmm_shl
    let xmm_crc0 := _mm_or_si128 xmm_crc0 xmm_tmp1
    let xmm_crc1 := _mm_shuffle_epi8 s.crc1 xmm_shr
    let xmm_tmp2 := _mm_shuffle_epi8 s.crc2 xmm_shl
    let xmm_crc1 := _mm_or_si128 xmm_crc1 xmm_tmp2
    let xmm_crc2 := _mm_shuffle_epi8 s.crc2 xmm_shr
    let xmm_tmp3 := _mm_shuffle_epi8 s.crc3 xmm_shl
    let xmm_crc2 := _mm_or_si128 xmm_crc2 xmm_tmp3
    let xmm_crc3 := _mm_shuffle_epi8 s.crc3 xmm_shr
    let xmm_crc_part := _mm_shuffle_epi8 xmm_crc_part xmm_shl
    let xmm_crc3 := _mm_or_si128 xmm_crc3 xmm_crc_part
    let xmm_crc3 := fold_xor (do_one_fold xmm_a0_0) xmm_crc3
    some ⟨xmm_crc0, xmm_crc1, xmm_crc2, xmm_crc3⟩
  else none

def crc_k : List Nat := [
  0xccaa009e, 0x00000000,
  0x751997d0, 0x00000001,
  0xccaa009e, 0x00000000,
  0x63cd6124, 0x00000001,
  0xf7011641, 0x00000000,
  0xdb710640, 0x00000001]

def crc_mask : List Nat := [0x00000000, 0xFFFFFFFF, 0xFFFFFFFF, 0xFFFFFFFF]

def reverse_bits_epi8 (src : Nat) : Nat :=
  let xmm_t0 := _mm_and_si128 src (_mm_set1_epi8 0x0f)
  let xmm_t1 := _mm_and_si128 (_mm_srli_epi16 src 4) (_mm_set1_epi8 0x0f)
  let xmm_t0 := _mm_shuffle_epi8
    (_mm_set_epi8 (-16) 112 (-80) 48 (-48) 80 (-112) 16 (-32) 96 (-96) 32 (-64) 64 (-128) 0)
    xmm_t0
  let xmm_t1 := _mm_shuffle_epi8
    (_mm_set_epi8 15 7 11 3 13 5 9 1 14 6 10 2 12 4 8 0)
    xmm_t1
  _mm_or_si128 xmm_t0 xmm_t1

def BSWAP32 (n : Nat) : Nat :=
  ((n &&& 0xff) <<< 24) ||| ((n &&& 0xff00) <<< 8) ||| ((n &&& 0xff0000) >>> 8) |||
    ((n &&& 0xff000000) >>> 24)

/-- Seed Initializer: lines 175-193 of `crc_fold`. -/
def seed_init (initial : Nat) : FoldState :=
  let init_t := BSWAP32 initial
  let xmm_t0 := reverse_bits_epi8 (_mm_cvtsi32_si128 (not32 init_t))
  let xmm_t0 := _mm_clmulepi64_si128 xmm_t0 (_mm_cvtsi32_si128 0x487b9c8a) 0
  let xmm_t1 := _mm_and_si128 xmm_t0 (_mm_set_epi32 (-1) (-1) (-1) 0)
  let xmm_t2 := _mm_set_epi32 0 0x04c11db7 1 0x04d101df
  let xmm_t1 := _mm_clmulepi64_si128 xmm_t1 xmm_t2 0
  let xmm_t1 := _mm_clmulepi64_si128 xmm_t1 xmm_t2 0x11
  let xmm_crc0 := _mm_xor_si128 xmm_t0 xmm_t1
  let xmm_crc0 := _mm_shuffle_epi8 (reverse_bits_epi8 xmm_crc0)
    (_mm_set_epi32 (-1) (-1) (-1) 0x00010203)
  ⟨xmm_crc0, _mm_setzero_si128, _mm_setzero_si128, _mm_setzero_si128⟩

/-- Block Folder: the body of the `while` loop (lines 227-234) on the four
vectors loaded from the next 64 bytes. -/
def fold_block (s : FoldState) (xmm_t0 xmm_t1 xmm_t2 xmm_t3 : Nat) : FoldState :=
  let xmm_crc0 := do_one_fold s.crc0
  let xmm_crc1 := do_one_fold s.crc1
  let xmm_crc2 := do_one_fold s.crc2
  let xmm_crc3 := do_one_fold s.crc3
  let xmm_crc0 := _mm_xor_si128 xmm_crc0 xmm_t0
  let xmm_crc1 := _mm_xor_si128 xmm_crc1 xmm_t1
  let xmm_crc2 := _mm_xor_si128 xmm_crc2 xmm_t2
  let xmm_crc3 := _mm_xor_si128 xmm_crc3 xmm_t3
  ⟨xmm_crc0, xmm_crc1, xmm_crc2, xmm_crc3⟩

/-- Tail band for 48..63 remaining bytes (lines 250-263). -/
def fold_tail3 (s : FoldState) (xmm_t0 xmm_t1 xmm_t2 : Nat) : FoldState :=
  let xmm_t3 := s.crc3
  let xmm_crc3 := do_one_fold s.crc2
  let xmm_crc2 := do_one_fold s.crc1
  let xmm_crc1 := do_one_fold s.crc0
  let xmm_crc3 := _mm_xor_si128 xmm_crc3 xmm_t2
  let xmm_crc2 := _mm_xor_si128 xmm_crc2 xmm_t1
  let xmm_crc1 := _mm_xor_si128 xmm_crc1 xmm_t0
  let xmm_crc0 := xmm_t3
  ⟨xmm_crc0, xmm_crc1, xmm_crc2, xmm_crc3⟩

/-- Tail band for 32..47 remaining bytes (lines 275-287). -/
def fold_tail2 (s : FoldState) (xmm_t0 xmm_t1 : Nat) : FoldState :=
  let xmm_t2 := s.crc2
  let xmm_t3 := s.crc3
  let xmm_crc3 := do_one_fold s.crc1
  let xmm_crc2 := do_one_fold s.crc0
  let xmm_crc3 := _mm_xor_si128 xmm_crc3 xmm_t1
  let xmm_crc2 := _mm_xor_si128 xmm_crc2 xmm_t0
  let xmm_crc1 := xmm_t3
  let xmm_crc0 := xmm_t2
  ⟨xmm_crc0, xmm_crc1, xmm_crc2, xmm_crc3⟩

/-- Tail band for 16..31 remaining bytes (lines 298-306). -/
def fold_tail1 (s : FoldState) (xmm_t0 : Nat) : FoldState :=
  let xmm_t3 := s.crc3
  let xmm_crc3 := _mm_xor_si128 (do_one_fold s.crc0) xmm_t0
  let xmm_crc0 := s.crc1
  let xmm_crc1 := s.crc2
  let xmm_crc2 := xmm_t3
  ⟨xmm_crc0, xmm_crc1, xmm_crc2, xmm_crc3⟩

/-- Final Collapser: the block after label `done` (lines 323-395). -/
def final_collapse (s : FoldState) : Nat :=
  let xmm_mask := tableVec crc_mask 0
  -- k1
  let crc_fold := tableVec crc_k 0
  let x_tmp0 := _mm_clmulepi64_si128 s.crc0 crc_fold 0x10
  let xmm_crc0 := _mm_clmulepi64_si128 s.crc0 crc_fold 0x01
  let xmm_crc1 := _mm_xor_si128 s.crc1 x_tmp0
  let xmm_crc1 := _mm_xor_si128 xmm_crc1 xmm_crc0
  let x_tmp1 := _mm_clmulepi64_si128 xmm_crc1 crc_fold 0x10
  let xmm_crc1 := _mm_clmulepi64_si128 xmm_crc1 crc_fold 0x01
  let xmm_crc2 := _mm_xor_si128 s.crc2 x_tmp1
  let xmm_crc2 := _mm_xor_si128 xmm_crc2 xmm_crc1
  let x_tmp2 := _mm_clmulepi64_si128 xmm_crc2 crc_fold 0x10
  let xmm_crc2 := _mm_clmulepi64_si128 xmm_crc2 crc_fold 0x01
  let xmm_crc3 := _mm_xor_si128 s.crc3 x_tmp2
  let xmm_crc3 := _mm_xor_si128 xmm_crc3 xmm_crc2
  -- k5
  let crc_fold := tableVec crc_k 1
  let xmm_crc0 := xmm_crc3
  let xmm_crc3 := _mm_clmulepi64_si128 xmm_crc3 crc_fold 0
  let xmm_crc0 := _mm_srli_si128 xmm_crc0 8
  let xmm_crc3 := _mm_xor_si128 xmm_crc3 xmm_crc0
  let xmm_crc0 := xmm_crc3
  let xmm_crc3 := _mm_slli_si128 xmm_crc3 4
  let xmm_crc3 := _mm_clmulepi64_si128 xmm_crc3 crc_fold 0x10
  let xmm_crc0 := _mm_and_si128 xmm_crc0 xmm_mask
  let xmm_crc3 := _mm_xor_si128 xmm_crc3 xmm_crc0
  -- k7
  let xmm_crc1 := xmm_crc3
  let crc_fold := tableVec crc_k 2
  let xmm_crc3 := _mm_clmulepi64_si128 xmm_crc3 crc_fold 0
  let xmm_crc3 := _mm_clmulepi64_si128 xmm_crc3 crc_fold 0x10
  let xmm_crc1 := _mm_xor_si128 xmm_crc1 xmm_mask
  let xmm_crc3 := _mm_xor_si128 xmm_crc3 xmm_crc1
  _mm_extract_epi32 xmm_crc3 2

/-- Conversion of a `long` to `size_t` (two's complement, 64 bits). -/
def size_t_of_long (len : Int) : Nat :=
  (len % 2 ^ 64).toNat

/-- Conversion of a `size_t` to `long` (two's complement, 64 bits). -/
def long_of_size_t (n : Nat) : Int :=
  if n % 2 ^ 64 < 2 ^ 63 then ((n % 2 ^ 64 : Nat) : Int) else ((n % 2 ^ 64 : Nat) : Int) - 2 ^ 64

/-- The code from label `partial` on: absorb the pending tail, then collapse. -/
def partial_then_done (len : Int) (s : FoldState) (xmm_crc_part : Nat) : Option Nat :=
  (partial_fold (size_t_of_long len) s xmm_crc_part).map final_collapse

/-- The `while ((len -= 64) >= 0)` loop of `crc_fold`. `fuel` bounds the number
of iterations; the loop leaves through its own test when `fuel` exceeds
`len / 64`, and the result is the triple `(src, len, state)` at that point. -/
def main_loop (mem : Nat → Nat) : Nat → Nat → Int → FoldState → Option (Nat × Int × FoldState)
  | 0, _, _, _ => none
  | fuel + 1, src, len, s =>
    let len := len - 64
    if len ≥ 0 then
      (_mm_load_si128 mem src).bind fun xmm_t0 =>
      (_mm_load_si128 mem (src + 16)).bind fun xmm_t1 =>
      (_mm_load_si128 mem (src + 32)).bind fun xmm_t2 =>
      (_mm_load_si128 mem (src + 48)).bind fun xmm_t3 =>
      main_loop mem fuel (src + 64) len (fold_block s xmm_t0 xmm_t1 xmm_t2 xmm_t3)
    else some (src, len, s)

/-- Tail Reducer: the banded `if` cascade after the loop (lines 243-317),
followed by `partial` and `done`. On entry `len` is the number of bytes left
minus 64. -/
def tail_reduce (mem : Nat → Nat) (src : Nat) (len : Int) (s : FoldState) : Option Nat :=
  if len + 16 ≥ 0 then
    let len := len + 16
    (_mm_load_si128 mem src).bind fun xmm_t0 =>
    (_mm_load_si128 mem (src + 16)).bind fun xmm_t1 =>
    (_mm_load_si128 mem (src + 32)).bind fun xmm_t2 =>
    let s := fold_tail3 s xmm_t0 xmm_t1 xmm_t2
    if len = 0 then some (final_collapse s)
    else (_mm_load_si128 mem (src + 48)).bind fun xmm_crc_part =>
      partial_then_done len s xmm_crc_part
  else if len + 32 ≥ 0 then
    let len := len + 32
    (_mm_load_si128 mem src).bind fun xmm_t0 =>
    (_mm_load_si128 mem (src + 16)).bind fun xmm_t1 =>
    let s := fold_tail2 s xmm_t0 xmm_t1
    if len = 0 then some (final_collapse s)
    else (_mm_load_si128 mem (src + 32)).bind fun xmm_crc_part =>
      partial_then_done len s xmm_crc_part
  else if len + 48 ≥ 0 then
    let len := len + 48
    (_mm_load_si128 mem src).bind fun xmm_t0 =>
    let s := fold_tail1 s xmm_t0
    if len = 0 then some (final_collapse s)
    else (_mm_load_si128 mem (src + 16)).bind fun xmm_crc_part =>
      partial_then_done len s xmm_crc_part
  else
    let len := len + 64
    if len = 0 then some (final_collapse s)
    else (_mm_load_si128 mem src).bind fun xmm_crc_part =>
      partial_then_done len s xmm_crc_part

/-- Source `crc_fold`: `src` is the address of the buffer in `mem`. -/
def crc_fold (mem : Nat → Nat) (src : Nat) (len : Int) (initial : Nat) : Option Nat :=
  let s := seed_init initial
  if len < 16 then
    if len = 0 then some initial
    else
      let xmm_crc_part := _mm_loadu_si128 mem src
      partial_then_done len s xmm_crc_part
  else
    let algn_diff := ((2 ^ 64 - src % 2 ^ 64) % 2 ^ 64) &&& 0xF
    let pre : Option (Nat × Int × FoldState) :=
      if algn_diff ≠ 0 then
        let xmm_crc_part := _mm_loadu_si128 mem src
        (partial_fold algn_diff s xmm_crc_part).map fun s1 =>
          (src + algn_diff, len - algn_diff, s1)
      else some (src, len, s)
    pre.bind fun (src, len, s) =>
    (main_loop mem (len.toNat / 64 + 1) src len s).bind fun (src, len, s) =>
    tail_reduce mem src len s

def do_crc32_incremental_clmul (mem : Nat → Nat) (data : Nat) (length : Nat) (init : Nat) :
    Option Nat :=
  crc_fold mem data (long_of_size_t length) init

/-- The type `crc_func` of the dispatch slot: a checksum routine that takes the
memory, the address of the data, its length as a `size_t` and the seed. -/
def crc_func : Type :=
  (Nat → Nat) → Nat → Nat → Nat → Option Nat

/-- Source `crc_clmul_set_funcs`, with the slot as explicit state: the argument
is the content of `*_do_crc32_incremental` before the call and the result is
its content after. `capable` is the build condition of line 22 (PCLMUL, SSSE3
and SSE4.1 available); without it the body is `(void) _do_crc32_incremental`. -/
def crc_clmul_set_funcs (capable : Bool) (_do_crc32_incremental : crc_func) : crc_func :=
  if capable then do_crc32_incremental_clmul else _do_crc32_incremental

/-- The nine ASCII bytes of "123456789". -/
def digits : List Nat :=
  [0x31, 0x32, 0x33, 0x34, 0x35, 0x36, 0x37, 0x38, 0x39]

/-- A memory holding the bytes `l` from address `base` on and the byte `junk`
everywhere else. -/
def memOf (base : Nat) (l : List Nat) (junk : Nat) : Nat → Nat :=
  fun p => if base ≤ p ∧ p < base + l.length then l.getD (p - base) 0 else junk

/-! ## Parts of `crc_fold` -/

/-- Lines 179-187 of `crc_fold`: the reduction of the product `xmm_t0` by the
two multiplications with `Q+` and `G*`. -/
def barrett_reduce (xmm_t0 : Nat) : Nat :=
  let xmm_t1 := _mm_and_si128 xmm_t0 (_mm_set_epi32 (-1) (-1) (-1) 0)
  let xmm_t2 := _mm_set_epi32 0 0x04c11db7 1 0x04d101df
  let xmm_t1 := _mm_clmulepi64_si128 xmm_t1 xmm_t2 0
  let xmm_t1 := _mm_clmulepi64_si128 xmm_t1 xmm_t2 0x11
  _mm_xor_si128 xmm_t0 xmm_t1

/-- Line 203 of `crc_fold`: the alignment deficit `(0 - (uintptr_t)src) & 0xF`. -/
def algn_diff (src : Nat) : Nat :=
  ((2 ^ 64 - src % 2 ^ 64) % 2 ^ 64) &&& 0xF

/-- The banded cascade of lines 243-317 up to the labels: the lanes after the
full-vector folds, the value of `len` at that point and the pending vector
`xmm_crc_part` (`none` when the code jumps to `done`). -/
def tail_band (mem : Nat → Nat) (src : Nat) (len : Int) (s : FoldState) :
    Option (FoldState × Int × Option Nat) :=
  if len + 16 ≥ 0 then
    let len := len + 16
    (_mm_load_si128 mem src).bind fun xmm_t0 =>
    (_mm_load_si128 mem (src + 16)).bind fun xmm_t1 =>
    (_mm_load_si128 mem (src + 32)).bind fun xmm_t2 =>
    let s := fold_tail3 s xmm_t0 xmm_t1 xmm_t2
    if len = 0 then some (s, len, none)
    else (_mm_load_si128 mem (src + 48)).bind fun xmm_crc_part =>
      some (s, len, some xmm_crc_part)
  else if len + 32 ≥ 0 then
    let len := len + 32
    (_mm_load_si128 mem src).bind fun xmm_t0 =>
    (_mm_load_si128 mem (src + 16)).bind fun xmm_t1 =>
    let s := fold_tail2 s xmm_t0 xmm_t1
    if len = 0 then some (s, len, none)
    else (_mm_load_si128 mem (src + 32)).bind fun xmm_crc_part =>
      some (s, len, some xmm_crc_part)
  else if len + 48 ≥ 0 then
    let len := len + 48
    (_mm_load_si128 mem src).bind fun xmm_t0 =>
    let s := fold_tail1 s xmm_t0
    if len = 0 then some (s, len, none)
    else (_mm_load_si128 mem (src + 16)).bind fun xmm_crc_part =>
      some (s, len, some xmm_crc_part)
  else
    let len := len + 64
    if len = 0 then some (s, len, none)
    else (_mm_load_si128 mem src).bind fun xmm_crc_part =>
      some (s, len, some xmm_crc_part)

/-- The labels `partial` and `done` after the cascade. -/
def tail_finish (r : FoldState × Int × Option Nat) : Option Nat :=
  match r with
  | (s, _, none) => some (final_collapse s)
  | (s, len, some xmm_crc_part) => partial_then_done len s xmm_crc_part

/-! ## The build with `ENABLE_AVX512` -/

/-- The bitwise ternary function with truth table `imm8` on the `n` low bits
of `a`, `b` and `c`: each bit of the result is the bit of `imm8` whose index is
formed by the bits of `a`, `b` and `c` at that position. -/
def ternBits (imm8 : Nat) : Nat → Nat → Nat → Nat → Nat
  | 0, _, _, _ => 0
  | n + 1, a, b, c =>
    (imm8 >>> (4 * (a % 2) + 2 * (b % 2) + c % 2)) % 2
      + 2 * ternBits imm8 n (a / 2) (b / 2) (c / 2)

/-- VPTERNLOGD on a 128-bit register. The operation is bitwise, so that the
four 32-bit lanes are the 128 bits taken in order. -/
def _mm_ternarylogic_epi32 (a b c : Nat) (imm8 : Nat) : Nat :=
  ternBits imm8 128 a b c

/-- Source `do_one_fold_merge`, which replaces `do_one_fold` under
`ENABLE_AVX512`. -/
def do_one_fold_merge (src data : Nat) : Nat :=
  let xmm_fold4 := _mm_set_epi32 0x00000001 0x54442bd4 0x00000001 0xc6e41596
  _mm_ternarylogic_epi32
    (_mm_clmulepi64_si128 src xmm_fold4 0x01)
    (_mm_clmulepi64_si128 src xmm_fold4 0x10)
    data
    0x96

/-- Source `partial_fold` under `ENABLE_AVX512`. -/
def partial_fold_avx512 (len : Nat) (s : FoldState) (xmm_crc_part : Nat) : Option FoldState :=
  let xmm_mask3 := _mm_set1_epi32 0x80808080
  let idx := (len % 2 ^ 64 + (2 ^ 64 - 1)) % 2 ^ 64
  if idx < 15 then
    let xmm_shl := tableVec pshufb_shf_table idx
    let xmm_shr := xmm_shl
    let xmm_shr := _mm_xor_si128 xmm_shr xmm_mask3
    let xmm_a0_0 := _mm_shuffle_epi8 s.crc0 xmm_shl
    let xmm_crc0 := _mm_shuffle_epi8 s.crc0 xmm_shr
    let xmm_tmp1 := _mm_shuffle_epi8 s.crc1 xmm_shl
    let xmm_crc0 := _mm_or_si128 xmm_crc0 xmm_tmp1
    let xmm_crc1 := _mm_shuffle_epi8 s.crc1 xmm_shr
    let xmm_tmp2 := _mm_shuffle_epi8 s.crc2 xmm_shl
    let xmm_crc1 := _mm_or_si128 xmm_crc1 xmm_tmp2
    let xmm_crc2 := _mm_shuffle_epi8 s.crc2 xmm_shr
    let xmm_tmp3 := _mm_shuffle_epi8 s.crc3 xmm_shl
    let xmm_crc2 := _mm_or_si128 xmm_crc2 xmm_tmp3
    let xmm_crc3 := _mm_shuffle_epi8 s.crc3 xmm_shr
    let xmm_crc_part := _mm_shuffle_epi8 xmm_crc_part xmm_shl
    let xmm_crc3 := _mm_or_si128 xmm_crc3 xmm_crc_part
    let xmm_crc3 := do_one_fold_merge xmm_a0_0 xmm_crc3
    some ⟨xmm_crc0, xmm_crc1, xmm_crc2, xmm_crc3⟩
  else none

/-- The body of the `while` loop under `ENABLE_AVX512` (lines 221-224). -/
def fold_block_avx512 (s : FoldState) (xmm_t0 xmm_t1 xmm_t2 xmm_t3 : Nat) : FoldState :=
  let xmm_crc0 := do_one_fold_merge s.crc0 xmm_t0
  let xmm_crc1 := do_one_fold_merge s.crc1 xmm_t1
  let xmm_crc2 := do_one_fold_merge s.crc2 xmm_t2
  let xmm_crc3 := do_one_fold_merge s.crc3 xmm_t3
  ⟨xmm_crc0, xmm_crc1, xmm_crc2, xmm_crc3⟩

/-- Tail band for 48..63 remaining bytes under `ENABLE_AVX512`. -/
def fold_tail3_avx512 (s : FoldState) (xmm_t0 xmm_t1 xmm_t2 : Nat) : FoldState :=
  let xmm_t3 := s.crc3
  let xmm_crc3 := do_one_fold_merge s.crc2 xmm_t2
  let xmm_crc2 := do_one_fold_merge s.crc1 xmm_t1
  let xmm_crc1 := do_one_fold_merge s.crc0 xmm_t0
  let xmm_crc0 := xmm_t3
  ⟨xmm_crc0, xmm_crc1, xmm_crc2, xmm_crc3⟩

/-- Tail band for 32..47 remaining bytes under `ENABLE_AVX512`. -/
def fold_tail2_avx512 (s : FoldState) (xmm_t0 xmm_t1 : Nat) : FoldState :=
  let xmm_t2 := s.crc2
  let xmm_t3 := s.crc3
  let xmm_crc3 := do_one_fold_merge s.crc1 xmm_t1
  let xmm_crc2 := do_one_fold_merge s.crc0 xmm_t0
  let xmm_crc1 := xmm_t3
  let xmm_crc0 := xmm_t2
  ⟨xmm_crc0, xmm_crc1, xmm_crc2, xmm_crc3⟩

/-- Tail band for 16..31 remaining bytes under `ENABLE_AVX512`. -/
def fold_tail1_avx512 (s : FoldState) (xmm_t0 : Nat) : FoldState :=
  let xmm_t3 := s.crc3
  let xmm_crc3 := do_one_fold_merge s.crc0 xmm_t0
  let xmm_crc0 := s.crc1
  let xmm_crc1 := s.crc2
  let xmm_crc2 := xmm_t3
  ⟨xmm_crc0, xmm_crc1, xmm_crc2, xmm_crc3⟩

/-- The block after label `done` under `ENABLE_AVX512`: the XOR pairs of `k1`
are one ternary operation `0x96`, the AND and XOR of `k5` the operation `0x28`
and the two XORs of `k7` the operation `0xC3`. -/
def final_collapse_avx512 (s : FoldState) : Nat :=
  let xmm_mask := tableVec crc_mask 0
  -- k1
  let crc_fold := tableVec crc_k 0
  let x_tmp0 := _mm_clmulepi64_si128 s.crc0 crc_fold 0x10
  let xmm_crc0 := _mm_clmulepi64_si128 s.crc0 crc_fold 0x01
  let xmm_crc1 := _mm_ternarylogic_epi32 s.crc1 x_tmp0 xmm_crc0 0x96
  let x_tmp1 := _mm_clmulepi64_si128 xmm_crc1 crc_fold 0x10
  let xmm_crc1 := _mm_clmulepi64_si128 xmm_crc1 crc_fold 0x01
  let xmm_crc2 := _mm_ternarylogic_epi32 s.crc2 x_tmp1 xmm_crc1 0x96
  let x_tmp2 := _mm_clmulepi64_si128 xmm_crc2 crc_fold 0x10
  let xmm_crc2 := _mm_clmulepi64_si128 xmm_crc2 crc_fold 0x01
  let xmm_crc3 := _mm_ternarylogic_epi32 s.crc3 x_tmp2 xmm_crc2 0x96
  -- k5
  let crc_fold := tableVec crc_k 1
  let xmm_crc0 := xmm_crc3
  let xmm_crc3 := _mm_clmulepi64_si128 xmm_crc3 crc_fold 0
  let xmm_crc0 := _mm_srli_si128 xmm_crc0 8
  let xmm_crc3 := _mm_xor_si128 xmm_crc3 xmm_crc0
  let xmm_crc0 := xmm_crc3
  let xmm_crc3 := _mm_slli_si128 xmm_crc3 4
  let xmm_crc3 := _mm_clmulepi64_si128 xmm_crc3 crc_fold 0x10
  let xmm_crc3 := _mm_ternarylogic_epi32 xmm_crc3 xmm_crc0 xmm_mask 0x28
  -- k7
  let xmm_crc1 := xmm_crc3
  let crc_fold := tableVec crc_k 2
  let xmm_crc3 := _mm_clmulepi64_si128 xmm_crc3 crc_fold 0
  let xmm_crc3 := _mm_clmulepi64_si128 xmm_crc3 crc_fold 0x10
  let xmm_crc3 := _mm_ternarylogic_epi32 xmm_crc3 xmm_crc1 xmm_crc1 0xC3
  _mm_extract_epi32 xmm_crc3 2

/-- The code from label `partial` on under `ENABLE_AVX512`. -/
def partial_then_done_avx512 (len : Int) (s : FoldState) (xmm_crc_part : Nat) : Option Nat :=
  (partial_fold_avx512 (size_t_of_long len) s xmm_crc_part).map final_collapse_avx512

/-- The `while` loop under `ENABLE_AVX512`. -/
def main_loop_avx512 (mem : Nat → Nat) :
    Nat → Nat → Int → FoldState → Option (Nat × Int × FoldState)
  | 0, _, _, _ => none
  | fuel + 1, src, len, s =>
    let len := len - 64
    if len ≥ 0 then
      (_mm_load_si128 mem src).bind fun xmm_t0 =>
      (_mm_load_si128 mem (src + 16)).bind fun xmm_t1 =>
      (_mm_load_si128 mem (src + 32)).bind fun xmm_t2 =>
      (_mm_load_si128 mem (src + 48)).bind fun xmm_t3 =>
      main_loop_avx512 mem fuel (src + 64) len (fold_block_avx512 s xmm_t0 xmm_t1 xmm_t2 xmm_t3)
    else some (src, len, s)

/-- The banded cascade, `partial` and `done` under `ENABLE_AVX512`. -/
def tail_reduce_avx512 (mem : Nat → Nat) (src : Nat) (len : Int) (s : FoldState) :
    Option Nat :=
  if len + 16 ≥ 0 then
    let len := len + 16
    (_mm_load_si128 mem src).bind fun xmm_t0 =>
    (_mm_load_si128 mem (src + 16)).bind fun xmm_t1 =>
    (_mm_load_si128 mem (src + 32)).bind fun xmm_t2 =>
    let s := fold_tail3_avx512 s xmm_t0 xmm_t1 xmm_t2
    if len = 0 then some (final_collapse_avx512 s)
    else (_mm_load_si128 mem (src + 48)).bind fun xmm_crc_part =>
      partial_then_done_avx512 len s xmm_crc_part
  else if len + 32 ≥ 0 then
    let len := len + 32
    (_mm_load_si128 mem src).bind fun xmm_t0 =>
    (_mm_load_si128 mem (src + 16)).bind fun xmm_t1 =>
    let s := fold_tail2_avx512 s xmm_t0 xmm_t1
    if len = 0 then some (final_collapse_avx512 s)
    else (_mm_load_si128 mem (src + 32)).bind fun xmm_crc_part =>
      partial_then_done_avx512 len s xmm_crc_part
  else if len + 48 ≥ 0 then
    let len := len + 48
    (_mm_load_si128 mem src).bind fun xmm_t0 =>
    let s := fold_tail1_avx512 s xmm_t0
    if len = 0 then some (final_collapse_avx512 s)
    else (_mm_load_si128 mem (src + 16)).bind fun xmm_crc_part =>
      partial_then_done_avx512 len s xmm_crc_part
  else
    let len := len + 64
    if len = 0 then some (final_collapse_avx512 s)
    else (_mm_load_si128 mem src).bind fun xmm_crc_part =>
      partial_then_done_avx512 len s xmm_crc_part

/-- Source `crc_fold` under `ENABLE_AVX512`; the Seed Initializer is the same
code in both builds. -/
def crc_fold_avx512 (mem : Nat → Nat) (src : Nat) (len : Int) (initial : Nat) : Option Nat :=
  let s := seed_init initial
  if len < 16 then
    if len = 0 then some initial
    else
      let xmm_crc_part := _mm_loadu_si128 mem src
      partial_then_done_avx512 len s xmm_crc_part
  else
    let algn_diff := ((2 ^ 64 - src % 2 ^ 64) % 2 ^ 64) &&& 0xF
    let pre : Option (Nat × Int × FoldState) :=
      if algn_diff ≠ 0 then
        let xmm_crc_part := _mm_loadu_si128 mem src
        (partial_fold_avx512 algn_diff s xmm_crc_part).map fun s1 =>
          (src + algn_diff, len - algn_diff, s1)
      else some (src, len, s)
    pre.bind fun (src, len, s) =>
    (main_loop_avx512 mem (len.toNat / 64 + 1) src len s).bind fun (src, len, s) =>
    tail_reduce_avx512 mem src len s

/-! ## The descriptions of the specification: polynomials over GF(2) and the
single-vector step -/

/-- Reversal of the low `n` bits of `x`. -/
def bitrev : Nat → Nat → Nat
  | 0, _ => 0
  | n + 1, x => 2 ^ n * (x % 2) + bitrev n (x / 2)

/-- Reversal of the 32 bits of a word. -/
def bitrev32 (x : Nat) : Nat :=
  bitrev 32 x

/-- Halvings of `a` before it is at most 1, counted with at most `fuel` steps. -/
def polyDegAux : Nat → Nat → Nat
  | 0, _ => 0
  | fuel + 1, a => if a / 2 = 0 then 0 else polyDegAux fuel (a / 2) + 1

/-- Degree of a nonzero polynomial over GF(2) given by its bits: the position
of the highest set bit. -/
def polyDeg (a : Nat) : Nat :=
  polyDegAux a a

/-- Carry-less product of two naturals read as polynomials over GF(2), bit `i`
being the coefficient of `x ^ i`. -/
def clmul (a b : Nat) : Nat :=
  clmulAux (polyDeg b + 1) a b

/-- Long division over GF(2): cancel the bits `d + i - 1, ..., d` of `a` with
shifted copies of the divisor `g` of degree `d`. -/
def polyModAux (g d : Nat) : Nat → Nat → Nat
  | 0, a => a
  | i + 1, a => polyModAux g d i (if a.testBit (d + i) then a ^^^ (g <<< i) else a)

/-- Remainder of `a` modulo `g` as polynomials over GF(2). -/
def polyMod (a g : Nat) : Nat :=
  polyModAux g (polyDeg g) (polyDeg a + 1 - polyDeg g) a

/-- The single-vector step of the recursive description of the Tail Reducer:
`(l0, l1, l2, l3) -> (l1, l2, l3, do_one_fold(l0) XOR d)`. -/
def single_fold_step (s : FoldState) (d : Nat) : FoldState :=
  ⟨s.crc1, s.crc2, s.crc3, _mm_xor_si128 (do_one_fold s.crc0) d⟩

/-- The recursive description of the Tail Reducer: `k` single steps over the
vectors at `src`, `src + 16`, ... -/
def fold_vectors (mem : Nat → Nat) : Nat → Nat → FoldState → FoldState
  | 0, _, s => s
  | k + 1, src, s => fold_vectors mem k (src + 16) (single_fold_step s (_mm_loadu_si128 mem src))

/-! ## Definitions used in the proofs -/

/-- A map on naturals that commutes with XOR. -/
def XLin (f : Nat → Nat) : Prop :=
  ∀ a b, f (a ^^^ b) = f a ^^^ f b

/-- Eight bit rounds. -/
def upd8 (c : Nat) : Nat :=
  crcBit (crcBit (crcBit (crcBit (crcBit (crcBit (crcBit (crcBit c)))))))

/-- Advance the register over `n` zero bytes. -/
def Z (n : Nat) (c : Nat) : Nat :=
  raw c (List.replicate n 0)

/-- The register value of the sixteen bytes of a vector, from a zero start. -/
def rB (v : Nat) : Nat :=
  raw 0 (vecBytes v)

/-- Lines 332-338: the two products of a lane by `rk1`/`rk2`, which carry the
lane sixteen bytes forward. -/
def foldK1 (a : Nat) : Nat :=
  _mm_clmulepi64_si128 a (tableVec crc_k 0) 0x10 ^^^ _mm_clmulepi64_si128 a (tableVec crc_k 0) 0x01

/-- Lines 362-394 without the final XOR of the mask: the reduction of one
128-bit lane to 32 bits. -/
def reduceLin (v : Nat) : Nat :=
  let crc_fold := tableVec crc_k 1
  let xmm_crc0 := v
  let xmm_crc3 := _mm_clmulepi64_si128 v crc_fold 0
  let xmm_crc0 := _mm_srli_si128 xmm_crc0 8
  let xmm_crc3 := _mm_xor_si128 xmm_crc3 xmm_crc0
  let xmm_crc0 := xmm_crc3
  let xmm_crc3 := _mm_slli_si128 xmm_crc3 4
  let xmm_crc3 := _mm_clmulepi64_si128 xmm_crc3 crc_fold 0x10
  let xmm_crc0 := _mm_and_si128 xmm_crc0 (tableVec crc_mask 0)
  let xmm_crc3 := _mm_xor_si128 xmm_crc3 xmm_crc0
  let xmm_crc1 := xmm_crc3
  let crc_fold := tableVec crc_k 2
  let xmm_crc3 := _mm_clmulepi64_si128 xmm_crc3 crc_fold 0
  let xmm_crc3 := _mm_clmulepi64_si128 xmm_crc3 crc_fold 0x10
  let xmm_crc3 := _mm_xor_si128 xmm_crc3 xmm_crc1
  _mm_extract_epi32 xmm_crc3 2

/-- The bytes of the four lanes in stream order. -/
def stateBytes (s : FoldState) : List Nat :=
  vecBytes s.crc0 ++ vecBytes s.crc1 ++ vecBytes s.crc2 ++ vecBytes s.crc3

/-- The register value the four lanes stand for. -/
def stateReg (s : FoldState) : Nat :=
  raw 0 (stateBytes s)

/-- The byte selection PSHUFB performs, on byte lists. -/
def selBytes (a m : List Nat) : List Nat :=
  m.map (fun c => if c &&& 0x80 ≠ 0 then 0 else a.getD (c &&& 0x0F) 0)

/-- The shuffle control `xmm_shl` of `partial_fold` for tail length `n`. -/
def shlCtl (n : Nat) : Nat :=
  tableVec pshufb_shf_table (n - 1)

/-- The shuffle control `xmm_shr` of `partial_fold` for tail length `n`. -/
def shrCtl (n : Nat) : Nat :=
  _mm_xor_si128 (shlCtl n) (_mm_set1_epi32 0x80808080)

/-- The bytes of a list of 16-bit words, low byte first. -/
def bytesOfWords : List Nat → List Nat
  | [] => []
  | w :: ws => w % 256 :: w / 256 % 256 :: bytesOfWords ws

/-- The table of `reverse_bits_epi8` for the low nibble. -/
def revTableLo : List Nat :=
  vecBytes (_mm_set_epi8 (-16) 112 (-80) 48 (-48) 80 (-112) 16 (-32) 96 (-96) 32 (-64) 64 (-128) 0)

/-- The table of `reverse_bits_epi8` for the high nibble. -/
def revTableHi : List Nat :=
  vecBytes (_mm_set_epi8 15 7 11 3 13 5 9 1 14 6 10 2 12 4 8 0)

/-- What `reverse_bits_epi8` does to one byte. -/
def rev8 (b : Nat) : Nat :=
  (if (b &&& 15) &&& 0x80 ≠ 0 then 0 else revTableLo.getD ((b &&& 15) &&& 0x0F) 0) |||
  (if (b / 16) &&& 0x80 ≠ 0 then 0 else revTableHi.getD ((b / 16) &&& 0x0F) 0)

/-- Bit reversal of a byte written with masks and shifts. -/
def rev8Lin (b : Nat) : Nat :=
  ((b &&& 1) <<< 7) ^^^ ((b &&& 2) <<< 5) ^^^ ((b &&& 4) <<< 3) ^^^ ((b &&& 8) <<< 1)
    ^^^ ((b &&& 16) >>> 1) ^^^ ((b &&& 32) >>> 3) ^^^ ((b &&& 64) >>> 5) ^^^ ((b &&& 128) >>> 7)

/-- Lines 176-189 as a function of the vector handed to the first
`reverse_bits_epi8`. -/
def initLane (x : Nat) : Nat :=
  let xmm_t0 := reverse_bits_epi8 x
  let xmm_t0 := _mm_clmulepi64_si128 xmm_t0 (_mm_cvtsi32_si128 0x487b9c8a) 0
  let xmm_t1 := _mm_and_si128 xmm_t0 (_mm_set_epi32 (-1) (-1) (-1) 0)
  let xmm_t2 := _mm_set_epi32 0 0x04c11db7 1 0x04d101df
  let xmm_t1 := _mm_clmulepi64_si128 xmm_t1 xmm_t2 0
  let xmm_t1 := _mm_clmulepi64_si128 xmm_t1 xmm_t2 0x11
  let xmm_crc0 := _mm_xor_si128 xmm_t0 xmm_t1
  _mm_shuffle_epi8 (reverse_bits_epi8 xmm_crc0) (_mm_set_epi32 (-1) (-1) (-1) 0x00010203)

/-- The register value of a state whose lanes 1..3 are zero, as a function of
the word the seed is turned into. -/
def seedReg (x : Nat) : Nat :=
  Z 48 (rB (initLane x))

/-- The `n` bytes of the buffer that starts at address `src`. -/
def bufBytes (mem : Nat → Nat) (src n : Nat) : List Nat :=
  (List.range n).map (fun i => mem (src + i) % 256)

/-! ## XOR-linear maps on naturals -/

theorem XLin.map_zero {f : Nat → Nat} (hf : XLin f) : f 0 = 0 := by
  have h := hf 0 0
  simp only [Nat.xor_self] at h
  exact h

theorem XLin.comp {f g : Nat → Nat} (hf : XLin f) (hg : XLin g) : XLin (fun v => f (g v)) := by
  intro a b
  simp only [hg a b, hf (g a) (g b)]

theorem XLin.xor {f g : Nat → Nat} (hf : XLin f) (hg : XLin g) :
    XLin (fun v => f v ^^^ g v) := by
  intro a b
  simp only [hf a b, hg a b]
  ac_rfl

theorem xor_mod_two_pow (a b n : Nat) : (a ^^^ b) % 2 ^ n = a % 2 ^ n ^^^ b % 2 ^ n := by
  apply Nat.eq_of_testBit_eq
  intro i
  simp only [Nat.testBit_mod_two_pow, Nat.testBit_xor]
  by_cases h : i < n <;> simp [h]

theorem xor_div_two_pow (a b n : Nat) : (a ^^^ b) / 2 ^ n = a / 2 ^ n ^^^ b / 2 ^ n := by
  apply Nat.eq_of_testBit_eq
  intro i
  simp only [← Nat.shiftRight_eq_div_pow, Nat.testBit_shiftRight, Nat.testBit_xor]

theorem xor_shiftLeft (a b n : Nat) : (a ^^^ b) <<< n = a <<< n ^^^ b <<< n := by
  apply Nat.eq_of_testBit_eq
  intro i
  simp only [Nat.testBit_shiftLeft, Nat.testBit_xor]
  by_cases h : n ≤ i <;> simp [h]

theorem xor_shiftRight (a b n : Nat) : (a ^^^ b) >>> n = a >>> n ^^^ b >>> n := by
  simp only [Nat.shiftRight_eq_div_pow, xor_div_two_pow]

theorem add_two_pow_eq_xor {a n : Nat} (h : a < 2 ^ n) : a + 2 ^ n = a ^^^ 2 ^ n := by
  apply Nat.eq_of_testBit_eq
  intro i
  have h1 : a + 2 ^ n = 2 ^ n * 1 + a := by omega
  rw [h1, Nat.testBit_mul_pow_two_add 1 h, Nat.testBit_xor, Nat.testBit_two_pow]
  by_cases hi : i < n
  · have : ¬ n = i := by omega
    simp [hi, this]
  · have hlt : a < 2 ^ i := lt_of_lt_of_le h (Nat.pow_le_pow_right (by decide) (by omega))
    simp only [hi, if_false, Nat.testBit_lt_two_pow hlt, Bool.false_xor]
    by_cases hn : n = i
    · subst hn; simp
    · have h2 : 1 < 2 ^ (i - n) := Nat.one_lt_two_pow (by omega)
      simp [hn, Nat.testBit_lt_two_pow h2]

/-- Two XOR-linear maps that agree on the powers of two below `2 ^ n` agree on
every `n`-bit value. -/
theorem XLin.ext_of_basis {f g : Nat → Nat} (hf : XLin f) (hg : XLin g) (n : Nat)
    (hb : ∀ i < n, f (2 ^ i) = g (2 ^ i)) : ∀ v, v < 2 ^ n → f v = g v := by
  induction n with
  | zero =>
    intro v hv
    have : v = 0 := by simpa using hv
    rw [this, hf.map_zero, hg.map_zero]
  | succ n ih =>
    intro v hv
    have ih1 := ih (fun i hi => hb i (by omega))
    by_cases hlt : v < 2 ^ n
    · exact ih1 v hlt
    · have hv1 : v - 2 ^ n < 2 ^ n := by
        rw [Nat.pow_succ] at hv; omega
      have hsplit : v = (v - 2 ^ n) ^^^ 2 ^ n := by
        rw [← add_two_pow_eq_xor hv1]; omega
      rw [hsplit, hf, hg, ih1 _ hv1, hb n (by omega)]

/-! ## Lanes -/

theorem and_mod_two_pow (a b n : Nat) : (a &&& b) % 2 ^ n = a % 2 ^ n &&& b % 2 ^ n := by
  apply Nat.eq_of_testBit_eq
  intro i
  simp only [Nat.testBit_mod_two_pow, Nat.testBit_and]
  by_cases h : i < n <;> simp [h]

theorem and_div_two_pow (a b n : Nat) : (a &&& b) / 2 ^ n = a / 2 ^ n &&& b / 2 ^ n := by
  apply Nat.eq_of_testBit_eq
  intro i
  simp only [← Nat.shiftRight_eq_div_pow, Nat.testBit_shiftRight, Nat.testBit_and]

theorem or_mod_two_pow (a b n : Nat) : (a ||| b) % 2 ^ n = a % 2 ^ n ||| b % 2 ^ n := by
  apply Nat.eq_of_testBit_eq
  intro i
  simp only [Nat.testBit_mod_two_pow, Nat.testBit_or]
  by_cases h : i < n <;> simp [h]

theorem or_div_two_pow (a b n : Nat) : (a ||| b) / 2 ^ n = a / 2 ^ n ||| b / 2 ^ n := by
  apply Nat.eq_of_testBit_eq
  intro i
  simp only [← Nat.shiftRight_eq_div_pow, Nat.testBit_shiftRight, Nat.testBit_or]

theorem toLanes_length (w n v : Nat) : (toLanes w n v).length = n := by
  induction n generalizing v with
  | zero => rfl
  | succ n ih => simp [toLanes, ih]

theorem toLanes_lt (w n v x : Nat) (hx : x ∈ toLanes w n v) : x < 2 ^ w := by
  induction n generalizing v with
  | zero => simp [toLanes] at hx
  | succ n ih =>
    simp only [toLanes, List.mem_cons] at hx
    rcases hx with h | h
    · rw [h]; exact Nat.mod_lt _ (Nat.two_pow_pos w)
    · exact ih _ h

theorem toLanes_xor (w n a b : Nat) :
    toLanes w n (a ^^^ b) = List.zipWith (fun x y => x ^^^ y) (toLanes w n a) (toLanes w n b) := by
  induction n generalizing a b with
  | zero => rfl
  | succ n ih => simp [toLanes, xor_mod_two_pow, xor_div_two_pow, ih]

theorem toLanes_and (w n a b : Nat) :
    toLanes w n (a &&& b) = List.zipWith (fun x y => x &&& y) (toLanes w n a) (toLanes w n b) := by
  induction n generalizing a b with
  | zero => rfl
  | succ n ih => simp [toLanes, and_mod_two_pow, and_div_two_pow, ih]

theorem toLanes_or (w n a b : Nat) :
    toLanes w n (a ||| b) = List.zipWith (fun x y => x ||| y) (toLanes w n a) (toLanes w n b) := by
  induction n generalizing a b with
  | zero => rfl
  | succ n ih => simp [toLanes, or_mod_two_pow, or_div_two_pow, ih]

theorem ofLanes_lt (w : Nat) (l : List Nat) : ofLanes w l < 2 ^ (w * l.length) := by
  induction l with
  | nil => simp [ofLanes]
  | cons x xs ih =>
    simp only [ofLanes, List.length_cons, Nat.mul_succ, Nat.pow_add]
    have h1 : x % 2 ^ w < 2 ^ w := Nat.mod_lt _ (Nat.two_pow_pos w)
    have h2 : 2 ^ w * (ofLanes w xs + 1) ≤ 2 ^ w * 2 ^ (w * xs.length) :=
      Nat.mul_le_mul_left _ ih
    have h3 : 2 ^ w * 2 ^ (w * xs.length) = 2 ^ (w * xs.length) * 2 ^ w := Nat.mul_comm _ _
    rw [Nat.mul_add] at h2
    omega

theorem toLanes_ofLanes (w : Nat) (l : List Nat) :
    toLanes w l.length (ofLanes w l) = l.map (fun x => x % 2 ^ w) := by
  induction l with
  | nil => rfl
  | cons x xs ih =>
    have hp : 0 < 2 ^ w := Nat.two_pow_pos w
    have h1 : (x % 2 ^ w + 2 ^ w * ofLanes w xs) % 2 ^ w = x % 2 ^ w := by
      rw [Nat.add_mul_mod_self_left, Nat.mod_mod]
    have h2 : (x % 2 ^ w + 2 ^ w * ofLanes w xs) / 2 ^ w = ofLanes w xs := by
      rw [Nat.add_mul_div_left _ _ hp, Nat.div_eq_of_lt (Nat.mod_lt _ hp), Nat.zero_add]
    simp only [List.length_cons, toLanes, ofLanes, h1, h2, ih, List.map_cons]

theorem ofLanes_toLanes (w n v : Nat) : ofLanes w (toLanes w n v) = v % 2 ^ (w * n) := by
  induction n generalizing v with
  | zero => simp [toLanes, ofLanes, Nat.mod_one]
  | succ n ih =>
    simp only [toLanes, ofLanes, ih, Nat.mod_mod, Nat.mul_succ]
    rw [Nat.add_comm (w * n) w, Nat.pow_add, Nat.mod_mul]

theorem map_mod_toLanes (w n v : Nat) :
    (toLanes w n v).map (fun x => x % 2 ^ w) = toLanes w n v := by
  have h : ∀ x ∈ toLanes w n v, x % 2 ^ w = id x := fun x hx =>
    Nat.mod_eq_of_lt (toLanes_lt w n v x hx)
  rw [List.map_congr_left h, List.map_id]

theorem toLanes_mod (w n v : Nat) : toLanes w n (v % 2 ^ (w * n)) = toLanes w n v := by
  have h := toLanes_ofLanes w (toLanes w n v)
  rw [toLanes_length, ofLanes_toLanes, map_mod_toLanes] at h
  exact h

/-! ## Algebra of the byte-wise CRC register -/

theorem xor_cancel_mid (x y p : Nat) : x ^^^ p ^^^ (y ^^^ p) = x ^^^ y := by
  have h : x ^^^ p ^^^ (y ^^^ p) = (x ^^^ y) ^^^ (p ^^^ p) := by ac_rfl
  rw [h, Nat.xor_self, Nat.xor_zero]

theorem crcBit_xor (a b : Nat) : crcBit (a ^^^ b) = crcBit a ^^^ crcBit b := by
  unfold crcBit
  rw [xor_shiftRight]
  have ha : a % 2 = 0 ∨ a % 2 = 1 := by omega
  have hb : b % 2 = 0 ∨ b % 2 = 1 := by omega
  have hx : (a ^^^ b) % 2 = a % 2 ^^^ b % 2 := by
    have := xor_mod_two_pow a b 1
    simpa using this
  rcases ha with ha | ha <;> rcases hb with hb | hb <;> simp only [hx, ha, hb] <;>
    simp <;> first
      | ac_rfl
      | exact (xor_cancel_mid _ _ _).symm

theorem upd_eq (c b : Nat) : upd c b = upd8 (c ^^^ b) := rfl

theorem upd8_xor (a b : Nat) : upd8 (a ^^^ b) = upd8 a ^^^ upd8 b := by
  simp only [upd8, crcBit_xor]

theorem raw_nil (c : Nat) : raw c [] = c := rfl

theorem raw_cons (c b : Nat) (l : List Nat) : raw c (b :: l) = raw (upd c b) l := rfl

theorem raw_append (c : Nat) (l l' : List Nat) : raw c (l ++ l') = raw (raw c l) l' := by
  simp only [raw, List.foldl_append]

theorem raw_xor (l l' : List Nat) (h : l.length = l'.length) (c c' : Nat) :
    raw (c ^^^ c') (List.zipWith (fun x y => x ^^^ y) l l') = raw c l ^^^ raw c' l' := by
  induction l generalizing l' c c' with
  | nil =>
    cases l' with
    | nil => rfl
    | cons _ _ => simp at h
  | cons x xs ih =>
    cases l' with
    | nil => simp at h
    | cons y ys =>
      simp only [List.length_cons, Nat.add_right_cancel_iff] at h
      simp only [List.zipWith_cons_cons, raw_cons]
      have hu : upd (c ^^^ c') (x ^^^ y) = upd c x ^^^ upd c' y := by
        simp only [upd_eq, ← upd8_xor]
        congr 1
        ac_rfl
      rw [hu, ih ys h]

theorem zipWith_xor_zeros (l : List Nat) :
    List.zipWith (fun x y => x ^^^ y) (List.replicate l.length 0) l = l := by
  induction l with
  | nil => rfl
  | cons x xs ih => simp [List.replicate_succ, ih]

theorem zipWith_xor_replicate_zero (n : Nat) :
    List.zipWith (fun x y => x ^^^ y) (List.replicate n 0) (List.replicate n 0)
      = List.replicate n 0 := by
  have := zipWith_xor_zeros (List.replicate n 0)
  rw [List.length_replicate] at this
  exact this

theorem raw_eq_Z_xor (c : Nat) (l : List Nat) : raw c l = Z l.length c ^^^ raw 0 l := by
  have h := raw_xor (List.replicate l.length 0) l (by simp) c 0
  rw [zipWith_xor_zeros, Nat.xor_zero] at h
  exact h

theorem Z_xlin (n : Nat) : XLin (Z n) := by
  intro a b
  have h := raw_xor (List.replicate n 0) (List.replicate n 0) rfl a b
  rw [zipWith_xor_replicate_zero] at h
  exact h

theorem Z_zero_right (n : Nat) : Z n 0 = 0 := (Z_xlin n).map_zero

theorem Z_add (m n c : Nat) : Z (m + n) c = Z n (Z m c) := by
  simp only [Z, List.replicate_add, raw_append]

theorem raw_zeros_append (n : Nat) (l : List Nat) : raw 0 (List.replicate n 0 ++ l) = raw 0 l := by
  rw [raw_append]
  have := Z_zero_right n
  unfold Z at this
  rw [this]

theorem rB_xlin : XLin rB := by
  intro a b
  unfold rB vecBytes
  rw [toLanes_xor]
  have h := raw_xor (toLanes 8 16 a) (toLanes 8 16 b)
    (by rw [toLanes_length, toLanes_length]) 0 0
  rw [Nat.xor_self] at h
  exact h

theorem vecBytes_length (v : Nat) : (vecBytes v).length = 16 := toLanes_length 8 16 v

/-! ## Linearity of the carry-less multiply and of the fold -/

theorem clmulAux_xor (n a a' b : Nat) :
    clmulAux n (a ^^^ a') b = clmulAux n a b ^^^ clmulAux n a' b := by
  induction n generalizing a a' b with
  | zero => simp [clmulAux]
  | succ n ih =>
    simp only [clmulAux, xor_shiftLeft, ih]
    by_cases h : b % 2 = 1
    · simp only [h, if_true]; ac_rfl
    · simp only [h, if_false, Nat.zero_xor]

theorem toLanes_getD_xor (w n k a b : Nat) :
    (toLanes w n (a ^^^ b)).getD k 0 = (toLanes w n a).getD k 0 ^^^ (toLanes w n b).getD k 0 := by
  induction n generalizing a b k with
  | zero => simp [toLanes]
  | succ n ih =>
    cases k with
    | zero => simp [toLanes, xor_mod_two_pow]
    | succ k => simp only [toLanes, List.getD_cons_succ, xor_div_two_pow, ih]

theorem clmulepi64_xlin (b imm8 : Nat) : XLin (fun a => _mm_clmulepi64_si128 a b imm8) := by
  intro a a'
  simp only [_mm_clmulepi64_si128, toLanes_getD_xor, clmulAux_xor]

theorem do_one_fold_xlin : XLin do_one_fold := by
  intro a b
  simp only [do_one_fold, fold_xor, _mm_xor_si128, clmulepi64_xlin _ _ a b]
  ac_rfl

theorem do_one_fold_basis : ∀ i < 128, rB (do_one_fold (2 ^ i)) = Z 64 (rB (2 ^ i)) := by
  decide!

/-- Folding a lane is the same, for the register value, as appending 64 zero
bytes after it. -/
theorem rB_do_one_fold (v : Nat) (hv : v < 2 ^ 128) : rB (do_one_fold v) = Z 64 (rB v) :=
  XLin.ext_of_basis (f := fun v => rB (do_one_fold v)) (g := fun v => Z 64 (rB v))
    (rB_xlin.comp do_one_fold_xlin) ((Z_xlin 64).comp rB_xlin) 128 do_one_fold_basis v hv

/-! ## The Final Collapser -/

theorem clmulAux_lt (n k a b : Nat) (ha : a < 2 ^ k) : clmulAux n a b < 2 ^ (k + n) := by
  induction n generalizing a b k with
  | zero => simp [clmulAux]
  | succ n ih =>
    simp only [clmulAux]
    have h1 : a <<< 1 < 2 ^ (k + 1) := by
      rw [Nat.shiftLeft_eq, Nat.pow_succ]; omega
    have h2 := ih (k + 1) (a <<< 1) (b / 2) h1
    have h3 : k + 1 + n = k + (n + 1) := by omega
    rw [h3] at h2
    have h4 : a < 2 ^ (k + (n + 1)) :=
      lt_of_lt_of_le ha (Nat.pow_le_pow_right (by decide) (by omega))
    apply Nat.xor_lt_two_pow _ h2
    split
    · exact h4
    · exact Nat.two_pow_pos _

theorem toLanes_getD_lt (w n v k : Nat) : (toLanes w n v).getD k 0 < 2 ^ w := by
  by_cases h : k < (toLanes w n v).length
  · rw [List.getD_eq_getElem _ _ h]
    exact toLanes_lt w n v _ (List.getElem_mem h)
  · rw [List.getD_eq_default _ _ (by omega)]
    exact Nat.two_pow_pos w

theorem clmulepi64_lt (a b imm8 : Nat) : _mm_clmulepi64_si128 a b imm8 < 2 ^ 128 :=
  clmulAux_lt 64 64 _ _ (toLanes_getD_lt 64 2 a _)

theorem do_one_fold_lt (v : Nat) : do_one_fold v < 2 ^ 128 :=
  Nat.xor_lt_two_pow (clmulepi64_lt _ _ _) (clmulepi64_lt _ _ _)

theorem clmulepi64_xor (a a' b imm8 : Nat) :
    _mm_clmulepi64_si128 (a ^^^ a') b imm8
      = _mm_clmulepi64_si128 a b imm8 ^^^ _mm_clmulepi64_si128 a' b imm8 :=
  clmulepi64_xlin b imm8 a a'

theorem foldK1_xlin : XLin foldK1 := by
  intro a b
  simp only [foldK1, clmulepi64_xor]
  ac_rfl

theorem foldK1_lt (a : Nat) : foldK1 a < 2 ^ 128 :=
  Nat.xor_lt_two_pow (clmulepi64_lt _ _ _) (clmulepi64_lt _ _ _)

theorem reduceLin_xlin : XLin reduceLin := by
  intro a b
  simp only [reduceLin, _mm_xor_si128, _mm_srli_si128, _mm_slli_si128, _mm_and_si128,
    _mm_extract_epi32, clmulepi64_xor, xor_shiftRight, xor_shiftLeft, xor_mod_two_pow,
    Nat.and_xor_distrib_right, toLanes_getD_xor]
  ac_rfl

theorem final_collapse_eq (s : FoldState) :
    final_collapse s
      = reduceLin (s.crc3 ^^^ foldK1 (s.crc2 ^^^ foldK1 (s.crc1 ^^^ foldK1 s.crc0)))
          ^^^ 0xFFFFFFFF := by
  have hm : (toLanes 32 4 (tableVec crc_mask 0)).getD 2 0 = 0xFFFFFFFF := by decide!
  simp only [final_collapse, reduceLin, foldK1, _mm_xor_si128, _mm_extract_epi32,
    toLanes_getD_xor, hm, Nat.xor_assoc]

theorem foldK1_basis : ∀ i < 128, rB (foldK1 (2 ^ i)) = Z 16 (rB (2 ^ i)) := by
  decide!

theorem reduceLin_basis : ∀ i < 128, reduceLin (2 ^ i) = rB (2 ^ i) := by
  decide!

theorem rB_foldK1 (v : Nat) (hv : v < 2 ^ 128) : rB (foldK1 v) = Z 16 (rB v) :=
  XLin.ext_of_basis (f := fun v => rB (foldK1 v)) (g := fun v => Z 16 (rB v))
    (rB_xlin.comp foldK1_xlin) ((Z_xlin 16).comp rB_xlin) 128 foldK1_basis v hv

theorem reduceLin_eq_rB (v : Nat) (hv : v < 2 ^ 128) : reduceLin v = rB v :=
  XLin.ext_of_basis reduceLin_xlin rB_xlin 128 reduceLin_basis v hv

theorem stateBytes_length (s : FoldState) : (stateBytes s).length = 64 := by
  simp [stateBytes, vecBytes_length]

theorem raw_append_vec (c : Nat) (l : List Nat) (v : Nat) :
    raw c (l ++ vecBytes v) = Z 16 (raw c l) ^^^ rB v := by
  rw [raw_append, raw_eq_Z_xor (raw c l) (vecBytes v), vecBytes_length, rB]

theorem stateReg_eq (s : FoldState) :
    stateReg s = Z 16 (Z 16 (Z 16 (rB s.crc0) ^^^ rB s.crc1) ^^^ rB s.crc2) ^^^ rB s.crc3 := by
  unfold stateReg stateBytes
  rw [raw_append_vec, raw_append_vec, raw_append_vec]
  rfl

/-- The Final Collapser returns the complement of the register value of the
four lanes. -/
theorem final_collapse_spec (s : FoldState) (hs : s.WF) :
    final_collapse s = stateReg s ^^^ 0xFFFFFFFF := by
  obtain ⟨h0, h1, h2, h3⟩ := hs
  have b1 : s.crc1 ^^^ foldK1 s.crc0 < 2 ^ 128 := Nat.xor_lt_two_pow h1 (foldK1_lt _)
  have b2 : s.crc2 ^^^ foldK1 (s.crc1 ^^^ foldK1 s.crc0) < 2 ^ 128 :=
    Nat.xor_lt_two_pow h2 (foldK1_lt _)
  have b3 : s.crc3 ^^^ foldK1 (s.crc2 ^^^ foldK1 (s.crc1 ^^^ foldK1 s.crc0)) < 2 ^ 128 :=
    Nat.xor_lt_two_pow h3 (foldK1_lt _)
  rw [final_collapse_eq, reduceLin_eq_rB _ b3, stateReg_eq, rB_xlin, rB_foldK1 _ b2, rB_xlin,
    rB_foldK1 _ b1, rB_xlin, rB_foldK1 _ h0]
  congr 1
  ac_rfl

/-! ## Byte shuffles and `partial_fold` -/

theorem vecBytes_lt (v x : Nat) (hx : x ∈ vecBytes v) : x < 256 :=
  toLanes_lt 8 16 v x hx

theorem vecBytes_getD_lt (v k : Nat) : (vecBytes v).getD k 0 < 256 :=
  toLanes_getD_lt 8 16 v k

theorem vecBytes_ofLanes (l : List Nat) (hl : l.length = 16) (hb : ∀ x ∈ l, x < 256) :
    vecBytes (ofLanes 8 l) = l := by
  have h := toLanes_ofLanes 8 l
  rw [hl] at h
  unfold vecBytes
  rw [h]
  have h' : ∀ x ∈ l, x % 2 ^ 8 = id x := fun x hx => Nat.mod_eq_of_lt (hb x hx)
  rw [List.map_congr_left h', List.map_id]

theorem vecBytes_shuffle (a b : Nat) :
    vecBytes (_mm_shuffle_epi8 a b) = selBytes (vecBytes a) (vecBytes b) := by
  unfold _mm_shuffle_epi8 selBytes
  apply vecBytes_ofLanes
  · simp [vecBytes_length]
  · intro x hx
    simp only [List.mem_map] at hx
    obtain ⟨c, _, rfl⟩ := hx
    split
    · decide
    · exact vecBytes_getD_lt _ _

theorem list_length_succ {α : Type} (n : Nat) (l : List α) (h : l.length = n + 1) :
    ∃ x t, l = x :: t ∧ t.length = n := by
  cases l with
  | nil => simp at h
  | cons x t => exact ⟨x, t, rfl, by simpa using h⟩

theorem list16 {α : Type} (l : List α) (h : l.length = 16) :
    ∃ x0 x1 x2 x3 x4 x5 x6 x7 x8 x9 x10 x11 x12 x13 x14 x15 : α,
      l = [x0, x1, x2, x3, x4, x5, x6, x7, x8, x9, x10, x11, x12, x13, x14, x15] := by
  obtain ⟨x0, l0, rfl, h0⟩ := list_length_succ _ _ h
  obtain ⟨x1, l1, rfl, h1⟩ := list_length_succ _ _ h0
  obtain ⟨x2, l2, rfl, h2⟩ := list_length_succ _ _ h1
  obtain ⟨x3, l3, rfl, h3⟩ := list_length_succ _ _ h2
  obtain ⟨x4, l4, rfl, h4⟩ := list_length_succ _ _ h3
  obtain ⟨x5, l5, rfl, h5⟩ := list_length_succ _ _ h4
  obtain ⟨x6, l6, rfl, h6⟩ := list_length_succ _ _ h5
  obtain ⟨x7, l7, rfl, h7⟩ := list_length_succ _ _ h6
  obtain ⟨x8, l8, rfl, h8⟩ := list_length_succ _ _ h7
  obtain ⟨x9, l9, rfl, h9⟩ := list_length_succ _ _ h8
  obtain ⟨x10, l10, rfl, h10⟩ := list_length_succ _ _ h9
  obtain ⟨x11, l11, rfl, h11⟩ := list_length_succ _ _ h10
  obtain ⟨x12, l12, rfl, h12⟩ := list_length_succ _ _ h11
  obtain ⟨x13, l13, rfl, h13⟩ := list_length_succ _ _ h12
  obtain ⟨x14, l14, rfl, h14⟩ := list_length_succ _ _ h13
  obtain ⟨x15, l15, rfl, h15⟩ := list_length_succ _ _ h14
  have : l15 = [] := List.eq_nil_of_length_eq_zero h15
  subst this
  exact ⟨x0, x1, x2, x3, x4, x5, x6, x7, x8, x9, x10, x11, x12, x13, x14, x15, rfl⟩

theorem selBytes_shl (n : Nat) (h1 : 1 ≤ n) (h2 : n ≤ 15) (a : List Nat) (ha : a.length = 16) :
    selBytes a (vecBytes (shlCtl n)) = List.replicate (16 - n) 0 ++ a.take n := by
  obtain ⟨x0, x1, x2, x3, x4, x5, x6, x7, x8, x9, x10, x11, x12, x13, x14, x15, rfl⟩ :=
    list16 a ha
  interval_cases n <;> rfl

theorem selBytes_shr (n : Nat) (h1 : 1 ≤ n) (h2 : n ≤ 15) (a : List Nat) (ha : a.length = 16) :
    selBytes a (vecBytes (shrCtl n)) = a.drop n ++ List.replicate n 0 := by
  obtain ⟨x0, x1, x2, x3, x4, x5, x6, x7, x8, x9, x10, x11, x12, x13, x14, x15, rfl⟩ :=
    list16 a ha
  interval_cases n <;> rfl

theorem shuffle_lt (a b : Nat) : _mm_shuffle_epi8 a b < 2 ^ 128 := by
  unfold _mm_shuffle_epi8
  have h := ofLanes_lt 8 ((vecBytes b).map
    (fun c => if c &&& 0x80 ≠ 0 then 0 else (vecBytes a).getD (c &&& 0x0F) 0))
  rw [List.length_map, vecBytes_length] at h
  exact h

theorem zipWith_or_zeros_right (l : List Nat) (m : List Nat) (n : Nat) (hm : m.length = n) :
    List.zipWith (fun x y => x ||| y) (l ++ List.replicate n 0) (List.replicate l.length 0 ++ m)
      = l ++ m := by
  rw [List.zipWith_append _ _ _ _ _ (by simp)]
  congr 1
  · clear hm
    induction l with
    | nil => rfl
    | cons x xs ih => simp [List.replicate_succ, ih]
  · subst hm
    induction m with
    | nil => rfl
    | cons x xs ih => simp [List.replicate_succ, ih]

/-- Lines 99-101 (and the three analogous groups): the lane keeps its bytes
`n..15` and takes the first `n` bytes of the next lane behind them. -/
theorem vecBytes_shift_merge (n : Nat) (h1 : 1 ≤ n) (h2 : n ≤ 15) (a b : Nat) :
    vecBytes (_mm_or_si128 (_mm_shuffle_epi8 a (shrCtl n)) (_mm_shuffle_epi8 b (shlCtl n)))
      = (vecBytes a).drop n ++ (vecBytes b).take n := by
  unfold _mm_or_si128 vecBytes
  rw [toLanes_or]
  change List.zipWith _ (vecBytes _) (vecBytes _) = (vecBytes a).drop n ++ (vecBytes b).take n
  rw [vecBytes_shuffle, vecBytes_shuffle, selBytes_shr n h1 h2 _ (vecBytes_length a),
    selBytes_shl n h1 h2 _ (vecBytes_length b)]
  have hl : ((vecBytes a).drop n).length = 16 - n := by simp [vecBytes_length]
  have h := zipWith_or_zeros_right ((vecBytes a).drop n) ((vecBytes b).take n) n
    (by simp [vecBytes_length]; omega)
  rw [hl] at h
  exact h

theorem partial_fold_idx (n : Nat) (h1 : 1 ≤ n) (h2 : n ≤ 15) :
    (n % 2 ^ 64 + (2 ^ 64 - 1)) % 2 ^ 64 = n - 1 := by
  norm_num
  omega

/-- The lanes `partial_fold` produces, for a tail length inside the table. -/
theorem partial_fold_eq (n : Nat) (h1 : 1 ≤ n) (h2 : n ≤ 15) (s : FoldState) (part : Nat) :
    partial_fold n s part = some
      ⟨_mm_or_si128 (_mm_shuffle_epi8 s.crc0 (shrCtl n)) (_mm_shuffle_epi8 s.crc1 (shlCtl n)),
       _mm_or_si128 (_mm_shuffle_epi8 s.crc1 (shrCtl n)) (_mm_shuffle_epi8 s.crc2 (shlCtl n)),
       _mm_or_si128 (_mm_shuffle_epi8 s.crc2 (shrCtl n)) (_mm_shuffle_epi8 s.crc3 (shlCtl n)),
       do_one_fold (_mm_shuffle_epi8 s.crc0 (shlCtl n)) ^^^
         _mm_or_si128 (_mm_shuffle_epi8 s.crc3 (shrCtl n)) (_mm_shuffle_epi8 part (shlCtl n))⟩ := by
  have hi : n - 1 < 15 := by omega
  unfold partial_fold
  simp only [partial_fold_idx n h1 h2, hi, if_true]
  rfl

theorem or_shuffle_lt (a b c d : Nat) :
    _mm_or_si128 (_mm_shuffle_epi8 a b) (_mm_shuffle_epi8 c d) < 2 ^ 128 :=
  Nat.or_lt_two_pow (shuffle_lt _ _) (shuffle_lt _ _)

/-- Partial-Fold: for a tail length `1 ≤ n ≤ 15` the call succeeds, and the new
lanes stand for the register advanced over the first `n` bytes of the pending
vector. -/
theorem partial_fold_spec (n : Nat) (h1 : 1 ≤ n) (h2 : n ≤ 15) (s : FoldState) (part : Nat) :
    ∃ s', partial_fold n s part = some s' ∧ s'.WF ∧
      stateReg s' = raw (stateReg s) ((vecBytes part).take n) := by
  refine ⟨_, partial_fold_eq n h1 h2 s part, ?_, ?_⟩
  · exact ⟨or_shuffle_lt _ _ _ _, or_shuffle_lt _ _ _ _, or_shuffle_lt _ _ _ _,
      Nat.xor_lt_two_pow (do_one_fold_lt _) (or_shuffle_lt _ _ _ _)⟩
  · have hA0 := vecBytes_length s.crc0
    have hcarry : rB (_mm_shuffle_epi8 s.crc0 (shlCtl n)) = raw 0 ((vecBytes s.crc0).take n) := by
      unfold rB
      rw [vecBytes_shuffle, selBytes_shl n h1 h2 _ hA0, raw_zeros_append]
    have hT : ((vecBytes s.crc0).drop n ++ (vecBytes s.crc1).take n
        ++ ((vecBytes s.crc1).drop n ++ (vecBytes s.crc2).take n)
        ++ ((vecBytes s.crc2).drop n ++ (vecBytes s.crc3).take n)
        ++ ((vecBytes s.crc3).drop n ++ (vecBytes part).take n))
        = (vecBytes s.crc0).drop n ++ (vecBytes s.crc1 ++ vecBytes s.crc2 ++ vecBytes s.crc3
            ++ (vecBytes part).take n) := by
      simp only [List.append_assoc]
      rw [← List.append_assoc (List.take n (vecBytes s.crc1)), List.take_append_drop,
        ← List.append_assoc (List.take n (vecBytes s.crc2)), List.take_append_drop,
        ← List.append_assoc (List.take n (vecBytes s.crc3)), List.take_append_drop]
    have hlen : ((vecBytes s.crc0).drop n ++ (vecBytes s.crc1 ++ vecBytes s.crc2 ++ vecBytes s.crc3
            ++ (vecBytes part).take n)).length = 64 := by
      simp [vecBytes_length]
      omega
    have hfull : (vecBytes s.crc0).take n ++ ((vecBytes s.crc0).drop n ++
        (vecBytes s.crc1 ++ vecBytes s.crc2 ++ vecBytes s.crc3 ++ (vecBytes part).take n))
        = stateBytes s ++ (vecBytes part).take n := by
      rw [← List.append_assoc, List.take_append_drop]
      simp only [stateBytes, List.append_assoc]
    have hgoal : raw (stateReg s) ((vecBytes part).take n)
        = raw 0 (stateBytes s ++ (vecBytes part).take n) := by
      rw [raw_append]; rfl
    rw [hgoal, ← hfull, raw_append, raw_eq_Z_xor (raw 0 ((vecBytes s.crc0).take n)), hlen,
      ← hcarry, ← rB_do_one_fold _ (shuffle_lt _ _), ← hT]
    unfold stateReg stateBytes
    simp only []
    rw [raw_append_vec, rB_xlin, vecBytes_shift_merge n h1 h2, vecBytes_shift_merge n h1 h2,
      vecBytes_shift_merge n h1 h2, raw_append _ _ (List.drop n (vecBytes s.crc3) ++ _),
      raw_eq_Z_xor _ (List.drop n (vecBytes s.crc3) ++ _)]
    have hl3 : (List.drop n (vecBytes s.crc3) ++ List.take n (vecBytes part)).length = 16 := by
      simp [vecBytes_length]; omega
    rw [hl3, ← vecBytes_shift_merge n h1 h2 s.crc3 part]
    unfold rB
    ac_rfl

/-! ## Linearity of lane assembly, of the shuffle and of the bit reversal -/

theorem add_mul_xor (w a b x y : Nat) (ha : a < 2 ^ w) (hb : b < 2 ^ w) :
    (a ^^^ b) + 2 ^ w * (x ^^^ y) = (a + 2 ^ w * x) ^^^ (b + 2 ^ w * y) := by
  have hab : a ^^^ b < 2 ^ w := Nat.xor_lt_two_pow ha hb
  apply Nat.eq_of_testBit_eq
  intro i
  rw [Nat.add_comm (a ^^^ b), Nat.add_comm a, Nat.add_comm b, Nat.testBit_xor,
    Nat.testBit_mul_pow_two_add _ hab, Nat.testBit_mul_pow_two_add _ ha,
    Nat.testBit_mul_pow_two_add _ hb]
  by_cases h : i < w <;> simp [h]

theorem ofLanes_zipWith_xor (w : Nat) (l l' : List Nat) (h : l.length = l'.length) :
    ofLanes w (List.zipWith (fun x y => x ^^^ y) l l') = ofLanes w l ^^^ ofLanes w l' := by
  induction l generalizing l' with
  | nil =>
    cases l' with
    | nil => simp [ofLanes]
    | cons _ _ => simp at h
  | cons x xs ih =>
    cases l' with
    | nil => simp at h
    | cons y ys =>
      simp only [List.length_cons, Nat.add_right_cancel_iff] at h
      simp only [List.zipWith_cons_cons, ofLanes, ih ys h, xor_mod_two_pow]
      exact add_mul_xor w _ _ _ _ (Nat.mod_lt _ (Nat.two_pow_pos w))
        (Nat.mod_lt _ (Nat.two_pow_pos w))

theorem getD_zipWith_xor (l l' : List Nat) (h : l.length = l'.length) (k : Nat) :
    (List.zipWith (fun x y => x ^^^ y) l l').getD k 0 = l.getD k 0 ^^^ l'.getD k 0 := by
  induction l generalizing l' k with
  | nil =>
    cases l' with
    | nil => simp
    | cons _ _ => simp at h
  | cons x xs ih =>
    cases l' with
    | nil => simp at h
    | cons y ys =>
      simp only [List.length_cons, Nat.add_right_cancel_iff] at h
      cases k with
      | zero => simp
      | succ k => simpa using ih ys h k

theorem selBytes_xor (a a' m : List Nat) (h : a.length = a'.length) :
    selBytes (List.zipWith (fun x y => x ^^^ y) a a') m
      = List.zipWith (fun x y => x ^^^ y) (selBytes a m) (selBytes a' m) := by
  induction m with
  | nil => rfl
  | cons c cs ih =>
    simp only [selBytes, List.map_cons, List.zipWith_cons_cons] at ih ⊢
    rw [ih, getD_zipWith_xor a a' h]
    congr 1
    split <;> simp

theorem selBytes_length (a m : List Nat) : (selBytes a m).length = m.length := by
  simp [selBytes]

theorem shuffle_eq (a b : Nat) :
    _mm_shuffle_epi8 a b = ofLanes 8 (selBytes (vecBytes a) (vecBytes b)) := rfl

theorem shuffle_xlin (m : Nat) : XLin (fun a => _mm_shuffle_epi8 a m) := by
  intro a b
  simp only [shuffle_eq]
  unfold vecBytes
  rw [toLanes_xor, selBytes_xor _ _ _ (by rw [toLanes_length, toLanes_length]),
    ofLanes_zipWith_xor _ _ _ (by rw [selBytes_length, selBytes_length])]

theorem toLanes8_ofLanes16 (l : List Nat) :
    toLanes 8 (2 * l.length) (ofLanes 16 l) = bytesOfWords l := by
  induction l with
  | nil => rfl
  | cons x xs ih =>
    have h : 2 * (x :: xs).length = 2 * xs.length + 1 + 1 := by simp; omega
    rw [h]
    simp only [toLanes, ofLanes, bytesOfWords]
    have e1 : (x % 2 ^ 16 + 2 ^ 16 * ofLanes 16 xs) % 2 ^ 8 = x % 256 := by
      norm_num; omega
    have e2 : (x % 2 ^ 16 + 2 ^ 16 * ofLanes 16 xs) / 2 ^ 8 % 2 ^ 8 = x / 256 % 256 := by
      norm_num; omega
    have e3 : (x % 2 ^ 16 + 2 ^ 16 * ofLanes 16 xs) / 2 ^ 8 / 2 ^ 8 = ofLanes 16 xs := by
      norm_num; omega
    rw [e1, e2, e3, ih]

theorem vecBytes_eq_bytesOfWords (v : Nat) : vecBytes v = bytesOfWords (toLanes 16 8 v) := by
  have h := toLanes8_ofLanes16 (toLanes 16 8 v)
  rw [toLanes_length, ofLanes_toLanes] at h
  rw [← h]
  exact (toLanes_mod 8 16 v).symm

theorem vecBytes_srli_epi16 (v k : Nat) :
    vecBytes (_mm_srli_epi16 v k) = bytesOfWords ((toLanes 16 8 v).map (fun x => x >>> k)) := by
  have h := toLanes8_ofLanes16 ((toLanes 16 8 v).map (fun x => x >>> k))
  rw [List.length_map, toLanes_length] at h
  exact h

theorem and15_bytesOfWords_shift (l : List Nat) (hl : ∀ x ∈ l, x < 2 ^ 16) :
    List.zipWith (fun x y => x &&& y) (bytesOfWords (l.map (fun x => x >>> 4)))
        (List.replicate (2 * l.length) 15)
      = (bytesOfWords l).map (fun b => b / 16) := by
  induction l with
  | nil => rfl
  | cons x xs ih =>
    have h : 2 * (x :: xs).length = 2 * xs.length + 1 + 1 := by simp; omega
    have hx : x < 65536 := by simpa using hl x (List.mem_cons_self _ _)
    have m15 : ∀ y : Nat, y &&& 15 = y % 16 := fun y => Nat.and_pow_two_sub_one_eq_mod y 4
    rw [h]
    simp only [List.map_cons, bytesOfWords, List.replicate_succ, List.zipWith_cons_cons]
    rw [ih (fun y hy => hl y (List.mem_cons_of_mem _ hy))]
    have e1 : (x >>> 4) % 256 &&& 15 = x % 256 / 16 := by
      rw [m15, Nat.shiftRight_eq_div_pow]; norm_num; omega
    have e2 : (x >>> 4) / 256 % 256 &&& 15 = x / 256 % 256 / 16 := by
      rw [m15, Nat.shiftRight_eq_div_pow]; norm_num; omega
    rw [e1, e2]

theorem vecBytes_set1_0f : vecBytes (_mm_set1_epi8 0x0f) = List.replicate 16 15 := by
  decide!

theorem vecBytes_and_0f (v : Nat) :
    vecBytes (_mm_and_si128 v (_mm_set1_epi8 0x0f)) = (vecBytes v).map (fun b => b &&& 15) := by
  unfold _mm_and_si128 vecBytes
  rw [toLanes_and]
  change List.zipWith _ _ (vecBytes _) = _
  rw [vecBytes_set1_0f]
  have h : ∀ l : List Nat, List.zipWith (fun x y => x &&& y) l (List.replicate l.length 15)
      = l.map (fun b => b &&& 15) := by
    intro l
    induction l with
    | nil => rfl
    | cons x xs ih => simp [List.replicate_succ, ih]
  have h2 := h (toLanes 8 16 v)
  rw [toLanes_length] at h2
  exact h2

theorem vecBytes_srli4_and_0f (v : Nat) :
    vecBytes (_mm_and_si128 (_mm_srli_epi16 v 4) (_mm_set1_epi8 0x0f))
      = (vecBytes v).map (fun b => b / 16) := by
  unfold _mm_and_si128 vecBytes
  rw [toLanes_and]
  change List.zipWith _ (vecBytes _) (vecBytes _) = (vecBytes v).map _
  rw [vecBytes_set1_0f, vecBytes_srli_epi16, vecBytes_eq_bytesOfWords v]
  have h := and15_bytesOfWords_shift (toLanes 16 8 v) (fun x hx => toLanes_lt 16 8 v x hx)
  rw [toLanes_length] at h
  exact h

theorem vecBytes_reverse_bits (v : Nat) :
    vecBytes (reverse_bits_epi8 v) = (vecBytes v).map rev8 := by
  unfold reverse_bits_epi8 _mm_or_si128
  simp only []
  unfold vecBytes
  rw [toLanes_or]
  change List.zipWith _ (vecBytes _) (vecBytes _) = (vecBytes v).map rev8
  rw [vecBytes_shuffle, vecBytes_shuffle, vecBytes_and_0f, vecBytes_srli4_and_0f]
  change List.zipWith _ (selBytes revTableLo _) (selBytes revTableHi _) = _
  generalize vecBytes v = l
  induction l with
  | nil => rfl
  | cons x xs ih =>
    simp only [selBytes, List.map_cons, List.zipWith_cons_cons] at ih ⊢
    rw [ih]
    rfl

theorem and_const_xlin (c : Nat) : XLin (fun v => v &&& c) :=
  fun _ _ => Nat.and_xor_distrib_right

theorem shiftLeft_xlin (n : Nat) : XLin (fun v => v <<< n) :=
  fun a b => xor_shiftLeft a b n

theorem shiftRight_xlin (n : Nat) : XLin (fun v => v >>> n) :=
  fun a b => xor_shiftRight a b n

theorem rev8Lin_xlin : XLin rev8Lin :=
  XLin.xor (XLin.xor (XLin.xor (XLin.xor (XLin.xor (XLin.xor (XLin.xor
    ((shiftLeft_xlin 7).comp (and_const_xlin 1))
    ((shiftLeft_xlin 5).comp (and_const_xlin 2)))
    ((shiftLeft_xlin 3).comp (and_const_xlin 4)))
    ((shiftLeft_xlin 1).comp (and_const_xlin 8)))
    ((shiftRight_xlin 1).comp (and_const_xlin 16)))
    ((shiftRight_xlin 3).comp (and_const_xlin 32)))
    ((shiftRight_xlin 5).comp (and_const_xlin 64)))
    ((shiftRight_xlin 7).comp (and_const_xlin 128))

theorem rev8_eq_rev8Lin : ∀ a < 256, rev8 a = rev8Lin a := by
  decide!

theorem rev8_xor (a : Nat) (ha : a < 256) (b : Nat) (hb : b < 256) :
    rev8 (a ^^^ b) = rev8 a ^^^ rev8 b := by
  have hab : a ^^^ b < 256 := Nat.xor_lt_two_pow (n := 8) ha hb
  rw [rev8_eq_rev8Lin _ hab, rev8_eq_rev8Lin _ ha, rev8_eq_rev8Lin _ hb, rev8Lin_xlin]

theorem reverse_bits_lt (v : Nat) : reverse_bits_epi8 v < 2 ^ 128 :=
  Nat.or_lt_two_pow (shuffle_lt _ _) (shuffle_lt _ _)

theorem ofLanes_vecBytes (v : Nat) (hv : v < 2 ^ 128) : ofLanes 8 (vecBytes v) = v := by
  unfold vecBytes
  rw [ofLanes_toLanes]
  exact Nat.mod_eq_of_lt hv

theorem map_rev8_zipWith (l l' : List Nat) (hl : ∀ x ∈ l, x < 256) (hl' : ∀ x ∈ l', x < 256) :
    (List.zipWith (fun x y => x ^^^ y) l l').map rev8
      = List.zipWith (fun x y => x ^^^ y) (l.map rev8) (l'.map rev8) := by
  induction l generalizing l' with
  | nil => simp
  | cons x xs ih =>
    cases l' with
    | nil => simp
    | cons y ys =>
      simp only [List.zipWith_cons_cons, List.map_cons]
      rw [ih ys (fun z hz => hl z (List.mem_cons_of_mem _ hz))
        (fun z hz => hl' z (List.mem_cons_of_mem _ hz)),
        rev8_xor x (hl x (List.mem_cons_self _ _)) y (hl' y (List.mem_cons_self _ _))]

theorem reverse_bits_xlin : XLin reverse_bits_epi8 := by
  intro a b
  rw [← ofLanes_vecBytes _ (reverse_bits_lt (a ^^^ b)), ← ofLanes_vecBytes _ (reverse_bits_lt a),
    ← ofLanes_vecBytes _ (reverse_bits_lt b), vecBytes_reverse_bits, vecBytes_reverse_bits,
    vecBytes_reverse_bits]
  unfold vecBytes
  rw [toLanes_xor, map_rev8_zipWith _ _ (toLanes_lt 8 16 a) (toLanes_lt 8 16 b),
    ofLanes_zipWith_xor _ _ _ (by simp [toLanes_length])]

/-! ## The Seed Initializer -/

theorem or_eq_xor_of_and_eq_zero (a b : Nat) (h : a &&& b = 0) : a ||| b = a ^^^ b := by
  apply Nat.eq_of_testBit_eq
  intro i
  have hi : (a &&& b).testBit i = false := by rw [h]; exact Nat.zero_testBit i
  rw [Nat.testBit_and] at hi
  rw [Nat.testBit_or, Nat.testBit_xor]
  cases ha : a.testBit i <;> cases hb : b.testBit i <;> simp_all

theorem and_eq_zero_of_mod_of_lt (k a b : Nat) (ha : a % 2 ^ k = 0) (hb : b < 2 ^ k) :
    a &&& b = 0 := by
  apply Nat.eq_of_testBit_eq
  intro i
  rw [Nat.testBit_and, Nat.zero_testBit]
  by_cases hi : i < k
  · have h1 : (a % 2 ^ k).testBit i = false := by rw [ha]; exact Nat.zero_testBit i
    rw [Nat.testBit_mod_two_pow] at h1
    simp only [hi, decide_True, Bool.true_and] at h1
    simp [h1]
  · have hlt : b < 2 ^ i := lt_of_lt_of_le hb (Nat.pow_le_pow_right (by decide) (by omega))
    simp [Nat.testBit_lt_two_pow hlt]

theorem BSWAP32_eq_xor (n : Nat) :
    BSWAP32 n = ((n &&& 0xff) <<< 24) ^^^ ((n &&& 0xff00) <<< 8) ^^^ ((n &&& 0xff0000) >>> 8)
      ^^^ ((n &&& 0xff000000) >>> 24) := by
  have hA : ((n &&& 0xff) <<< 24) % 2 ^ 24 = 0 := by
    rw [Nat.shiftLeft_eq]; norm_num
  have hB1 : (n &&& 0xff00) <<< 8 < 2 ^ 24 := by
    have := @Nat.and_le_right n 0xff00
    rw [Nat.shiftLeft_eq]; norm_num; omega
  have hB2 : ((n &&& 0xff00) <<< 8) % 2 ^ 16 = 0 := by
    have h := and_mod_two_pow n 0xff00 8
    norm_num at h
    rw [Nat.shiftLeft_eq]; norm_num; omega
  have hC1 : (n &&& 0xff0000) >>> 8 < 2 ^ 16 := by
    have := @Nat.and_le_right n 0xff0000
    rw [Nat.shiftRight_eq_div_pow]; norm_num; omega
  have hC2 : ((n &&& 0xff0000) >>> 8) % 2 ^ 8 = 0 := by
    have h := and_mod_two_pow n 0xff0000 16
    norm_num at h
    rw [Nat.shiftRight_eq_div_pow]; norm_num; omega
  have hD : (n &&& 0xff000000) >>> 24 < 2 ^ 8 := by
    have := @Nat.and_le_right n 0xff000000
    rw [Nat.shiftRight_eq_div_pow]; norm_num; omega
  have hA16 : ((n &&& 0xff) <<< 24) % 2 ^ 16 = 0 := by
    rw [Nat.shiftLeft_eq]; norm_num; omega
  have hA8 : ((n &&& 0xff) <<< 24) % 2 ^ 8 = 0 := by
    rw [Nat.shiftLeft_eq]; norm_num; omega
  have hB8 : ((n &&& 0xff00) <<< 8) % 2 ^ 8 = 0 := by
    rw [Nat.shiftLeft_eq]; omega
  unfold BSWAP32
  rw [or_eq_xor_of_and_eq_zero _ _ (and_eq_zero_of_mod_of_lt 24 _ _ hA hB1)]
  rw [or_eq_xor_of_and_eq_zero _ _ (and_eq_zero_of_mod_of_lt 16 _ _
    (by rw [xor_mod_two_pow, hA16, hB2]; rfl) hC1)]
  rw [or_eq_xor_of_and_eq_zero _ _ (and_eq_zero_of_mod_of_lt 8 _ _
    (by rw [xor_mod_two_pow, xor_mod_two_pow, hA8, hB8, hC2]; rfl) hD)]

theorem BSWAP32_xlin : XLin BSWAP32 := by
  have h : BSWAP32 = fun n => ((n &&& 0xff) <<< 24) ^^^ ((n &&& 0xff00) <<< 8)
      ^^^ ((n &&& 0xff0000) >>> 8) ^^^ ((n &&& 0xff000000) >>> 24) := funext BSWAP32_eq_xor
  rw [h]
  exact XLin.xor (XLin.xor (XLin.xor
    ((shiftLeft_xlin 24).comp (and_const_xlin 0xff))
    ((shiftLeft_xlin 8).comp (and_const_xlin 0xff00)))
    ((shiftRight_xlin 8).comp (and_const_xlin 0xff0000)))
    ((shiftRight_xlin 24).comp (and_const_xlin 0xff000000))

theorem seed_init_eq (initial : Nat) :
    seed_init initial = ⟨initLane (_mm_cvtsi32_si128 (not32 (BSWAP32 initial))), 0, 0, 0⟩ := rfl

theorem initLane_xlin : XLin initLane := by
  have hc0 := clmulepi64_xlin (_mm_cvtsi32_si128 0x487b9c8a) 0
  have hm := and_const_xlin (_mm_set_epi32 (-1) (-1) (-1) 0)
  have hq := clmulepi64_xlin (_mm_set_epi32 0 0x04c11db7 1 0x04d101df) 0
  have hg := clmulepi64_xlin (_mm_set_epi32 0 0x04c11db7 1 0x04d101df) 0x11
  have hs := shuffle_xlin (_mm_set_epi32 (-1) (-1) (-1) 0x00010203)
  exact hs.comp (reverse_bits_xlin.comp
    ((XLin.xor hc0 (hg.comp (hq.comp (hm.comp hc0)))).comp reverse_bits_xlin))

theorem cvtsi32_natCast (n : Nat) : _mm_cvtsi32_si128 (n : Int) = n % 2 ^ 32 := by
  have h : ((n : Int) % 2 ^ 32).toNat = n % 2 ^ 32 := by
    have : ((n : Int) % 2 ^ 32) = ((n % 2 ^ 32 : Nat) : Int) := by norm_cast
    rw [this, Int.toNat_ofNat]
  simp only [_mm_cvtsi32_si128, ofLanes, bitsOfInt, h]
  norm_num

theorem not32_lt (x : Nat) : not32 x < 2 ^ 32 :=
  Nat.xor_lt_two_pow (Nat.mod_lt _ (by decide)) (by decide)

theorem not32_of_lt (x : Nat) (h : x < 2 ^ 32) : not32 x = x ^^^ 0xFFFFFFFF := by
  unfold not32
  rw [Nat.mod_eq_of_lt h]

theorem not32_not32 (x : Nat) (h : x < 2 ^ 32) : not32 (not32 x) = x := by
  rw [not32_of_lt _ (not32_lt x), not32_of_lt x h, Nat.xor_assoc, Nat.xor_self, Nat.xor_zero]

theorem seedReg_xlin : XLin seedReg :=
  (Z_xlin 48).comp (rB_xlin.comp initLane_xlin)

theorem mod_two_pow_xlin (n : Nat) : XLin (fun v => v % 2 ^ n) :=
  fun a b => xor_mod_two_pow a b n

theorem seedReg_basis : ∀ i < 32, seedReg (BSWAP32 (2 ^ i) % 2 ^ 32) = 2 ^ i := by
  decide!

theorem seedReg_ones : seedReg 0xFFFFFFFF = 0xFFFFFFFF := by
  decide!

theorem stateReg_lane0 (c : Nat) : stateReg ⟨c, 0, 0, 0⟩ = Z 48 (rB c) := by
  rw [stateReg_eq]
  simp only [rB_xlin.map_zero, Nat.xor_zero]
  rw [← Z_add, ← Z_add]

/-- The lanes built from the seed stand for the complemented seed. -/
theorem seed_init_spec (seed : Nat) (h : seed < 2 ^ 32) :
    (seed_init seed).WF ∧ stateReg (seed_init seed) = not32 seed := by
  constructor
  · exact ⟨shuffle_lt _ _, Nat.two_pow_pos 128, Nat.two_pow_pos 128, Nat.two_pow_pos 128⟩
  · rw [seed_init_eq, stateReg_lane0, cvtsi32_natCast, Nat.mod_eq_of_lt (not32_lt _)]
    change seedReg (not32 (BSWAP32 seed)) = not32 seed
    unfold not32
    rw [seedReg_xlin, seedReg_ones, Nat.mod_eq_of_lt h]
    congr 1
    exact XLin.ext_of_basis (f := fun v => seedReg (BSWAP32 v % 2 ^ 32)) (g := fun v => v)
      (seedReg_xlin.comp ((mod_two_pow_xlin 32).comp BSWAP32_xlin)) (fun _ _ => rfl) 32
      seedReg_basis seed h

/-! ## The folding steps on the register value -/

theorem Z_xor (n a b : Nat) : Z n (a ^^^ b) = Z n a ^^^ Z n b := Z_xlin n a b

theorem Z_Z (m n c : Nat) : Z n (Z m c) = Z (m + n) c := (Z_add m n c).symm

theorem rB_xor (a b : Nat) : rB (a ^^^ b) = rB a ^^^ rB b := rB_xlin a b

theorem raw_vec4 (c t0 t1 t2 t3 : Nat) :
    raw c (vecBytes t0 ++ vecBytes t1 ++ vecBytes t2 ++ vecBytes t3)
      = Z 64 c ^^^ Z 48 (rB t0) ^^^ Z 32 (rB t1) ^^^ Z 16 (rB t2) ^^^ rB t3 := by
  rw [raw_append_vec, raw_append_vec, raw_append_vec, raw_eq_Z_xor c (vecBytes t0),
    vecBytes_length]
  simp only [Z_xor, Z_Z, Nat.reduceAdd]
  rfl

theorem raw_vec3 (c t0 t1 t2 : Nat) :
    raw c (vecBytes t0 ++ vecBytes t1 ++ vecBytes t2)
      = Z 48 c ^^^ Z 32 (rB t0) ^^^ Z 16 (rB t1) ^^^ rB t2 := by
  rw [raw_append_vec, raw_append_vec, raw_eq_Z_xor c (vecBytes t0), vecBytes_length]
  simp only [Z_xor, Z_Z, Nat.reduceAdd]
  rfl

theorem raw_vec2 (c t0 t1 : Nat) :
    raw c (vecBytes t0 ++ vecBytes t1) = Z 32 c ^^^ Z 16 (rB t0) ^^^ rB t1 := by
  rw [raw_append_vec, raw_eq_Z_xor c (vecBytes t0), vecBytes_length]
  simp only [Z_xor, Z_Z, Nat.reduceAdd]
  rfl

theorem raw_vec1 (c t0 : Nat) : raw c (vecBytes t0) = Z 16 c ^^^ rB t0 := by
  rw [raw_eq_Z_xor c (vecBytes t0), vecBytes_length]
  rfl

theorem stateReg_mk (a b c d : Nat) :
    stateReg ⟨a, b, c, d⟩ = Z 48 (rB a) ^^^ Z 32 (rB b) ^^^ Z 16 (rB c) ^^^ rB d := by
  rw [stateReg_eq]
  simp only [Z_xor, Z_Z, Nat.reduceAdd]

theorem stateReg_eq' (s : FoldState) :
    stateReg s = Z 48 (rB s.crc0) ^^^ Z 32 (rB s.crc1) ^^^ Z 16 (rB s.crc2) ^^^ rB s.crc3 :=
  stateReg_mk s.crc0 s.crc1 s.crc2 s.crc3

/-- Block Folder: one iteration advances the register over the 64 bytes of the
four vectors. -/
theorem fold_block_spec (s : FoldState) (hs : s.WF) (t0 t1 t2 t3 : Nat)
    (h0 : t0 < 2 ^ 128) (h1 : t1 < 2 ^ 128) (h2 : t2 < 2 ^ 128) (h3 : t3 < 2 ^ 128) :
    (fold_block s t0 t1 t2 t3).WF ∧
    stateReg (fold_block s t0 t1 t2 t3)
      = raw (stateReg s) (vecBytes t0 ++ vecBytes t1 ++ vecBytes t2 ++ vecBytes t3) := by
  obtain ⟨w0, w1, w2, w3⟩ := hs
  constructor
  · exact ⟨Nat.xor_lt_two_pow (do_one_fold_lt _) h0, Nat.xor_lt_two_pow (do_one_fold_lt _) h1,
      Nat.xor_lt_two_pow (do_one_fold_lt _) h2, Nat.xor_lt_two_pow (do_one_fold_lt _) h3⟩
  · rw [raw_vec4, stateReg_eq' s]
    unfold fold_block _mm_xor_si128
    simp only []
    rw [stateReg_mk]
    simp only [rB_xor, rB_do_one_fold _ w0, rB_do_one_fold _ w1, rB_do_one_fold _ w2,
      rB_do_one_fold _ w3, Z_xor, Z_Z, Nat.reduceAdd]
    ac_rfl

/-- Tail band, three vectors. -/
theorem fold_tail3_spec (s : FoldState) (hs : s.WF) (t0 t1 t2 : Nat)
    (h0 : t0 < 2 ^ 128) (h1 : t1 < 2 ^ 128) (h2 : t2 < 2 ^ 128) :
    (fold_tail3 s t0 t1 t2).WF ∧
    stateReg (fold_tail3 s t0 t1 t2)
      = raw (stateReg s) (vecBytes t0 ++ vecBytes t1 ++ vecBytes t2) := by
  obtain ⟨w0, w1, w2, w3⟩ := hs
  constructor
  · exact ⟨w3, Nat.xor_lt_two_pow (do_one_fold_lt _) h0,
      Nat.xor_lt_two_pow (do_one_fold_lt _) h1, Nat.xor_lt_two_pow (do_one_fold_lt _) h2⟩
  · rw [raw_vec3, stateReg_eq' s]
    unfold fold_tail3 _mm_xor_si128
    simp only []
    rw [stateReg_mk]
    simp only [rB_xor, rB_do_one_fold _ w0, rB_do_one_fold _ w1, rB_do_one_fold _ w2,
      Z_xor, Z_Z, Nat.reduceAdd]
    ac_rfl

/-- Tail band, two vectors. -/
theorem fold_tail2_spec (s : FoldState) (hs : s.WF) (t0 t1 : Nat)
    (h0 : t0 < 2 ^ 128) (h1 : t1 < 2 ^ 128) :
    (fold_tail2 s t0 t1).WF ∧
    stateReg (fold_tail2 s t0 t1) = raw (stateReg s) (vecBytes t0 ++ vecBytes t1) := by
  obtain ⟨w0, w1, w2, w3⟩ := hs
  constructor
  · exact ⟨w2, w3, Nat.xor_lt_two_pow (do_one_fold_lt _) h0,
      Nat.xor_lt_two_pow (do_one_fold_lt _) h1⟩
  · rw [raw_vec2, stateReg_eq' s]
    unfold fold_tail2 _mm_xor_si128
    simp only []
    rw [stateReg_mk]
    simp only [rB_xor, rB_do_one_fold _ w0, rB_do_one_fold _ w1, Z_xor, Z_Z, Nat.reduceAdd]
    ac_rfl

/-- Tail band, one vector. -/
theorem fold_tail1_spec (s : FoldState) (hs : s.WF) (t0 : Nat) (h0 : t0 < 2 ^ 128) :
    (fold_tail1 s t0).WF ∧
    stateReg (fold_tail1 s t0) = raw (stateReg s) (vecBytes t0) := by
  obtain ⟨w0, w1, w2, w3⟩ := hs
  constructor
  · exact ⟨w1, w2, w3, Nat.xor_lt_two_pow (do_one_fold_lt _) h0⟩
  · rw [raw_vec1, stateReg_eq' s]
    unfold fold_tail1 _mm_xor_si128
    simp only []
    rw [stateReg_mk]
    simp only [rB_xor, rB_do_one_fold _ w0, Z_xor, Z_Z, Nat.reduceAdd]
    ac_rfl

/-! ## Memory and the control flow of `crc_fold` -/

theorem bufBytes_length (mem : Nat → Nat) (src n : Nat) : (bufBytes mem src n).length = n := by
  simp [bufBytes]

theorem bufBytes_lt (mem : Nat → Nat) (src n x : Nat) (hx : x ∈ bufBytes mem src n) :
    x < 256 := by
  simp only [bufBytes, List.mem_map] at hx
  obtain ⟨i, _, rfl⟩ := hx
  exact Nat.mod_lt _ (by decide)

theorem bufBytes_add (mem : Nat → Nat) (src m n : Nat) :
    bufBytes mem src (m + n) = bufBytes mem src m ++ bufBytes mem (src + m) n := by
  simp only [bufBytes, List.range_add, List.map_append, List.map_map]
  congr 1
  apply List.map_congr_left
  intro i _
  simp [Nat.add_assoc]

theorem bufBytes_take (mem : Nat → Nat) (src m n : Nat) (h : n ≤ m) :
    (bufBytes mem src m).take n = bufBytes mem src n := by
  obtain ⟨k, rfl⟩ := Nat.exists_eq_add_of_le h
  rw [bufBytes_add, List.take_left' (bufBytes_length mem src n)]

theorem bufBytes_64 (mem : Nat → Nat) (src : Nat) :
    bufBytes mem src 64 = bufBytes mem src 16 ++ bufBytes mem (src + 16) 16
      ++ bufBytes mem (src + 32) 16 ++ bufBytes mem (src + 48) 16 := by
  have h := bufBytes_add mem src (16 + 16 + 16) 16
  rw [bufBytes_add mem src (16 + 16) 16, bufBytes_add mem src 16 16] at h
  exact h

theorem bufBytes_48 (mem : Nat → Nat) (src : Nat) :
    bufBytes mem src 48 = bufBytes mem src 16 ++ bufBytes mem (src + 16) 16
      ++ bufBytes mem (src + 32) 16 := by
  have h := bufBytes_add mem src (16 + 16) 16
  rw [bufBytes_add mem src 16 16] at h
  exact h

theorem bufBytes_32 (mem : Nat → Nat) (src : Nat) :
    bufBytes mem src 32 = bufBytes mem src 16 ++ bufBytes mem (src + 16) 16 :=
  bufBytes_add mem src 16 16

theorem vecBytes_loadu (mem : Nat → Nat) (p : Nat) :
    vecBytes (_mm_loadu_si128 mem p) = bufBytes mem p 16 := by
  unfold _mm_loadu_si128 vecBytes
  have h := toLanes_ofLanes 8 ((List.range 16).map (fun i => mem (p + i)))
  rw [List.length_map, List.length_range] at h
  rw [h, List.map_map]
  rfl

theorem loadu_lt (mem : Nat → Nat) (p : Nat) : _mm_loadu_si128 mem p < 2 ^ 128 := by
  have h := ofLanes_lt 8 ((List.range 16).map (fun i => mem (p + i)))
  rw [List.length_map, List.length_range] at h
  exact h

theorem load_aligned (mem : Nat → Nat) (p : Nat) (h : p % 16 = 0) :
    _mm_load_si128 mem p = some (_mm_loadu_si128 mem p) := by
  simp [_mm_load_si128, h]

theorem crcBit_lt (c : Nat) (h : c < 2 ^ 32) : crcBit c < 2 ^ 32 := by
  unfold crcBit
  apply Nat.xor_lt_two_pow
  · rw [Nat.shiftRight_eq_div_pow]
    exact lt_of_le_of_lt (Nat.div_le_self _ _) h
  · split <;> decide

theorem upd_lt (c b : Nat) (hc : c < 2 ^ 32) (hb : b < 256) : upd c b < 2 ^ 32 := by
  have hb' : b < 2 ^ 32 := lt_trans hb (by decide)
  have h0 : c ^^^ b < 2 ^ 32 := Nat.xor_lt_two_pow hc hb'
  unfold upd
  exact crcBit_lt _ (crcBit_lt _ (crcBit_lt _ (crcBit_lt _ (crcBit_lt _ (crcBit_lt _
    (crcBit_lt _ (crcBit_lt _ h0)))))))

theorem raw_lt (l : List Nat) (hl : ∀ x ∈ l, x < 256) (c : Nat) (hc : c < 2 ^ 32) :
    raw c l < 2 ^ 32 := by
  induction l generalizing c with
  | nil => exact hc
  | cons x xs ih =>
    rw [raw_cons]
    exact ih (fun y hy => hl y (List.mem_cons_of_mem _ hy)) _
      (upd_lt c x hc (hl x (List.mem_cons_self _ _)))

theorem size_t_of_long_natCast (n : Nat) (h : n < 2 ^ 64) : size_t_of_long (n : Int) = n := by
  unfold size_t_of_long
  have : ((n : Int) % 2 ^ 64) = (n : Int) := by
    apply Int.emod_eq_of_lt
    · exact Int.natCast_nonneg n
    · exact_mod_cast h
  rw [this, Int.toNat_ofNat]

/-- From label `partial` on, for a pending tail of `1..15` bytes. -/
theorem partial_then_done_spec (n : Nat) (h1 : 1 ≤ n) (h2 : n ≤ 15) (s : FoldState)
    (part : Nat) :
    partial_then_done (n : Int) s part
      = some (raw (stateReg s) ((vecBytes part).take n) ^^^ 0xFFFFFFFF) := by
  obtain ⟨s', he, hw, hr⟩ := partial_fold_spec n h1 h2 s part
  have hn : n < 2 ^ 64 := lt_of_le_of_lt h2 (by decide)
  unfold partial_then_done
  rw [size_t_of_long_natCast n hn, he, Option.map_some', final_collapse_spec s' hw, hr]

/-- The main loop, entered with `n` bytes left at a 16-byte aligned address:
it consumes the whole 64-byte blocks and leaves `len = n % 64 - 64`. -/
theorem main_loop_spec (mem : Nat → Nat) (fuel : Nat) :
    ∀ (src n : Nat) (s : FoldState), s.WF → src % 16 = 0 → n / 64 < fuel →
      ∃ s', main_loop mem fuel src (n : Int) s
          = some (src + 64 * (n / 64), ((n % 64 : Nat) : Int) - 64, s') ∧ s'.WF ∧
        stateReg s' = raw (stateReg s) (bufBytes mem src (64 * (n / 64))) := by
  induction fuel with
  | zero => intro src n s _ _ h; omega
  | succ fuel ih =>
    intro src n s hs ha hf
    unfold main_loop
    by_cases hn : 64 ≤ n
    · have hge : (n : Int) - 64 ≥ 0 := by omega
      have hcast : (n : Int) - 64 = ((n - 64 : Nat) : Int) := by omega
      simp only [hge, if_true]
      rw [load_aligned mem src ha, load_aligned mem (src + 16) (by omega),
        load_aligned mem (src + 32) (by omega), load_aligned mem (src + 48) (by omega)]
      simp only [Option.some_bind]
      have a64 : (src + 64) % 16 = 0 := by omega
      have f64 : (n - 64) / 64 < fuel := by omega
      have e1 : src + 64 + 64 * ((n - 64) / 64) = src + 64 * (n / 64) := by omega
      have e2 : (n - 64) % 64 = n % 64 := by omega
      have e3 : 64 * (n / 64) = 64 + 64 * ((n - 64) / 64) := by omega
      obtain ⟨hw1, hr1⟩ := fold_block_spec s hs _ _ _ _ (loadu_lt mem src)
        (loadu_lt mem (src + 16)) (loadu_lt mem (src + 32)) (loadu_lt mem (src + 48))
      rw [hcast]
      obtain ⟨s', he, hw, hr⟩ := ih (src + 64) (n - 64) _ hw1 a64 f64
      refine ⟨s', ?_, hw, ?_⟩
      · rw [he, e1, e2]
      · rw [hr, hr1, ← raw_append, e3, bufBytes_add mem src 64, bufBytes_64, vecBytes_loadu,
          vecBytes_loadu, vecBytes_loadu, vecBytes_loadu]
    · have hlt : ¬ ((n : Int) - 64 ≥ 0) := by omega
      simp only [hlt, if_false]
      have e1 : n / 64 = 0 := by omega
      have e2 : n % 64 = n := by omega
      refine ⟨s, ?_, hs, ?_⟩
      · rw [e1, e2, Nat.mul_zero, Nat.add_zero]
      · rw [e1]; rfl

/-- The Tail Reducer, entered with `r < 64` bytes left at an aligned address
(so `len = r - 64`): the result is the complemented register after those bytes. -/
theorem tail_reduce_spec (mem : Nat → Nat) (src r : Nat) (s : FoldState) (hs : s.WF)
    (ha : src % 16 = 0) (hr : r < 64) :
    tail_reduce mem src ((r : Int) - 64) s
      = some (raw (stateReg s) (bufBytes mem src r) ^^^ 0xFFFFFFFF) := by
  have a16 : (src + 16) % 16 = 0 := by omega
  have a32 : (src + 32) % 16 = 0 := by omega
  have a48 : (src + 48) % 16 = 0 := by omega
  unfold tail_reduce
  by_cases c3 : 48 ≤ r
  · have hc : (r : Int) - 64 + 16 ≥ 0 := by omega
    have hcast : (r : Int) - 64 + 16 = ((r - 48 : Nat) : Int) := by omega
    have hlo : (r = 48 ∧ ((r - 48 : Nat) : Int) = 0) ∨
        (1 ≤ r - 48 ∧ r - 48 ≤ 15 ∧ r - 48 ≤ 16 ∧ 48 + (r - 48) = r ∧
          ¬ ((r - 48 : Nat) : Int) = 0) := by omega
    rw [if_pos hc, load_aligned mem src ha, load_aligned mem (src + 16) a16,
      load_aligned mem (src + 32) a32, Option.some_bind, Option.some_bind, Option.some_bind,
      hcast]
    obtain ⟨hw, hreg⟩ := fold_tail3_spec s hs _ _ _ (loadu_lt mem src)
      (loadu_lt mem (src + 16)) (loadu_lt mem (src + 32))
    rw [vecBytes_loadu, vecBytes_loadu, vecBytes_loadu, ← bufBytes_48] at hreg
    rcases hlo with ⟨hz, hz'⟩ | ⟨h1, h2, h3, e, hz'⟩
    · rw [if_pos hz', final_collapse_spec _ hw, hreg, hz]
    · rw [if_neg hz', load_aligned mem (src + 48) a48, Option.some_bind,
        partial_then_done_spec (r - 48) h1 h2, hreg, ← raw_append, vecBytes_loadu,
        bufBytes_take mem (src + 48) 16 (r - 48) h3, ← bufBytes_add, e]
  · have hc : ¬ ((r : Int) - 64 + 16 ≥ 0) := by omega
    rw [if_neg hc]
    by_cases c2 : 32 ≤ r
    · have hc : (r : Int) - 64 + 32 ≥ 0 := by omega
      have hcast : (r : Int) - 64 + 32 = ((r - 32 : Nat) : Int) := by omega
      have hlo : (r = 32 ∧ ((r - 32 : Nat) : Int) = 0) ∨
          (1 ≤ r - 32 ∧ r - 32 ≤ 15 ∧ r - 32 ≤ 16 ∧ 32 + (r - 32) = r ∧
            ¬ ((r - 32 : Nat) : Int) = 0) := by omega
      rw [if_pos hc, load_aligned mem src ha, load_aligned mem (src + 16) a16,
        Option.some_bind, Option.some_bind, hcast]
      obtain ⟨hw, hreg⟩ := fold_tail2_spec s hs _ _ (loadu_lt mem src)
        (loadu_lt mem (src + 16))
      rw [vecBytes_loadu, vecBytes_loadu, ← bufBytes_32] at hreg
      rcases hlo with ⟨hz, hz'⟩ | ⟨h1, h2, h3, e, hz'⟩
      · rw [if_pos hz', final_collapse_spec _ hw, hreg, hz]
      · rw [if_neg hz', load_aligned mem (src + 32) a32, Option.some_bind,
          partial_then_done_spec (r - 32) h1 h2, hreg, ← raw_append, vecBytes_loadu,
          bufBytes_take mem (src + 32) 16 (r - 32) h3, ← bufBytes_add, e]
    · have hc2 : ¬ ((r : Int) - 64 + 32 ≥ 0) := by omega
      rw [if_neg hc2]
      by_cases c1 : 16 ≤ r
      · have hc : (r : Int) - 64 + 48 ≥ 0 := by omega
        have hcast : (r : Int) - 64 + 48 = ((r - 16 : Nat) : Int) := by omega
        have hlo : (r = 16 ∧ ((r - 16 : Nat) : Int) = 0) ∨
            (1 ≤ r - 16 ∧ r - 16 ≤ 15 ∧ r - 16 ≤ 16 ∧ 16 + (r - 16) = r ∧
              ¬ ((r - 16 : Nat) : Int) = 0) := by omega
        rw [if_pos hc, load_aligned mem src ha, Option.some_bind, hcast]
        obtain ⟨hw, hreg⟩ := fold_tail1_spec s hs _ (loadu_lt mem src)
        rw [vecBytes_loadu] at hreg
        rcases hlo with ⟨hz, hz'⟩ | ⟨h1, h2, h3, e, hz'⟩
        · rw [if_pos hz', final_collapse_spec _ hw, hreg, hz]
        · rw [if_neg hz', load_aligned mem (src + 16) a16, Option.some_bind,
            partial_then_done_spec (r - 16) h1 h2, hreg, ← raw_append, vecBytes_loadu,
            bufBytes_take mem (src + 16) 16 (r - 16) h3, ← bufBytes_add, e]
      · have hc1 : ¬ ((r : Int) - 64 + 48 ≥ 0) := by omega
        have hcast : (r : Int) - 64 + 64 = ((r : Nat) : Int) := by omega
        have hlo : (r = 0 ∧ ((r : Nat) : Int) = 0) ∨
            (1 ≤ r ∧ r ≤ 15 ∧ r ≤ 16 ∧ ¬ ((r : Nat) : Int) = 0) := by omega
        rw [if_neg hc1, hcast]
        rcases hlo with ⟨hz, hz'⟩ | ⟨h1, h2, h3, hz'⟩
        · rw [if_pos hz', final_collapse_spec _ hs, hz]
          rfl
        · rw [if_neg hz', load_aligned mem src ha, Option.some_bind,
            partial_then_done_spec r h1 h2, vecBytes_loadu, bufBytes_take mem src 16 r h3]

theorem algn_diff_eq (src : Nat) :
    ((2 ^ 64 - src % 2 ^ 64) % 2 ^ 64) &&& 0xF = (16 - src % 16) % 16 := by
  have h := Nat.and_pow_two_sub_one_eq_mod ((2 ^ 64 - src % 2 ^ 64) % 2 ^ 64) 4
  have e : (2 : Nat) ^ 4 - 1 = 0xF := rfl
  rw [e] at h
  rw [h]
  omega

/-- Main loop and Tail Reducer together, from an aligned address with `m`
bytes left. -/
theorem loop_tail_spec (mem : Nat → Nat) (src m : Nat) (s : FoldState) (hs : s.WF)
    (ha : src % 16 = 0) :
    ((main_loop mem (m / 64 + 1) src (m : Int) s).bind fun (src, len, s) =>
        tail_reduce mem src len s)
      = some (raw (stateReg s) (bufBytes mem src m) ^^^ 0xFFFFFFFF) := by
  have a2 : (src + 64 * (m / 64)) % 16 = 0 := by omega
  have hr : m % 64 < 64 := Nat.mod_lt _ (by decide)
  have hm : 64 * (m / 64) + m % 64 = m := Nat.div_add_mod m 64
  obtain ⟨s', he, hw, hreg⟩ := main_loop_spec mem (m / 64 + 1) src m s hs ha (Nat.lt_succ_self _)
  rw [he, Option.some_bind]
  show tail_reduce mem (src + 64 * (m / 64)) (((m % 64 : Nat) : Int) - 64) s' = _
  rw [tail_reduce_spec mem _ _ s' hw a2 hr, hreg, ← raw_append, ← bufBytes_add, hm]

/-- The kernel computes the portable CRC-32, for every memory, every start
address and every non-negative length. -/
theorem crc_fold_spec (mem : Nat → Nat) (src n : Nat) (seed : Nat) (hseed : seed < 2 ^ 32) :
    crc_fold mem src (n : Int) seed = some (crc32_portable seed (bufBytes mem src n)) := by
  have hnot : ∀ l : List Nat, (∀ x ∈ l, x < 256) →
      raw (not32 seed) l ^^^ 0xFFFFFFFF = not32 (raw (not32 seed) l) := by
    intro l hl
    rw [not32_of_lt _ (raw_lt l hl _ (not32_lt seed))]
  have hcases : (n = 0 ∧ (n : Int) < 16 ∧ (n : Int) = 0) ∨
      (1 ≤ n ∧ n ≤ 15 ∧ n ≤ 16 ∧ (n : Int) < 16 ∧ ¬ (n : Int) = 0) ∨
      (16 ≤ n ∧ ¬ (n : Int) < 16) := by omega
  have hal : (16 - src % 16) % 16 = 0 ∧ src % 16 = 0 ∨
      (¬ (16 - src % 16) % 16 = 0 ∧ 1 ≤ (16 - src % 16) % 16 ∧ (16 - src % 16) % 16 ≤ 15 ∧
        (16 - src % 16) % 16 ≤ 16 ∧ (src + (16 - src % 16) % 16) % 16 = 0) := by omega
  obtain ⟨hw0, hr0⟩ := seed_init_spec seed hseed
  unfold crc_fold crc32_portable
  rcases hcases with ⟨hz, hc, hz'⟩ | ⟨h1, h2, h3, hc, hz'⟩ | ⟨h16, hc⟩
  · rw [if_pos hc, if_pos hz', hz]
    rw [show bufBytes mem src 0 = [] from rfl, raw_nil, not32_not32 seed hseed]
  · rw [if_pos hc, if_neg hz', partial_then_done_spec n h1 h2, hr0, vecBytes_loadu,
      bufBytes_take mem src 16 n h3, hnot _ (bufBytes_lt mem src n)]
  · rw [if_neg hc, algn_diff_eq]
    dsimp only
    rcases hal with ⟨ha0, ha⟩ | ⟨ha0, a1, a2, a3, ha⟩
    · rw [if_neg (not_not.mpr ha0), Option.some_bind]
      show ((main_loop mem ((n : Int).toNat / 64 + 1) src (n : Int) (seed_init seed)).bind
        fun (src, len, s) => tail_reduce mem src len s) = _
      rw [Int.toNat_ofNat, loop_tail_spec mem src n _ hw0 ha, hr0,
        hnot _ (bufBytes_lt mem src n)]
    · have hsub : (n : Int) - (((16 - src % 16) % 16 : Nat) : Int)
          = ((n - (16 - src % 16) % 16 : Nat) : Int) := by omega
      have hsum : (16 - src % 16) % 16 + (n - (16 - src % 16) % 16) = n := by omega
      obtain ⟨s1, he, hw1, hreg⟩ :=
        partial_fold_spec ((16 - src % 16) % 16) a1 a2 (seed_init seed) (_mm_loadu_si128 mem src)
      rw [if_pos ha0, he, Option.map_some', Option.some_bind, hsub]
      show ((main_loop mem (((n - (16 - src % 16) % 16 : Nat) : Int).toNat / 64 + 1)
        (src + (16 - src % 16) % 16) ((n - (16 - src % 16) % 16 : Nat) : Int) s1).bind
        fun (src, len, s) => tail_reduce mem src len s) = _
      rw [Int.toNat_ofNat, loop_tail_spec mem _ _ _ hw1 ha, hreg, hr0, vecBytes_loadu,
        bufBytes_take mem src 16 _ a3, ← raw_append, ← bufBytes_add, hsum,
        hnot _ (bufBytes_lt mem src n)]

/-! ## The properties of the specification -/

theorem long_of_size_t_of_lt (n : Nat) (h : n < 2 ^ 63) : long_of_size_t n = (n : Int) := by
  have h64 : n % 2 ^ 64 = n := Nat.mod_eq_of_lt (lt_trans h (by decide))
  unfold long_of_size_t
  rw [h64, if_pos h]

theorem stateReg_lt (s : FoldState) : stateReg s < 2 ^ 32 := by
  apply raw_lt _ _ 0 (by decide)
  intro x hx
  simp only [stateBytes, List.mem_append] at hx
  rcases hx with ((hx | hx) | hx) | hx <;> exact vecBytes_lt _ x hx

/-- A step that advances the register over the bytes `d` advances the value of
the Final Collapser accordingly. -/
theorem final_collapse_step (s s' : FoldState) (hs : s.WF) (hs' : s'.WF) (d : List Nat)
    (hd : ∀ x ∈ d, x < 256) (h : stateReg s' = raw (stateReg s) d) :
    final_collapse s' = not32 (raw (not32 (final_collapse s)) d) := by
  have e1 : not32 (final_collapse s) = stateReg s := by
    rw [final_collapse_spec s hs, ← not32_of_lt _ (stateReg_lt s), not32_not32 _ (stateReg_lt s)]
  rw [e1, final_collapse_spec s' hs', h, not32_of_lt _ (raw_lt d hd _ (stateReg_lt s))]

theorem mem_append_vecBytes_lt (l : List Nat) (hl : ∀ x ∈ l, x < 256) (v : Nat) :
    ∀ x ∈ l ++ vecBytes v, x < 256 := by
  intro x hx
  rcases List.mem_append.mp hx with h | h
  · exact hl x h
  · exact vecBytes_lt v x h

/-- The exported routine computes the portable CRC-32 for every length that
fits a signed `long`. -/
theorem do_crc32_spec (mem : Nat → Nat) (src n seed : Nat) (hn : n < 2 ^ 63)
    (hseed : seed < 2 ^ 32) :
    do_crc32_incremental_clmul mem src n seed
      = some (crc32_portable seed (bufBytes mem src n)) := by
  unfold do_crc32_incremental_clmul
  rw [long_of_size_t_of_lt n hn, crc_fold_spec mem src n seed hseed]

/-- C1. For every memory, start address (hence every start alignment), length
`n` that fits a signed `long` and 32-bit seed, `crc_fold` returns the portable
byte-wise CRC-32 of the buffer, `NOT raw(NOT seed, buf)`, and so does
`do_crc32_incremental_clmul`, which hands it the length converted to `long`. -/
theorem crc_fold_eq_portable (mem : Nat → Nat) (src n seed : Nat) (hn : n < 2 ^ 63)
    (hseed : seed < 2 ^ 32) :
    crc_fold mem src (n : Int) seed = some (not32 (raw (not32 seed) (bufBytes mem src n))) ∧
    do_crc32_incremental_clmul mem src n seed
      = some (not32 (raw (not32 seed) (bufBytes mem src n))) := by
  exact ⟨crc_fold_spec mem src n seed hseed, do_crc32_spec mem src n seed hn hseed⟩

theorem crc_fold_eq_portable_witness :
    crc_fold (memOf 3 digits 0xAA) 3 ((9 : Nat) : Int) 0x12345678
        = some (not32 (raw (not32 0x12345678) (bufBytes (memOf 3 digits 0xAA) 3 9))) ∧
      do_crc32_incremental_clmul (memOf 3 digits 0xAA) 3 9 0x12345678
        = some (not32 (raw (not32 0x12345678) (bufBytes (memOf 3 digits 0xAA) 3 9))) :=
  crc_fold_eq_portable (memOf 3 digits 0xAA) 3 9 0x12345678 (by decide) (by decide)

/-- C2. With length 0 the seed comes back unchanged, whatever the memory holds
and whatever the buffer address is: the result does not depend on any byte of
the memory. -/
theorem crc_fold_length_zero (mem : Nat → Nat) (src seed : Nat) :
    crc_fold mem src 0 seed = some seed ∧
    do_crc32_incremental_clmul mem src 0 seed = some seed ∧
    ∀ mem' : Nat → Nat, crc_fold mem' src 0 seed = crc_fold mem src 0 seed := by
  have h : ∀ m : Nat → Nat, crc_fold m src 0 seed = some seed := by
    intro m
    unfold crc_fold
    rw [if_pos (by decide), if_pos rfl]
  refine ⟨h mem, ?_, fun m => by rw [h m, h mem]⟩
  unfold do_crc32_incremental_clmul
  rw [show long_of_size_t 0 = 0 from rfl]
  exact h mem

/-- C3. Chunk-length independence: when a first call runs over the bytes `a`
(`k` of them) and a second call over the bytes `b` (`m` of them) is seeded with
the value the first one returned, the result is that of one call over `a ++ b`.
The three buffers may lie at any addresses, in any memories. -/
theorem crc_fold_chunks (mem1 mem2 mem3 : Nat → Nat) (src1 src2 src3 k m seed : Nat)
    (hseed : seed < 2 ^ 32)
    (hbuf : bufBytes mem3 src3 (k + m) = bufBytes mem1 src1 k ++ bufBytes mem2 src2 m) :
    ∃ c, crc_fold mem1 src1 (k : Int) seed = some c ∧
      crc_fold mem2 src2 (m : Int) c = crc_fold mem3 src3 ((k + m : Nat) : Int) seed := by
  have hc : raw (not32 seed) (bufBytes mem1 src1 k) < 2 ^ 32 :=
    raw_lt _ (bufBytes_lt mem1 src1 k) _ (not32_lt seed)
  refine ⟨_, crc_fold_spec mem1 src1 k seed hseed, ?_⟩
  unfold crc32_portable
  rw [crc_fold_spec mem2 src2 m _ (not32_lt _), crc_fold_spec mem3 src3 (k + m) seed hseed, hbuf]
  unfold crc32_portable
  rw [not32_not32 _ hc, raw_append]

theorem crc_fold_chunks_witness :
    ∃ c, crc_fold (memOf 3 digits 0) 3 ((4 : Nat) : Int) 0 = some c ∧
      crc_fold (memOf 3 digits 0) 7 ((5 : Nat) : Int) c
        = crc_fold (memOf 16 digits 0xAA) 16 ((4 + 5 : Nat) : Int) 0 :=
  crc_fold_chunks (memOf 3 digits 0) (memOf 3 digits 0) (memOf 16 digits 0xAA) 3 7 16 4 5 0
    (by decide) (by decide)

/-- C4. Alignment independence: the same buffer content at two addresses (of
any two alignments, so in particular one that takes the Alignment Preprocessor
and one that skips it) gives the same value. -/
theorem crc_fold_alignment (mem1 mem2 : Nat → Nat) (src1 src2 n seed : Nat)
    (hseed : seed < 2 ^ 32) (hbuf : bufBytes mem1 src1 n = bufBytes mem2 src2 n) :
    ∃ c, crc_fold mem1 src1 (n : Int) seed = some c ∧ crc_fold mem2 src2 (n : Int) seed = some c := by
  refine ⟨_, crc_fold_spec mem1 src1 n seed hseed, ?_⟩
  rw [crc_fold_spec mem2 src2 n seed hseed, hbuf]

theorem crc_fold_alignment_witness :
    ∃ c, crc_fold (memOf 21 (digits ++ digits ++ digits) 0x55) 21 ((27 : Nat) : Int) 7 = some c ∧
      crc_fold (memOf 32 (digits ++ digits ++ digits) 0) 32 ((27 : Nat) : Int) 7 = some c :=
  crc_fold_alignment (memOf 21 (digits ++ digits ++ digits) 0x55)
    (memOf 32 (digits ++ digits ++ digits) 0) 21 32 27 7 (by decide) (by decide)

/-- C5, as stated, fails: with seed `0xFFFFFFFF` and a final complement the
nine digits do not give `0xCBF43926`. -/
theorem known_vector_ones_seed_counterexample :
    (do_crc32_incremental_clmul (memOf 0 digits 0) 0 9 0xFFFFFFFF).map not32
      ≠ some 0xCBF43926 := by
  rw [do_crc32_spec (memOf 0 digits 0) 0 9 0xFFFFFFFF (by decide) (by decide)]
  decide!

/-- C5, amended. The kernel complements the seed on entry and the result on
exit itself: over the nine digits, wherever they lie in memory, the exported
routine returns `0xCBF43926` for seed 0 with no further complement; for seed
`0xFFFFFFFF` followed by a complement the value is `0x2DFD2D88`. -/
theorem known_vector_amended (mem : Nat → Nat) (src : Nat) (h : bufBytes mem src 9 = digits) :
    do_crc32_incremental_clmul mem src 9 0 = some 0xCBF43926 ∧
    (do_crc32_incremental_clmul mem src 9 0xFFFFFFFF).map not32 = some 0x2DFD2D88 := by
  rw [do_crc32_spec mem src 9 0 (by decide) (by decide),
    do_crc32_spec mem src 9 0xFFFFFFFF (by decide) (by decide), h]
  decide!

theorem known_vector_amended_witness :
    do_crc32_incremental_clmul (memOf 5 digits 0xAA) 5 9 0 = some 0xCBF43926 ∧
    (do_crc32_incremental_clmul (memOf 5 digits 0xAA) 5 9 0xFFFFFFFF).map not32
      = some 0x2DFD2D88 :=
  known_vector_amended (memOf 5 digits 0xAA) 5 (by decide)

/-- C6. Registration, with the slot as explicit state: when the capability is
present the slot holds `do_crc32_incremental_clmul` after the call whatever it
held before, so that a call through it returns `crc_fold` of the data with the
length converted to `long`; when the capability is absent the slot is left as
it was. -/
theorem crc_clmul_set_funcs_slot (slot : crc_func) :
    crc_clmul_set_funcs true slot = do_crc32_incremental_clmul ∧
    (∀ (mem : Nat → Nat) (data length init : Nat),
      crc_clmul_set_funcs true slot mem data length init
        = crc_fold mem data (long_of_size_t length) init) ∧
    crc_clmul_set_funcs false slot = slot :=
  ⟨rfl, fun _ _ _ _ => rfl, rfl⟩

/-- C7. FoldState invariant. For every well-formed four-lane state `s`, the
Final Collapser's value after (i) a 64-byte Block Folder iteration, (ii) a tail
band folding one, two or three vectors, (iii) `partial_fold` with `1 ≤ n ≤ 15`
new bytes, is the byte-wise CRC-32 continued over the consumed bytes from the
Final Collapser's value of `s`: `collapse(step(s, d)) = NOT raw(NOT collapse(s), d)`. -/
theorem fold_steps_preserve_invariant (s : FoldState) (hs : s.WF) (t0 t1 t2 t3 n : Nat)
    (h0 : t0 < 2 ^ 128) (h1 : t1 < 2 ^ 128) (h2 : t2 < 2 ^ 128) (h3 : t3 < 2 ^ 128)
    (hn1 : 1 ≤ n) (hn2 : n ≤ 15) :
    final_collapse (fold_block s t0 t1 t2 t3)
      = not32 (raw (not32 (final_collapse s))
          (vecBytes t0 ++ vecBytes t1 ++ vecBytes t2 ++ vecBytes t3)) ∧
    final_collapse (fold_tail1 s t0)
      = not32 (raw (not32 (final_collapse s)) (vecBytes t0)) ∧
    final_collapse (fold_tail2 s t0 t1)
      = not32 (raw (not32 (final_collapse s)) (vecBytes t0 ++ vecBytes t1)) ∧
    final_collapse (fold_tail3 s t0 t1 t2)
      = not32 (raw (not32 (final_collapse s)) (vecBytes t0 ++ vecBytes t1 ++ vecBytes t2)) ∧
    ∃ s', partial_fold n s t0 = some s' ∧
      final_collapse s' = not32 (raw (not32 (final_collapse s)) ((vecBytes t0).take n)) := by
  have b0 : ∀ x ∈ vecBytes t0, x < 256 := vecBytes_lt t0
  have b1 := mem_append_vecBytes_lt _ b0 t1
  have b2 := mem_append_vecBytes_lt _ b1 t2
  have b3 := mem_append_vecBytes_lt _ b2 t3
  obtain ⟨wb, rb⟩ := fold_block_spec s hs t0 t1 t2 t3 h0 h1 h2 h3
  obtain ⟨w1, r1⟩ := fold_tail1_spec s hs t0 h0
  obtain ⟨w2, r2⟩ := fold_tail2_spec s hs t0 t1 h0 h1
  obtain ⟨w3, r3⟩ := fold_tail3_spec s hs t0 t1 t2 h0 h1 h2
  obtain ⟨s', he, wp, rp⟩ := partial_fold_spec n hn1 hn2 s t0
  refine ⟨final_collapse_step s _ hs wb _ b3 rb, final_collapse_step s _ hs w1 _ b0 r1,
    final_collapse_step s _ hs w2 _ b1 r2, final_collapse_step s _ hs w3 _ b2 r3,
    s', he, final_collapse_step s s' hs wp _ ?_ rp⟩
  intro x hx
  exact b0 x (List.mem_of_mem_take hx)

theorem fold_steps_preserve_invariant_witness :
    final_collapse (fold_block ⟨1, 2, 3, 4⟩ 5 6 7 8)
      = not32 (raw (not32 (final_collapse ⟨1, 2, 3, 4⟩))
          (vecBytes 5 ++ vecBytes 6 ++ vecBytes 7 ++ vecBytes 8)) ∧
    final_collapse (fold_tail1 ⟨1, 2, 3, 4⟩ 5)
      = not32 (raw (not32 (final_collapse ⟨1, 2, 3, 4⟩)) (vecBytes 5)) ∧
    final_collapse (fold_tail2 ⟨1, 2, 3, 4⟩ 5 6)
      = not32 (raw (not32 (final_collapse ⟨1, 2, 3, 4⟩)) (vecBytes 5 ++ vecBytes 6)) ∧
    final_collapse (fold_tail3 ⟨1, 2, 3, 4⟩ 5 6 7)
      = not32 (raw (not32 (final_collapse ⟨1, 2, 3, 4⟩))
          (vecBytes 5 ++ vecBytes 6 ++ vecBytes 7)) ∧
    ∃ s', partial_fold 3 ⟨1, 2, 3, 4⟩ 5 = some s' ∧
      final_collapse s'
        = not32 (raw (not32 (final_collapse ⟨1, 2, 3, 4⟩)) ((vecBytes 5).take 3)) :=
  fold_steps_preserve_invariant ⟨1, 2, 3, 4⟩ ⟨by decide, by decide, by decide, by decide⟩
    5 6 7 8 3 (by decide) (by decide) (by decide) (by decide) (by decide) (by decide)

/-- C8. The length-0 shortcut agrees with the general path: collapsing the
state the Seed Initializer builds, with no data folded in, gives the seed. -/
theorem final_collapse_seed_init (seed : Nat) (hseed : seed < 2 ^ 32) :
    final_collapse (seed_init seed) = seed := by
  obtain ⟨hw, hr⟩ := seed_init_spec seed hseed
  rw [final_collapse_spec _ hw, hr, ← not32_of_lt _ (not32_lt seed), not32_not32 seed hseed]

theorem final_collapse_seed_init_witness :
    final_collapse (seed_init 0xDEADBEEF) = 0xDEADBEEF :=
  final_collapse_seed_init 0xDEADBEEF (by decide)

/-- C9. In the convention the code implements, the nine digits with seed 0
give `0xCBF43926`, at every address the buffer may start at and whatever
follows it in memory. -/
theorem crc_fold_digits (mem : Nat → Nat) (src : Nat) (h : bufBytes mem src 9 = digits) :
    crc_fold mem src 9 0 = some 0xCBF43926 := by
  have e := crc_fold_spec mem src 9 0 (by decide)
  rw [h] at e
  rw [show ((9 : Int)) = ((9 : Nat) : Int) from rfl, e]
  decide!

theorem crc_fold_digits_witness :
    crc_fold (memOf 7 digits 0xEE) 7 9 0 = some 0xCBF43926 :=
  crc_fold_digits (memOf 7 digits 0xEE) 7 (by decide)

/-- C10, as stated, fails: on the all-zero state the Final Collapser returns
`0xFFFFFFFF`, while the register value of 64 zero bytes is 0. -/
theorem final_collapse_no_complement_counterexample :
    final_collapse ⟨0, 0, 0, 0⟩ ≠ raw 0 (stateBytes ⟨0, 0, 0, 0⟩) := by
  decide!

/-- C10, amended. For every four-lane state the Final Collapser returns the
complement of the register value `raw(0, l0 || l1 || l2 || l3)` of the 64 bytes
of the lanes in memory order: the XOR with `crc_mask` at line 391 inverts the
word that is extracted. -/
theorem final_collapse_complement (s : FoldState) (hs : s.WF) :
    final_collapse s = not32 (raw 0 (stateBytes s)) := by
  rw [final_collapse_spec s hs, ← not32_of_lt _ (stateReg_lt s)]
  rfl

theorem final_collapse_complement_witness :
    final_collapse ⟨1, 2, 3, 4⟩ = not32 (raw 0 (stateBytes ⟨1, 2, 3, 4⟩)) :=
  final_collapse_complement ⟨1, 2, 3, 4⟩ ⟨by decide, by decide, by decide, by decide⟩

/-! ## Polynomial arithmetic over GF(2) -/

theorem polyDegAux_eq_log2 (fuel a : Nat) (h : a ≤ fuel) : polyDegAux fuel a = Nat.log2 a := by
  induction fuel generalizing a with
  | zero =>
    have : a = 0 := by omega
    rw [this, Nat.log2_zero]
    rfl
  | succ fuel ih =>
    rw [Nat.log2]
    simp only [polyDegAux]
    by_cases h2 : a / 2 = 0
    · have : ¬ a ≥ 2 := by omega
      rw [if_pos h2, if_neg this]
    · have : a ≥ 2 := by omega
      rw [if_neg h2, if_pos this, ih (a / 2) (by omega)]

theorem polyDeg_eq_log2 (a : Nat) : polyDeg a = Nat.log2 a :=
  polyDegAux_eq_log2 a a (Nat.le_refl a)

theorem polyDeg_generator : polyDeg 0x104C11DB7 = 32 := by
  decide!

theorem clmulAux_zero (n a : Nat) : clmulAux n a 0 = 0 := by
  induction n generalizing a with
  | zero => rfl
  | succ n ih => simp [clmulAux, ih]

theorem clmulAux_fuel (n a b : Nat) (hb : b < 2 ^ n) (k : Nat) :
    clmulAux (n + k) a b = clmulAux n a b := by
  induction n generalizing a b with
  | zero =>
    have : b = 0 := by simpa using hb
    rw [this, clmulAux_zero, clmulAux_zero]
  | succ n ih =>
    have h : n + 1 + k = (n + k) + 1 := by omega
    have hb2 : b / 2 < 2 ^ n := by
      rw [Nat.pow_succ] at hb; omega
    rw [h]
    simp only [clmulAux, ih _ _ hb2]

theorem clmul_eq_clmulAux (n a b : Nat) (hb : b < 2 ^ n) : clmul a b = clmulAux n a b := by
  unfold clmul
  rw [polyDeg_eq_log2]
  by_cases h0 : b = 0
  · rw [h0, clmulAux_zero, clmulAux_zero]
  · have h1 : Nat.log2 b + 1 ≤ n := (Nat.log2_lt h0).mpr hb
    obtain ⟨k, hk⟩ := Nat.exists_eq_add_of_le h1
    rw [hk, clmulAux_fuel _ _ _ Nat.lt_log2_self]

theorem polyModAux_fuel (g d i a : Nat) (ha : a < 2 ^ (d + i)) (k : Nat) :
    polyModAux g d (i + k) a = polyModAux g d i a := by
  induction k with
  | zero => rfl
  | succ k ih =>
    have hlt : a < 2 ^ (d + (i + k)) :=
      lt_of_lt_of_le ha (Nat.pow_le_pow_right (by decide) (by omega))
    have h : i + (k + 1) = (i + k) + 1 := by omega
    rw [h]
    simp only [polyModAux, Nat.testBit_lt_two_pow hlt]
    exact ih

theorem polyMod_eq_aux (g a k : Nat) (hk : a < 2 ^ (polyDeg g + k)) :
    polyMod a g = polyModAux g (polyDeg g) k a := by
  unfold polyMod
  rw [polyDeg_eq_log2 g] at hk ⊢
  rw [polyDeg_eq_log2 a]
  by_cases hlow : a < 2 ^ Nat.log2 g
  · have h1 := polyModAux_fuel g (Nat.log2 g) 0 a hlow (Nat.log2 a + 1 - Nat.log2 g)
    have h2 := polyModAux_fuel g (Nat.log2 g) 0 a hlow k
    rw [Nat.zero_add] at h1 h2
    rw [h1, h2]
  · have h0 : a ≠ 0 := by
      intro h
      rw [h] at hlow
      exact hlow (Nat.two_pow_pos _)
    have hge : Nat.log2 g ≤ Nat.log2 a := (Nat.le_log2 h0).mpr (Nat.le_of_not_lt hlow)
    have hlt : Nat.log2 a < Nat.log2 g + k := (Nat.log2_lt h0).mpr hk
    have hfuel : a < 2 ^ (Nat.log2 g + (Nat.log2 a + 1 - Nat.log2 g)) := by
      have e : Nat.log2 g + (Nat.log2 a + 1 - Nat.log2 g) = Nat.log2 a + 1 := by omega
      rw [e]
      exact Nat.lt_log2_self
    have hsplit : k = (Nat.log2 a + 1 - Nat.log2 g) + (k - (Nat.log2 a + 1 - Nat.log2 g)) := by
      omega
    rw [hsplit, polyModAux_fuel g _ _ a hfuel]

theorem polyModAux_xlin (g d i : Nat) : XLin (polyModAux g d i) := by
  induction i with
  | zero => intro a b; rfl
  | succ i ih =>
    intro a b
    simp only [polyModAux]
    rw [← ih]
    congr 1
    rw [Nat.testBit_xor]
    cases ha : a.testBit (d + i) <;> cases hb : b.testBit (d + i) <;> simp
    · ac_rfl
    · ac_rfl
    · exact (xor_cancel_mid a b (g <<< i)).symm

theorem bitrev_lt (n x : Nat) : bitrev n x < 2 ^ n := by
  induction n generalizing x with
  | zero => simp [bitrev]
  | succ n ih =>
    have h1 := ih (x / 2)
    have h2 : x % 2 < 2 := Nat.mod_lt _ (by decide)
    have h3 : 2 ^ n * (x % 2) ≤ 2 ^ n * 1 := Nat.mul_le_mul_left _ (by omega)
    simp only [bitrev, Nat.pow_succ]
    omega

theorem bitrev_xlin (n : Nat) : XLin (bitrev n) := by
  induction n with
  | zero => intro a b; simp [bitrev]
  | succ n ih =>
    intro a b
    have hm : (a ^^^ b) % 2 = a % 2 ^^^ b % 2 := by
      have := xor_mod_two_pow a b 1
      simpa using this
    simp only [bitrev, Nat.xor_div_two, hm, ih (a / 2) (b / 2)]
    rw [Nat.add_comm, add_mul_xor n _ _ _ _ (bitrev_lt n _) (bitrev_lt n _),
      Nat.add_comm (bitrev n (a / 2)), Nat.add_comm (bitrev n (b / 2))]


/-! ## The fold constants and the seed projection -/

theorem fold4_lanes :
    toLanes 64 2 (_mm_set_epi32 0x00000001 0x54442bd4 0x00000001 0xc6e41596)
      = [0x1c6e41596, 0x154442bd4] := by
  decide!

theorem toLanes64_of_lt (v : Nat) (hv : v < 2 ^ 128) :
    toLanes 64 2 v = [v % 2 ^ 64, v / 2 ^ 64] := by
  have h : v / 2 ^ 64 % 2 ^ 64 = v / 2 ^ 64 := by
    apply Nat.mod_eq_of_lt
    rw [Nat.div_lt_iff_lt_mul (Nat.two_pow_pos 64), ← Nat.pow_add]
    exact hv
  simp only [toLanes, h]

theorem do_one_fold_eq_clmul (v : Nat) (hv : v < 2 ^ 128) :
    do_one_fold v = clmul (v / 2 ^ 64) 0x1c6e41596 ^^^ clmul (v % 2 ^ 64) 0x154442bd4 := by
  rw [clmul_eq_clmulAux 64 _ _ (by decide), clmul_eq_clmulAux 64 _ _ (by decide)]
  unfold do_one_fold fold_xor _mm_xor_si128 _mm_clmulepi64_si128
  simp only [fold4_lanes, toLanes64_of_lt v hv]
  rfl

/-- C11. The fold primitive advances a lane by 64 bytes: `do_one_fold v` is the
high half of `v` times `0x1c6e41596` XOR the low half times `0x154442bd4`
(carry-less), and the byte-wise register run from 0 over its sixteen bytes
equals the register run over the sixteen bytes of `v` followed by 64 zero
bytes, which is `v` times `x ^ 512` modulo the generator in the reflected
convention. -/
theorem do_one_fold_advances_64_bytes (v : Nat) (hv : v < 2 ^ 128) :
    do_one_fold v = clmul (v / 2 ^ 64) 0x1c6e41596 ^^^ clmul (v % 2 ^ 64) 0x154442bd4 ∧
    raw 0 (vecBytes (do_one_fold v)) = raw 0 (vecBytes v ++ List.replicate 64 0) := by
  refine ⟨do_one_fold_eq_clmul v hv, ?_⟩
  rw [raw_append]
  exact rB_do_one_fold v hv

theorem do_one_fold_advances_64_bytes_witness :
    do_one_fold 0x0123456789abcdef0011223344556677
        = clmul (0x0123456789abcdef0011223344556677 / 2 ^ 64) 0x1c6e41596
          ^^^ clmul (0x0123456789abcdef0011223344556677 % 2 ^ 64) 0x154442bd4 ∧
      raw 0 (vecBytes (do_one_fold 0x0123456789abcdef0011223344556677))
        = raw 0 (vecBytes 0x0123456789abcdef0011223344556677 ++ List.replicate 64 0) :=
  do_one_fold_advances_64_bytes 0x0123456789abcdef0011223344556677 (by decide)

theorem barrett_reduce_xlin : XLin barrett_reduce := by
  have hm := and_const_xlin (_mm_set_epi32 (-1) (-1) (-1) 0)
  have hq := clmulepi64_xlin (_mm_set_epi32 0 0x04c11db7 1 0x04d101df) 0
  have hg := clmulepi64_xlin (_mm_set_epi32 0 0x04c11db7 1 0x04d101df) 0x11
  exact XLin.xor (fun _ _ => rfl) (hg.comp (hq.comp hm))

theorem barrett_reduce_basis :
    ∀ i < 63, barrett_reduce (2 ^ i) % 2 ^ 32 = polyModAux 0x104C11DB7 32 31 (2 ^ i) := by
  decide!

/-- The two multiplications by `Q+` and `G*` leave, in the low 32 bits, the
remainder of a product of degree below 63 modulo the generator. -/
theorem barrett_reduce_exact (p : Nat) (hp : p < 2 ^ 63) :
    barrett_reduce p % 2 ^ 32 = polyMod p 0x104C11DB7 := by
  have h := polyMod_eq_aux 0x104C11DB7 p 31 (by rw [polyDeg_generator]; exact hp)
  rw [polyDeg_generator] at h
  rw [h]
  exact XLin.ext_of_basis (f := fun v => barrett_reduce v % 2 ^ 32)
    ((mod_two_pow_xlin 32).comp barrett_reduce_xlin) (polyModAux_xlin _ _ _) 63
    barrett_reduce_basis p hp

/-- The lane the Seed Initializer builds, as a function of the complemented
seed. -/
theorem initLane_basis :
    ∀ i < 32, initLane (BSWAP32 (2 ^ i) % 2 ^ 32)
      = bitrev 32 (polyModAux 0x104C11DB7 32 31 (clmulAux 31 (bitrev 32 (2 ^ i)) 0x487b9c8a)) := by
  decide!

theorem BSWAP32_ones : BSWAP32 0xFFFFFFFF % 2 ^ 32 = 0xFFFFFFFF := by
  decide!

theorem seed_lane_eq (seed : Nat) (hseed : seed < 2 ^ 32) :
    (seed_init seed).crc0
      = bitrev32 (polyMod (clmul (bitrev32 (not32 seed)) 0x487b9c8a) 0x104C11DB7) := by
  have hx : not32 seed < 2 ^ 32 := not32_lt seed
  have hprod : clmulAux 31 (bitrev 32 (not32 seed)) 0x487b9c8a < 2 ^ (32 + 31) :=
    clmulAux_lt 31 32 _ _ (bitrev_lt 32 _)
  have hmod := polyMod_eq_aux 0x104C11DB7 (clmulAux 31 (bitrev 32 (not32 seed)) 0x487b9c8a) 31
    (by rw [polyDeg_generator]; exact hprod)
  rw [polyDeg_generator] at hmod
  have hlin : XLin (fun v => initLane (BSWAP32 v % 2 ^ 32)) :=
    initLane_xlin.comp ((mod_two_pow_xlin 32).comp BSWAP32_xlin)
  have hlin2 : XLin (fun v =>
      bitrev 32 (polyModAux 0x104C11DB7 32 31 (clmulAux 31 (bitrev 32 v) 0x487b9c8a))) :=
    (bitrev_xlin 32).comp ((polyModAux_xlin _ _ _).comp
      (XLin.comp (f := fun v => clmulAux 31 v 0x487b9c8a) (fun a b => clmulAux_xor 31 a b _)
        (bitrev_xlin 32)))
  have hxb := XLin.ext_of_basis hlin hlin2 32 initLane_basis (not32 seed) hx
  have hb : BSWAP32 (not32 seed) % 2 ^ 32 = not32 (BSWAP32 seed) := by
    unfold not32
    rw [Nat.mod_eq_of_lt hseed, BSWAP32_xlin, xor_mod_two_pow, BSWAP32_ones]
  unfold bitrev32
  rw [clmul_eq_clmulAux 31 _ _ (by decide), hmod, ← hxb]
  show initLane (_mm_cvtsi32_si128 ((not32 (BSWAP32 seed) : Nat) : Int)) = _
  rw [cvtsi32_natCast, Nat.mod_eq_of_lt (not32_lt _)]
  show _ = initLane (BSWAP32 (not32 seed) % 2 ^ 32)
  rw [hb]

/-- C12. Seed Initializer output: for every 32-bit seed lanes 1..3 are zero,
lane 0 is below `2 ^ 32` (its upper 96 bits are zero) and equals
`bitrev32 ((bitrev32 (NOT seed) * 0x487b9c8a) mod 0x104C11DB7)` with the
carry-less product and the polynomial remainder over GF(2); the two
multiplications by `Q+` and `G*` reduce every product below `2 ^ 63` exactly;
seed 0 gives lane 0 = `0x9db42487`. -/
theorem seed_init_output (seed : Nat) (hseed : seed < 2 ^ 32) :
    (seed_init seed).crc1 = 0 ∧ (seed_init seed).crc2 = 0 ∧ (seed_init seed).crc3 = 0 ∧
    (seed_init seed).crc0 < 2 ^ 32 ∧
    (seed_init seed).crc0
      = bitrev32 (polyMod (clmul (bitrev32 (not32 seed)) 0x487b9c8a) 0x104C11DB7) ∧
    (∀ p, p < 2 ^ 63 → barrett_reduce p % 2 ^ 32 = polyMod p 0x104C11DB7) ∧
    (seed_init 0).crc0 = 0x9db42487 := by
  have h := seed_lane_eq seed hseed
  refine ⟨rfl, rfl, rfl, ?_, h, barrett_reduce_exact, ?_⟩
  · rw [h]
    exact bitrev_lt 32 _
  · rw [seed_lane_eq 0 (by decide)]
    decide!

theorem seed_init_output_witness :
    (seed_init 0x12345678).crc1 = 0 ∧ (seed_init 0x12345678).crc2 = 0 ∧
    (seed_init 0x12345678).crc3 = 0 ∧ (seed_init 0x12345678).crc0 < 2 ^ 32 ∧
    (seed_init 0x12345678).crc0
      = bitrev32 (polyMod (clmul (bitrev32 (not32 0x12345678)) 0x487b9c8a) 0x104C11DB7) ∧
    (∀ p, p < 2 ^ 63 → barrett_reduce p % 2 ^ 32 = polyMod p 0x104C11DB7) ∧
    (seed_init 0).crc0 = 0x9db42487 :=
  seed_init_output 0x12345678 (by decide)

/-- C13. The seed-projection constant of line 178 is the inverse of `x ^ 512`
modulo the generator: the operand handed to the multiply is `0x487b9c8a`, and
its carry-less product with `x ^ 512 mod 0x104C11DB7` leaves remainder 1. -/
theorem seed_constant_inverse_x512 :
    _mm_cvtsi32_si128 0x487b9c8a = 0x487b9c8a ∧
    polyMod (clmul 0x487b9c8a (polyMod (2 ^ 512) 0x104C11DB7)) 0x104C11DB7 = 1 := by
  decide!


/-! ## `partial_fold` as a byte queue -/

theorem shuffle_shl_eq (n : Nat) (h1 : 1 ≤ n) (h2 : n ≤ 15) (p : Nat) :
    _mm_shuffle_epi8 p (shlCtl n) = ofLanes 8 (List.replicate (16 - n) 0 ++ (vecBytes p).take n) := by
  rw [shuffle_eq, selBytes_shl n h1 h2 _ (vecBytes_length p)]

theorem queue_window (n : Nat) (h2 : n ≤ 15) (s : FoldState) (part : Nat) :
    ((stateBytes s ++ vecBytes part).drop n).take 64
      = (stateBytes s).drop n ++ (vecBytes part).take n := by
  have hl : (stateBytes s).length = 64 := stateBytes_length s
  have hd : ((stateBytes s).drop n).length = 64 - n := by rw [List.length_drop, hl]
  rw [List.drop_append_of_le_length (by omega), List.take_append_eq_append_take, hd,
    List.take_of_length_le (by omega)]
  congr 2
  omega

/-- C14. Partial-Fold step 1 is a byte-queue shift. For `1 ≤ n ≤ 15` the call
returns lanes `l0, l1, l2` and lane 3 = `fold_xor (do_one_fold carry) l3`, where
`carry` is `xmm_a0_0` and `l3` the lane 3 the shuffles produce; the bytes of
`l0, l1, l2, l3` are bytes `n .. n + 63` of the 80-byte sequence
lane0 || lane1 || lane2 || lane3 || new data, that is the old queue without its
oldest `n` bytes followed by the first `n` new bytes; and `carry` holds the
displaced `n` bytes in byte positions `16 - n .. 15` with zeros below. -/
theorem partial_fold_queue_shift (n : Nat) (h1 : 1 ≤ n) (h2 : n ≤ 15) (s : FoldState)
    (part : Nat) :
    ∃ l0 l1 l2 l3 carry,
      carry = _mm_shuffle_epi8 s.crc0 (tableVec pshufb_shf_table (n - 1)) ∧
      partial_fold n s part = some ⟨l0, l1, l2, fold_xor (do_one_fold carry) l3⟩ ∧
      vecBytes l0 ++ vecBytes l1 ++ vecBytes l2 ++ vecBytes l3
        = ((stateBytes s ++ vecBytes part).drop n).take 64 ∧
      ((stateBytes s ++ vecBytes part).drop n).take 64
        = (stateBytes s).drop n ++ (vecBytes part).take n ∧
      vecBytes carry = List.replicate (16 - n) 0 ++ (stateBytes s).take n := by
  refine ⟨_, _, _, _, _, rfl, partial_fold_eq n h1 h2 s part, ?_, queue_window n h2 s part, ?_⟩
  · rw [queue_window n h2 s part, vecBytes_shift_merge n h1 h2, vecBytes_shift_merge n h1 h2,
      vecBytes_shift_merge n h1 h2, vecBytes_shift_merge n h1 h2]
    unfold stateBytes
    have hl : n ≤ (vecBytes s.crc0).length := by rw [vecBytes_length]; omega
    simp only [List.append_assoc]
    rw [List.drop_append_of_le_length hl]
    rw [← List.append_assoc (List.take n (vecBytes s.crc1)), List.take_append_drop,
      ← List.append_assoc (List.take n (vecBytes s.crc2)), List.take_append_drop,
      ← List.append_assoc (List.take n (vecBytes s.crc3)), List.take_append_drop]
    simp only [List.append_assoc]
  · have hl : n ≤ (vecBytes s.crc0).length := by rw [vecBytes_length]; omega
    change vecBytes (_mm_shuffle_epi8 s.crc0 (shlCtl n)) = _
    rw [vecBytes_shuffle, selBytes_shl n h1 h2 _ (vecBytes_length s.crc0)]
    unfold stateBytes
    simp only [List.append_assoc]
    rw [List.take_append_of_le_length hl]

theorem partial_fold_queue_shift_witness :
    ∃ l0 l1 l2 l3 carry,
      carry = _mm_shuffle_epi8 (1 : Nat) (tableVec pshufb_shf_table (3 - 1)) ∧
      partial_fold 3 ⟨1, 2, 3, 4⟩ 5 = some ⟨l0, l1, l2, fold_xor (do_one_fold carry) l3⟩ ∧
      vecBytes l0 ++ vecBytes l1 ++ vecBytes l2 ++ vecBytes l3
        = ((stateBytes ⟨1, 2, 3, 4⟩ ++ vecBytes 5).drop 3).take 64 ∧
      ((stateBytes ⟨1, 2, 3, 4⟩ ++ vecBytes 5).drop 3).take 64
        = (stateBytes ⟨1, 2, 3, 4⟩).drop 3 ++ (vecBytes 5).take 3 ∧
      vecBytes carry = List.replicate (16 - 3) 0 ++ (stateBytes ⟨1, 2, 3, 4⟩).take 3 :=
  partial_fold_queue_shift 3 (by decide) (by decide) ⟨1, 2, 3, 4⟩ 5

/-- C15. Garbage beyond the tail is never trusted: for `1 ≤ n ≤ 15`, two new-data
vectors with the same first `n` bytes give the same result of `partial_fold`,
all four lanes; and two memories that hold the same `len` bytes from `src` on
give the same value of `crc_fold`, whatever they hold after the buffer. -/
theorem partial_fold_ignores_garbage (n : Nat) (h1 : 1 ≤ n) (h2 : n ≤ 15) (s : FoldState)
    (p p' : Nat) (hp : (vecBytes p).take n = (vecBytes p').take n)
    (mem mem' : Nat → Nat) (src len seed : Nat) (hseed : seed < 2 ^ 32)
    (hbuf : bufBytes mem src len = bufBytes mem' src len) :
    partial_fold n s p = partial_fold n s p' ∧
    crc_fold mem src (len : Int) seed = crc_fold mem' src (len : Int) seed := by
  constructor
  · rw [partial_fold_eq n h1 h2 s p, partial_fold_eq n h1 h2 s p', shuffle_shl_eq n h1 h2 p,
      shuffle_shl_eq n h1 h2 p', hp]
  · rw [crc_fold_spec mem src len seed hseed, crc_fold_spec mem' src len seed hseed, hbuf]

theorem partial_fold_ignores_garbage_witness :
    partial_fold 2 ⟨1, 2, 3, 4⟩ 0x11223344 = partial_fold 2 ⟨1, 2, 3, 4⟩ 0xaabb3344 ∧
    crc_fold (memOf 5 digits 0x11) 5 ((9 : Nat) : Int) 0
      = crc_fold (memOf 5 digits 0xEE) 5 ((9 : Nat) : Int) 0 :=
  partial_fold_ignores_garbage 2 (by decide) (by decide) ⟨1, 2, 3, 4⟩ 0x11223344 0xaabb3344
    (by decide) (memOf 5 digits 0x11) (memOf 5 digits 0xEE) 5 9 0 (by decide) (by decide)

/-- C16. The banded Tail Reducer equals the recursive single-vector
description: folding `k = 1, 2, 3` vectors with the unrolled band code gives
the lanes of `k` applications of the single step, so that the old lanes `k..3`
move to positions `0..3-k` and positions `4-k..3` hold
`do_one_fold (l_i) XOR d_i`. -/
theorem tail_bands_eq_single_steps (s : FoldState) (d0 d1 d2 : Nat) :
    fold_tail1 s d0 = single_fold_step s d0 ∧
    fold_tail2 s d0 d1 = single_fold_step (single_fold_step s d0) d1 ∧
    fold_tail3 s d0 d1 d2 = single_fold_step (single_fold_step (single_fold_step s d0) d1) d2 ∧
    fold_tail1 s d0 = ⟨s.crc1, s.crc2, s.crc3, do_one_fold s.crc0 ^^^ d0⟩ ∧
    fold_tail2 s d0 d1 = ⟨s.crc2, s.crc3, do_one_fold s.crc0 ^^^ d0, do_one_fold s.crc1 ^^^ d1⟩ ∧
    fold_tail3 s d0 d1 d2
      = ⟨s.crc3, do_one_fold s.crc0 ^^^ d0, do_one_fold s.crc1 ^^^ d1,
          do_one_fold s.crc2 ^^^ d2⟩ :=
  ⟨rfl, rfl, rfl, rfl, rfl, rfl⟩


/-! ## Length bookkeeping -/

theorem bind_band {α β : Type} (o : Option Nat) (F : Nat → Option α) (G : Nat → Option β)
    (H : β → Option α) (h : ∀ t, F t = (G t).bind H) : o.bind F = (o.bind G).bind H := by
  cases o with
  | none => rfl
  | some t => exact h t

theorem tail_finish_none (s : FoldState) (len : Int) :
    tail_finish (s, len, none) = some (final_collapse s) := rfl

theorem tail_finish_some (s : FoldState) (len : Int) (p : Nat) :
    tail_finish (s, len, some p) = partial_then_done len s p := rfl

theorem tail_reduce_eq_band (mem : Nat → Nat) (src : Nat) (len : Int) (s : FoldState) :
    tail_reduce mem src len s = (tail_band mem src len s).bind tail_finish := by
  unfold tail_reduce tail_band
  generalize _mm_load_si128 mem src = o0
  generalize _mm_load_si128 mem (src + 16) = o1
  generalize _mm_load_si128 mem (src + 32) = o2
  generalize _mm_load_si128 mem (src + 48) = o3
  by_cases c3 : len + 16 ≥ 0
  · simp only [if_pos c3]
    by_cases hz : len + 16 = 0
    · simp only [if_pos hz]
      exact bind_band _ _ _ _ fun _ => bind_band _ _ _ _ fun _ => bind_band _ _ _ _ fun _ => by
        rw [Option.some_bind, tail_finish_none]
    · simp only [if_neg hz]
      exact bind_band _ _ _ _ fun _ => bind_band _ _ _ _ fun _ => bind_band _ _ _ _ fun _ =>
        bind_band _ _ _ _ fun _ => by rw [Option.some_bind, tail_finish_some]
  · simp only [if_neg c3]
    by_cases c2 : len + 32 ≥ 0
    · simp only [if_pos c2]
      by_cases hz : len + 32 = 0
      · simp only [if_pos hz]
        exact bind_band _ _ _ _ fun _ => bind_band _ _ _ _ fun _ => by
          rw [Option.some_bind, tail_finish_none]
      · simp only [if_neg hz]
        exact bind_band _ _ _ _ fun _ => bind_band _ _ _ _ fun _ => bind_band _ _ _ _ fun _ => by
          rw [Option.some_bind, tail_finish_some]
    · simp only [if_neg c2]
      by_cases c1 : len + 48 ≥ 0
      · simp only [if_pos c1]
        by_cases hz : len + 48 = 0
        · simp only [if_pos hz]
          exact bind_band _ _ _ _ fun _ => by rw [Option.some_bind, tail_finish_none]
        · simp only [if_neg hz]
          exact bind_band _ _ _ _ fun _ => bind_band _ _ _ _ fun _ => by
            rw [Option.some_bind, tail_finish_some]
      · simp only [if_neg c1]
        by_cases hz : len + 64 = 0
        · simp only [if_pos hz]
          rw [Option.some_bind, tail_finish_none]
        · simp only [if_neg hz]
          exact bind_band _ _ _ _ fun _ => by rw [Option.some_bind, tail_finish_some]


theorem fold_vectors_zero (mem : Nat → Nat) (src : Nat) (s : FoldState) :
    fold_vectors mem 0 src s = s := rfl

theorem fold_vectors_one (mem : Nat → Nat) (src : Nat) (s : FoldState) :
    fold_vectors mem 1 src s = fold_tail1 s (_mm_loadu_si128 mem src) := rfl

theorem fold_vectors_two (mem : Nat → Nat) (src : Nat) (s : FoldState) :
    fold_vectors mem 2 src s
      = fold_tail2 s (_mm_loadu_si128 mem src) (_mm_loadu_si128 mem (src + 16)) := rfl

theorem fold_vectors_three (mem : Nat → Nat) (src : Nat) (s : FoldState) :
    fold_vectors mem 3 src s
      = fold_tail3 s (_mm_loadu_si128 mem src) (_mm_loadu_si128 mem (src + 16))
          (_mm_loadu_si128 mem (src + 32)) := rfl

/-- The cascade, entered with `r < 64` bytes left at an aligned address: it
folds the `r / 16` whole vectors and leaves `len = r % 16`, with the next
vector pending exactly when that is not zero. -/
theorem tail_band_spec (mem : Nat → Nat) (src r : Nat) (s : FoldState) (ha : src % 16 = 0)
    (hr : r < 64) :
    tail_band mem src ((r : Int) - 64) s
      = some (fold_vectors mem (r / 16) src s, ((r % 16 : Nat) : Int),
          if r % 16 = 0 then none else some (_mm_loadu_si128 mem (src + 16 * (r / 16)))) := by
  have a16 : (src + 16) % 16 = 0 := by omega
  have a32 : (src + 32) % 16 = 0 := by omega
  have a48 : (src + 48) % 16 = 0 := by omega
  unfold tail_band
  by_cases c3 : 48 ≤ r
  · have hc : (r : Int) - 64 + 16 ≥ 0 := by omega
    have hcast : (r : Int) - 64 + 16 = ((r % 16 : Nat) : Int) := by omega
    have hq : r / 16 = 3 := by omega
    rw [if_pos hc, load_aligned mem src ha, load_aligned mem (src + 16) a16,
      load_aligned mem (src + 32) a32, Option.some_bind, Option.some_bind, Option.some_bind,
      hcast, hq, fold_vectors_three]
    by_cases hz : r % 16 = 0
    · have hz' : ((r % 16 : Nat) : Int) = 0 := by omega
      rw [if_pos hz', if_pos hz]
    · have hz' : ¬ ((r % 16 : Nat) : Int) = 0 := by omega
      rw [if_neg hz', if_neg hz, load_aligned mem (src + 48) a48, Option.some_bind]
  · have hc : ¬ ((r : Int) - 64 + 16 ≥ 0) := by omega
    rw [if_neg hc]
    by_cases c2 : 32 ≤ r
    · have hc : (r : Int) - 64 + 32 ≥ 0 := by omega
      have hcast : (r : Int) - 64 + 32 = ((r % 16 : Nat) : Int) := by omega
      have hq : r / 16 = 2 := by omega
      rw [if_pos hc, load_aligned mem src ha, load_aligned mem (src + 16) a16,
        Option.some_bind, Option.some_bind, hcast, hq, fold_vectors_two]
      by_cases hz : r % 16 = 0
      · have hz' : ((r % 16 : Nat) : Int) = 0 := by omega
        rw [if_pos hz', if_pos hz]
      · have hz' : ¬ ((r % 16 : Nat) : Int) = 0 := by omega
        rw [if_neg hz', if_neg hz, load_aligned mem (src + 32) a32, Option.some_bind]
    · have hc2 : ¬ ((r : Int) - 64 + 32 ≥ 0) := by omega
      rw [if_neg hc2]
      by_cases c1 : 16 ≤ r
      · have hc : (r : Int) - 64 + 48 ≥ 0 := by omega
        have hcast : (r : Int) - 64 + 48 = ((r % 16 : Nat) : Int) := by omega
        have hq : r / 16 = 1 := by omega
        rw [if_pos hc, load_aligned mem src ha, Option.some_bind, hcast, hq, fold_vectors_one]
        by_cases hz : r % 16 = 0
        · have hz' : ((r % 16 : Nat) : Int) = 0 := by omega
          rw [if_pos hz', if_pos hz]
        · have hz' : ¬ ((r % 16 : Nat) : Int) = 0 := by omega
          rw [if_neg hz', if_neg hz, load_aligned mem (src + 16) a16, Option.some_bind]
      · have hc1 : ¬ ((r : Int) - 64 + 48 ≥ 0) := by omega
        have hcast : (r : Int) - 64 + 64 = ((r % 16 : Nat) : Int) := by omega
        have hq : r / 16 = 0 := by omega
        rw [if_neg hc1, hcast, hq, fold_vectors_zero]
        by_cases hz : r % 16 = 0
        · have hz' : ((r % 16 : Nat) : Int) = 0 := by omega
          rw [if_pos hz', if_pos hz]
        · have hz' : ¬ ((r % 16 : Nat) : Int) = 0 := by omega
          rw [if_neg hz', if_neg hz, load_aligned mem src ha, Option.some_bind]
          rfl

/-- The main loop, entered with `m` bytes left at an aligned address, leaves
through its own test with `len = m % 64 - 64`, whatever the lanes hold. -/
theorem main_loop_len (mem : Nat → Nat) (fuel : Nat) :
    ∀ (src m : Nat) (s : FoldState), src % 16 = 0 → m / 64 < fuel →
      ∃ s', main_loop mem fuel src (m : Int) s
          = some (src + 64 * (m / 64), ((m % 64 : Nat) : Int) - 64, s') := by
  induction fuel with
  | zero => intro src m s _ h; omega
  | succ fuel ih =>
    intro src m s ha hf
    unfold main_loop
    by_cases hn : 64 ≤ m
    · have hge : (m : Int) - 64 ≥ 0 := by omega
      have hcast : (m : Int) - 64 = ((m - 64 : Nat) : Int) := by omega
      have a64 : (src + 64) % 16 = 0 := by omega
      have f64 : (m - 64) / 64 < fuel := by omega
      have e1 : src + 64 + 64 * ((m - 64) / 64) = src + 64 * (m / 64) := by omega
      have e2 : (m - 64) % 64 = m % 64 := by omega
      simp only [hge, if_true]
      rw [load_aligned mem src ha, load_aligned mem (src + 16) (by omega),
        load_aligned mem (src + 32) (by omega), load_aligned mem (src + 48) (by omega),
        Option.some_bind, Option.some_bind, Option.some_bind, Option.some_bind, hcast]
      obtain ⟨s', he⟩ := ih (src + 64) (m - 64) _ a64 f64
      exact ⟨s', by rw [he, e1, e2]⟩
    · have hlt : ¬ ((m : Int) - 64 ≥ 0) := by omega
      have e1 : m / 64 = 0 := by omega
      have e2 : m % 64 = m := by omega
      simp only [hlt, if_false]
      exact ⟨s, by rw [e1, e2, Nat.mul_zero, Nat.add_zero]⟩

/-- The table read of `partial_fold` is inside the table exactly for the
lengths `1..15`. -/
theorem partial_fold_isSome (len : Nat) (hlen : len < 2 ^ 64) (s : FoldState) (p : Nat) :
    (partial_fold len s p).isSome = true ↔ 1 ≤ len ∧ len ≤ 15 := by
  have hidx : (len % 2 ^ 64 + (2 ^ 64 - 1)) % 2 ^ 64 < 15 ↔ 1 ≤ len ∧ len ≤ 15 := by omega
  unfold partial_fold
  by_cases h : (len % 2 ^ 64 + (2 ^ 64 - 1)) % 2 ^ 64 < 15
  · have h' := hidx.mp h
    rw [if_pos h]
    exact ⟨fun _ => h', fun _ => rfl⟩
  · have h' : ¬ (1 ≤ len ∧ len ≤ 15) := fun c => h (hidx.mpr c)
    rw [if_neg h]
    exact ⟨fun c => absurd c (by simp), fun c => absurd c h'⟩

/-- C17. Length bookkeeping is in range. For every call with a length `n` that
fits a signed `long` and every start address: the length reaches `crc_fold`
unchanged; the alignment deficit is in `0..15`, is smaller than a length of 16
or more and leads to an aligned address; the main loop, entered at an aligned
address with `m` bytes left, exits with `len + 64` equal to the `m - 64 * (m / 64)`
bytes it has not processed, which is in `0..63`; the tail bands, entered with
`r < 64` bytes left, fold `r / 16` vectors and leave `len` equal to the
`r - 16 * (r / 16)` bytes not yet folded, which is in `0..15`, and go to
`partial` exactly when that is not zero; `partial_fold` reads inside its table
exactly for the lengths `1..15`, where the index `len - 1` is in `0..14`; and
the whole call never leaves the table. -/
theorem length_bookkeeping (mem : Nat → Nat) (src n seed : Nat) (hn : n < 2 ^ 63)
    (hseed : seed < 2 ^ 32) (src' m r : Nat) (s : FoldState) (ha : src' % 16 = 0)
    (hr : r < 64) (len p : Nat) (hlen : len < 2 ^ 64) :
    long_of_size_t n = (n : Int) ∧
    algn_diff src ≤ 15 ∧ (src + algn_diff src) % 16 = 0 ∧
    (16 ≤ n → (n : Int) - (algn_diff src : Int) = ((n - algn_diff src : Nat) : Int) ∧
      1 ≤ n - algn_diff src) ∧
    (∃ s1, main_loop mem ((m : Int).toNat / 64 + 1) src' (m : Int) s
        = some (src' + 64 * (m / 64), ((m - 64 * (m / 64) : Nat) : Int) - 64, s1)) ∧
    m - 64 * (m / 64) ≤ 63 ∧
    tail_band mem src' ((r : Int) - 64) s
      = some (fold_vectors mem (r / 16) src' s, ((r - 16 * (r / 16) : Nat) : Int),
          if r - 16 * (r / 16) = 0 then none
          else some (_mm_loadu_si128 mem (src' + 16 * (r / 16)))) ∧
    r - 16 * (r / 16) ≤ 15 ∧
    tail_reduce mem src' ((r : Int) - 64) s
      = (tail_band mem src' ((r : Int) - 64) s).bind tail_finish ∧
    ((partial_fold len s p).isSome = true ↔ 1 ≤ len ∧ len ≤ 15) ∧
    (1 ≤ len → len ≤ 15 →
      size_t_of_long (len : Int) = len ∧
      (len % 2 ^ 64 + (2 ^ 64 - 1)) % 2 ^ 64 = len - 1 ∧ len - 1 ≤ 14) ∧
    (crc_fold mem src (long_of_size_t n) seed).isSome = true ∧
    (do_crc32_incremental_clmul mem src n seed).isSome = true := by
  have e64 : m - 64 * (m / 64) = m % 64 := by omega
  have e16 : r - 16 * (r / 16) = r % 16 := by omega
  have hal : algn_diff src = (16 - src % 16) % 16 := algn_diff_eq src
  have hcrc := crc_fold_spec mem src n seed hseed
  have hdo := do_crc32_spec mem src n seed hn hseed
  obtain ⟨s1, h1⟩ := main_loop_len mem (m / 64 + 1) src' m s ha (Nat.lt_succ_self _)
  refine ⟨long_of_size_t_of_lt n hn, by omega, by omega, fun h => by omega, ⟨s1, ?_⟩, by omega,
    ?_, by omega, tail_reduce_eq_band mem src' _ s, partial_fold_isSome len hlen s p,
    fun a b => ⟨size_t_of_long_natCast len hlen, by omega, by omega⟩, ?_, ?_⟩
  · rw [Int.toNat_ofNat, e64, h1]
  · rw [e16, tail_band_spec mem src' r s ha hr]
  · rw [long_of_size_t_of_lt n hn, hcrc]
    rfl
  · rw [hdo]
    rfl

theorem length_bookkeeping_witness :
    long_of_size_t 100 = ((100 : Nat) : Int) ∧
    algn_diff 5 ≤ 15 ∧ (5 + algn_diff 5) % 16 = 0 ∧
    (16 ≤ 100 → ((100 : Nat) : Int) - (algn_diff 5 : Int) = ((100 - algn_diff 5 : Nat) : Int) ∧
      1 ≤ 100 - algn_diff 5) ∧
    (∃ s1, main_loop (memOf 5 digits 0) (((89 : Nat) : Int).toNat / 64 + 1) 16 ((89 : Nat) : Int)
          ⟨1, 2, 3, 4⟩
        = some (16 + 64 * (89 / 64), ((89 - 64 * (89 / 64) : Nat) : Int) - 64, s1)) ∧
    89 - 64 * (89 / 64) ≤ 63 ∧
    tail_band (memOf 5 digits 0) 16 (((25 : Nat) : Int) - 64) ⟨1, 2, 3, 4⟩
      = some (fold_vectors (memOf 5 digits 0) (25 / 16) 16 ⟨1, 2, 3, 4⟩,
          ((25 - 16 * (25 / 16) : Nat) : Int),
          if 25 - 16 * (25 / 16) = 0 then none
          else some (_mm_loadu_si128 (memOf 5 digits 0) (16 + 16 * (25 / 16)))) ∧
    25 - 16 * (25 / 16) ≤ 15 ∧
    tail_reduce (memOf 5 digits 0) 16 (((25 : Nat) : Int) - 64) ⟨1, 2, 3, 4⟩
      = (tail_band (memOf 5 digits 0) 16 (((25 : Nat) : Int) - 64) ⟨1, 2, 3, 4⟩).bind
          tail_finish ∧
    ((partial_fold 9 ⟨1, 2, 3, 4⟩ 7).isSome = true ↔ 1 ≤ 9 ∧ 9 ≤ 15) ∧
    (1 ≤ 9 → 9 ≤ 15 →
      size_t_of_long ((9 : Nat) : Int) = 9 ∧
      (9 % 2 ^ 64 + (2 ^ 64 - 1)) % 2 ^ 64 = 9 - 1 ∧ 9 - 1 ≤ 14) ∧
    (crc_fold (memOf 5 digits 0) 5 (long_of_size_t 100) 0).isSome = true ∧
    (do_crc32_incremental_clmul (memOf 5 digits 0) 5 100 0).isSome = true :=
  length_bookkeeping (memOf 5 digits 0) 5 100 0 (by decide) (by decide) 16 89 25 ⟨1, 2, 3, 4⟩
    (by decide) (by decide) 9 7 (by decide)

/-! ## The conversion of the length -/

/-- C18, as stated, fails: the length `2^63` is representable in `size_t`, the
conversion to `long` turns it into `-(2^63)`, which is not the buffer length;
`crc_fold` then takes the branch for fewer than 16 bytes and hands
`partial_fold` the length `2^63`, outside `1..15`, where the table read is out
of the table. -/
theorem long_conversion_counterexample :
    long_of_size_t (2 ^ 63) = -(2 ^ 63) ∧
    long_of_size_t (2 ^ 63) ≠ ((2 ^ 63 : Nat) : Int) ∧
    long_of_size_t (2 ^ 63) < 16 ∧
    long_of_size_t (2 ^ 63) ≠ 0 ∧
    size_t_of_long (long_of_size_t (2 ^ 63)) = 2 ^ 63 ∧
    partial_fold (2 ^ 63) (seed_init 0) (_mm_loadu_si128 (memOf 0 [] 0) 0) = none ∧
    do_crc32_incremental_clmul (memOf 0 [] 0) 0 (2 ^ 63) 0 = none := by
  decide!

/-- C18, amended. For every length below `2^63`, the lengths a 64-bit signed
`long` holds, the value `crc_fold` branches on after the conversion equals the
buffer length, the two tests of the short path depend on the buffer length
alone, the short path hands `partial_fold` a length in `1..15`, and the call
never reads outside the shuffle table. -/
theorem long_conversion_in_range (mem : Nat → Nat) (data length init : Nat)
    (hl : length < 2 ^ 63) (hinit : init < 2 ^ 32) :
    long_of_size_t length = (length : Int) ∧
    (long_of_size_t length < 16 ↔ length < 16) ∧
    (long_of_size_t length = 0 ↔ length = 0) ∧
    (long_of_size_t length < 16 → long_of_size_t length ≠ 0 →
      1 ≤ size_t_of_long (long_of_size_t length) ∧
      size_t_of_long (long_of_size_t length) ≤ 15) ∧
    (do_crc32_incremental_clmul mem data length init).isSome = true := by
  have e := long_of_size_t_of_lt length hl
  have e2 := size_t_of_long_natCast length (lt_trans hl (by decide))
  have hdo := do_crc32_spec mem data length init hl hinit
  rw [e, e2, hdo]
  exact ⟨rfl, by omega, by omega, fun a b => by omega, rfl⟩

theorem long_conversion_in_range_witness :
    long_of_size_t 9 = ((9 : Nat) : Int) ∧
    (long_of_size_t 9 < 16 ↔ 9 < 16) ∧
    (long_of_size_t 9 = 0 ↔ 9 = 0) ∧
    (long_of_size_t 9 < 16 → long_of_size_t 9 ≠ 0 →
      1 ≤ size_t_of_long (long_of_size_t 9) ∧
      size_t_of_long (long_of_size_t 9) ≤ 15) ∧
    (do_crc32_incremental_clmul (memOf 7 digits 0xEE) 7 9 0).isSome = true :=
  long_conversion_in_range (memOf 7 digits 0xEE) 7 9 0 (by decide) (by decide)

/-! ## The build with `ENABLE_AVX512` -/

theorem testBit_eq_div_mod (x i : Nat) : x.testBit i = decide (x / 2 ^ i % 2 = 1) :=
  Nat.testBit_to_div_mod

theorem ternBits_testBit (imm : Nat) : ∀ (n a b c i : Nat),
    (ternBits imm n a b c).testBit i
      = (decide (i < n) &&
          imm.testBit (4 * (a / 2 ^ i % 2) + 2 * (b / 2 ^ i % 2) + c / 2 ^ i % 2)) := by
  intro n
  induction n with
  | zero =>
    intro a b c i
    simp [ternBits]
  | succ n ih =>
    intro a b c i
    have hb : (imm >>> (4 * (a % 2) + 2 * (b % 2) + c % 2)) % 2 < 2 := Nat.mod_lt _ (by decide)
    cases i with
    | zero =>
      clear hb
      rw [ternBits, testBit_eq_div_mod, testBit_eq_div_mod, Nat.shiftRight_eq_div_pow]
      simp only [pow_zero, Nat.div_one, Nat.zero_lt_succ, decide_True, Bool.true_and]
      exact decide_eq_decide.mpr (by omega)
    | succ i =>
      rw [ternBits, Nat.testBit_succ]
      have e : ((imm >>> (4 * (a % 2) + 2 * (b % 2) + c % 2)) % 2
          + 2 * ternBits imm n (a / 2) (b / 2) (c / 2)) / 2
          = ternBits imm n (a / 2) (b / 2) (c / 2) := by omega
      rw [e, ih, Nat.div_div_eq_div_mul, Nat.div_div_eq_div_mul, Nat.div_div_eq_div_mul,
        ← Nat.pow_succ']
      simp only [Nat.succ_lt_succ_iff]

/-- The ternary operation `0x96` is the XOR of its three operands. -/
theorem tern_96 (a b c : Nat) :
    _mm_ternarylogic_epi32 a b c 0x96 = (a ^^^ b ^^^ c) % 2 ^ 128 := by
  apply Nat.eq_of_testBit_eq
  intro i
  rw [_mm_ternarylogic_epi32, ternBits_testBit, Nat.testBit_mod_two_pow, Nat.testBit_xor,
    Nat.testBit_xor, testBit_eq_div_mod a, testBit_eq_div_mod b, testBit_eq_div_mod c]
  rcases Nat.mod_two_eq_zero_or_one (a / 2 ^ i) with ha | ha <;>
  rcases Nat.mod_two_eq_zero_or_one (b / 2 ^ i) with hb | hb <;>
  rcases Nat.mod_two_eq_zero_or_one (c / 2 ^ i) with hc | hc <;>
  rw [ha, hb, hc] <;> cases decide (i < 128) <;> rfl

/-- The ternary operation `0x28` is `(a XOR b) AND c`. -/
theorem tern_28 (a b c : Nat) :
    _mm_ternarylogic_epi32 a b c 0x28 = ((a ^^^ b) &&& c) % 2 ^ 128 := by
  apply Nat.eq_of_testBit_eq
  intro i
  rw [_mm_ternarylogic_epi32, ternBits_testBit, Nat.testBit_mod_two_pow, Nat.testBit_and,
    Nat.testBit_xor, testBit_eq_div_mod a, testBit_eq_div_mod b, testBit_eq_div_mod c]
  rcases Nat.mod_two_eq_zero_or_one (a / 2 ^ i) with ha | ha <;>
  rcases Nat.mod_two_eq_zero_or_one (b / 2 ^ i) with hb | hb <;>
  rcases Nat.mod_two_eq_zero_or_one (c / 2 ^ i) with hc | hc <;>
  rw [ha, hb, hc] <;> cases decide (i < 128) <;> rfl

/-- The ternary operation `0xC3` is the complement of `a XOR b` in all 128
bits, whatever the third operand. -/
theorem tern_C3_testBit (a b c i : Nat) :
    (_mm_ternarylogic_epi32 a b c 0xC3).testBit i
      = (decide (i < 128) && !(xor (a.testBit i) (b.testBit i))) := by
  rw [_mm_ternarylogic_epi32, ternBits_testBit, testBit_eq_div_mod a, testBit_eq_div_mod b]
  rcases Nat.mod_two_eq_zero_or_one (a / 2 ^ i) with ha | ha <;>
  rcases Nat.mod_two_eq_zero_or_one (b / 2 ^ i) with hb | hb <;>
  rcases Nat.mod_two_eq_zero_or_one (c / 2 ^ i) with hc | hc <;>
  rw [ha, hb, hc] <;> cases decide (i < 128) <;> rfl

theorem tern_lt (a b c imm : Nat) : _mm_ternarylogic_epi32 a b c imm < 2 ^ 128 := by
  apply Nat.lt_pow_two_of_testBit
  intro i hi
  rw [_mm_ternarylogic_epi32, ternBits_testBit]
  have : ¬ i < 128 := by omega
  simp [this]

theorem do_one_fold_merge_eq (src data : Nat) (hd : data < 2 ^ 128) :
    do_one_fold_merge src data = _mm_xor_si128 (do_one_fold src) data := by
  unfold do_one_fold_merge
  rw [tern_96]
  exact Nat.mod_eq_of_lt (Nat.xor_lt_two_pow (do_one_fold_lt src) hd)

theorem clmulAux_dvd (k : Nat) : ∀ (n a b : Nat), 2 ^ k ∣ a → 2 ^ k ∣ clmulAux n a b := by
  intro n
  induction n with
  | zero =>
    intro a b _
    rw [clmulAux]
    exact Nat.dvd_zero _
  | succ n ih =>
    intro a b h
    have h2 : 2 ^ k ∣ a <<< 1 := by
      rw [Nat.shiftLeft_eq]
      exact Dvd.dvd.mul_right h _
    have h3 := Nat.mod_eq_zero_of_dvd (ih (a <<< 1) (b / 2) h2)
    have h4 : (if b % 2 = 1 then a else 0) % 2 ^ k = 0 := by
      split
      · exact Nat.mod_eq_zero_of_dvd h
      · exact Nat.zero_mod _
    rw [clmulAux]
    apply Nat.dvd_of_mod_eq_zero
    rw [xor_mod_two_pow, h3, h4]
    rfl

/-- Word 0 of the product that enters the operation `0x28` is zero: the
multiplicand is the register shifted left by four bytes. -/
theorem k5_product_dvd (y : Nat) :
    2 ^ 32 ∣ _mm_clmulepi64_si128 (_mm_slli_si128 y 4) (tableVec crc_k 1) 0x10 := by
  apply clmulAux_dvd 32 64
  show 2 ^ 32 ∣ (y <<< (8 * 4) % 2 ^ 128) % 2 ^ 64
  rw [Nat.shiftLeft_eq]
  apply Nat.dvd_of_mod_eq_zero
  omega

theorem crc_mask_eq : tableVec crc_mask 0 = (2 ^ 128 - 1) ^^^ (2 ^ 32 - 1) := by
  decide!

theorem crc_mask_lt : tableVec crc_mask 0 < 2 ^ 128 := by
  decide!

theorem and_crc_mask_of_dvd (a : Nat) (h : 2 ^ 32 ∣ a) (ha : a < 2 ^ 128) :
    a &&& tableVec crc_mask 0 = a := by
  rw [crc_mask_eq, Nat.and_xor_distrib_left, Nat.and_pow_two_sub_one_eq_mod,
    Nat.and_pow_two_sub_one_eq_mod, Nat.mod_eq_of_lt ha, Nat.mod_eq_zero_of_dvd h, Nat.xor_zero]

/-- The operation `0x28` of `k5` gives what the AND with the mask followed by
the XOR gives, for every register value. -/
theorem k5_merge (y : Nat) :
    _mm_ternarylogic_epi32 (_mm_clmulepi64_si128 (_mm_slli_si128 y 4) (tableVec crc_k 1) 0x10)
        y (tableVec crc_mask 0) 0x28
      = _mm_xor_si128 (_mm_clmulepi64_si128 (_mm_slli_si128 y 4) (tableVec crc_k 1) 0x10)
          (_mm_and_si128 y (tableVec crc_mask 0)) := by
  have ha := clmulepi64_lt (_mm_slli_si128 y 4) (tableVec crc_k 1) 0x10
  rw [tern_28, Nat.and_xor_distrib_right, and_crc_mask_of_dvd _ (k5_product_dvd y) ha]
  exact Nat.mod_eq_of_lt (Nat.xor_lt_two_pow ha (Nat.and_lt_two_pow y crc_mask_lt))

theorem extract_epi32_two (v : Nat) : _mm_extract_epi32 v 2 = v >>> 64 % 2 ^ 32 := by
  rw [Nat.shiftRight_eq_div_pow]
  show v / 2 ^ 32 / 2 ^ 32 % 2 ^ 32 = v / 2 ^ 64 % 2 ^ 32
  rw [Nat.div_div_eq_div_mul]
  rfl

/-- The operation `0xC3` of `k7` complements all four words, the XOR with the
mask only words 1 to 3; word 2, the one extracted, is the same. -/
theorem k7_merge (c3 c1 : Nat) :
    _mm_extract_epi32 (_mm_ternarylogic_epi32 c3 c1 c1 0xC3) 2
      = _mm_extract_epi32 (_mm_xor_si128 c3 (_mm_xor_si128 c1 (tableVec crc_mask 0))) 2 := by
  rw [extract_epi32_two, extract_epi32_two, crc_mask_eq]
  apply Nat.eq_of_testBit_eq
  intro i
  unfold _mm_xor_si128
  rw [Nat.testBit_mod_two_pow, Nat.testBit_mod_two_pow, Nat.testBit_shiftRight,
    Nat.testBit_shiftRight, tern_C3_testBit, Nat.testBit_xor, Nat.testBit_xor, Nat.testBit_xor,
    Nat.testBit_two_pow_sub_one, Nat.testBit_two_pow_sub_one]
  by_cases hi : i < 32
  · have h1 : 64 + i < 128 := by omega
    have h2 : ¬ 64 + i < 32 := by omega
    simp only [hi, h1, h2, decide_True, decide_False, Bool.true_and]
    cases c3.testBit (64 + i) <;> cases c1.testBit (64 + i) <;> rfl
  · simp only [hi, decide_False, Bool.false_and]

/-- The word 0 that the two builds treat differently: after the operation
`0xC3` it is the complement of what the XOR with the mask leaves. -/
theorem k7_word0_differs :
    _mm_extract_epi32 (_mm_ternarylogic_epi32 0 0 0 0xC3) 0 = 0xFFFFFFFF ∧
    _mm_extract_epi32 (_mm_xor_si128 0 (_mm_xor_si128 0 (tableVec crc_mask 0))) 0 = 0 := by
  decide!

theorem tern_96_eq (a b c : Nat) (ha : a < 2 ^ 128) (hb : b < 2 ^ 128) (hc : c < 2 ^ 128) :
    _mm_ternarylogic_epi32 a b c 0x96 = _mm_xor_si128 (_mm_xor_si128 a b) c := by
  rw [tern_96]
  exact Nat.mod_eq_of_lt (Nat.xor_lt_two_pow (Nat.xor_lt_two_pow ha hb) hc)

/-- The Final Collapser of the two builds returns the same word. -/
theorem final_collapse_avx512_eq (s : FoldState) (hs : s.WF) :
    final_collapse_avx512 s = final_collapse s := by
  obtain ⟨_, h1, h2, h3⟩ := hs
  unfold final_collapse_avx512 final_collapse
  simp only []
  rw [tern_96_eq _ _ _ h1 (clmulepi64_lt _ _ _) (clmulepi64_lt _ _ _),
    tern_96_eq _ _ _ h2 (clmulepi64_lt _ _ _) (clmulepi64_lt _ _ _),
    tern_96_eq _ _ _ h3 (clmulepi64_lt _ _ _) (clmulepi64_lt _ _ _), k5_merge, k7_merge]

theorem fold_block_avx512_eq (s : FoldState) (t0 t1 t2 t3 : Nat) (h0 : t0 < 2 ^ 128)
    (h1 : t1 < 2 ^ 128) (h2 : t2 < 2 ^ 128) (h3 : t3 < 2 ^ 128) :
    fold_block_avx512 s t0 t1 t2 t3 = fold_block s t0 t1 t2 t3 := by
  unfold fold_block_avx512 fold_block
  simp only []
  rw [do_one_fold_merge_eq _ _ h0, do_one_fold_merge_eq _ _ h1, do_one_fold_merge_eq _ _ h2,
    do_one_fold_merge_eq _ _ h3]

theorem fold_tail3_avx512_eq (s : FoldState) (t0 t1 t2 : Nat) (h0 : t0 < 2 ^ 128)
    (h1 : t1 < 2 ^ 128) (h2 : t2 < 2 ^ 128) :
    fold_tail3_avx512 s t0 t1 t2 = fold_tail3 s t0 t1 t2 := by
  unfold fold_tail3_avx512 fold_tail3
  simp only []
  rw [do_one_fold_merge_eq _ _ h0, do_one_fold_merge_eq _ _ h1, do_one_fold_merge_eq _ _ h2]

theorem fold_tail2_avx512_eq (s : FoldState) (t0 t1 : Nat) (h0 : t0 < 2 ^ 128)
    (h1 : t1 < 2 ^ 128) :
    fold_tail2_avx512 s t0 t1 = fold_tail2 s t0 t1 := by
  unfold fold_tail2_avx512 fold_tail2
  simp only []
  rw [do_one_fold_merge_eq _ _ h0, do_one_fold_merge_eq _ _ h1]

theorem fold_tail1_avx512_eq (s : FoldState) (t0 : Nat) (h0 : t0 < 2 ^ 128) :
    fold_tail1_avx512 s t0 = fold_tail1 s t0 := by
  unfold fold_tail1_avx512 fold_tail1
  simp only []
  rw [do_one_fold_merge_eq _ _ h0]

theorem partial_fold_avx512_eq (len : Nat) (s : FoldState) (p : Nat) :
    partial_fold_avx512 len s p = partial_fold len s p := by
  unfold partial_fold_avx512 partial_fold
  simp only []
  rw [do_one_fold_merge_eq _ _ (or_shuffle_lt _ _ _ _)]
  rfl

/-- The lanes `partial_fold` returns are 128-bit values. -/
theorem partial_fold_wf (len : Nat) (s s' : FoldState) (p : Nat)
    (h : partial_fold len s p = some s') : s'.WF := by
  unfold partial_fold at h
  simp only [] at h
  split at h
  · rw [← Option.some.inj h]
    exact ⟨or_shuffle_lt _ _ _ _, or_shuffle_lt _ _ _ _, or_shuffle_lt _ _ _ _,
      Nat.xor_lt_two_pow (do_one_fold_lt _) (or_shuffle_lt _ _ _ _)⟩
  · exact absurd h (by simp)

theorem partial_then_done_avx512_eq (len : Int) (s : FoldState) (p : Nat) :
    partial_then_done_avx512 len s p = partial_then_done len s p := by
  unfold partial_then_done_avx512 partial_then_done
  rw [partial_fold_avx512_eq]
  cases h : partial_fold (size_t_of_long len) s p with
  | none => rw [Option.map_none', Option.map_none']
  | some s' =>
    rw [Option.map_some', Option.map_some', final_collapse_avx512_eq s' (partial_fold_wf _ _ _ _ h)]

theorem load_bind_congr {α : Type} (mem : Nat → Nat) (p : Nat) (F G : Nat → Option α)
    (h : ∀ v, v < 2 ^ 128 → F v = G v) :
    (_mm_load_si128 mem p).bind F = (_mm_load_si128 mem p).bind G := by
  unfold _mm_load_si128
  by_cases hp : p % 16 = 0
  · rw [if_pos hp, Option.some_bind, Option.some_bind]
    exact h _ (loadu_lt mem p)
  · rw [if_neg hp, Option.none_bind, Option.none_bind]

theorem load_bind_some {α : Type} (mem : Nat → Nat) (p : Nat) (F : Nat → Option α) (r : α)
    (h : (_mm_load_si128 mem p).bind F = some r) : F (_mm_loadu_si128 mem p) = some r := by
  unfold _mm_load_si128 at h
  by_cases hp : p % 16 = 0
  · rw [if_pos hp, Option.some_bind] at h
    exact h
  · rw [if_neg hp, Option.none_bind] at h
    exact absurd h (by simp)

theorem main_loop_avx512_eq (mem : Nat → Nat) (fuel : Nat) :
    ∀ (src : Nat) (len : Int) (s : FoldState),
      main_loop_avx512 mem fuel src len s = main_loop mem fuel src len s := by
  induction fuel with
  | zero =>
    intro src len s
    unfold main_loop_avx512 main_loop
    rfl
  | succ fuel ih =>
    intro src len s
    unfold main_loop_avx512 main_loop
    simp only []
    by_cases hge : len - 64 ≥ 0
    · rw [if_pos hge, if_pos hge]
      exact load_bind_congr _ _ _ _ fun t0 h0 => load_bind_congr _ _ _ _ fun t1 h1 =>
        load_bind_congr _ _ _ _ fun t2 h2 => load_bind_congr _ _ _ _ fun t3 h3 => by
          rw [fold_block_avx512_eq s t0 t1 t2 t3 h0 h1 h2 h3]
          exact ih _ _ _
    · rw [if_neg hge, if_neg hge]

/-- The lanes the main loop leaves are 128-bit values. -/
theorem main_loop_wf (mem : Nat → Nat) (fuel : Nat) :
    ∀ (src : Nat) (len : Int) (s : FoldState) (r : Nat × Int × FoldState), s.WF →
      main_loop mem fuel src len s = some r → r.2.2.WF := by
  induction fuel with
  | zero =>
    intro src len s r _ h
    unfold main_loop at h
    exact absurd h (by simp)
  | succ fuel ih =>
    intro src len s r hs h
    unfold main_loop at h
    simp only [] at h
    by_cases hge : len - 64 ≥ 0
    · rw [if_pos hge] at h
      have h0 := load_bind_some _ _ _ _ h
      have h1 := load_bind_some _ _ _ _ h0
      have h2 := load_bind_some _ _ _ _ h1
      have h3 := load_bind_some _ _ _ _ h2
      exact ih _ _ _ r (fold_block_spec s hs _ _ _ _ (loadu_lt mem src)
        (loadu_lt mem (src + 16)) (loadu_lt mem (src + 32)) (loadu_lt mem (src + 48))).1 h3
    · rw [if_neg hge] at h
      rw [← Option.some.inj h]
      exact hs

theorem tail_reduce_avx512_eq (mem : Nat → Nat) (src : Nat) (len : Int) (s : FoldState)
    (hs : s.WF) : tail_reduce_avx512 mem src len s = tail_reduce mem src len s := by
  unfold tail_reduce_avx512 tail_reduce
  simp only []
  by_cases c3 : len + 16 ≥ 0
  · rw [if_pos c3, if_pos c3]
    refine load_bind_congr _ _ _ _ fun t0 h0 => load_bind_congr _ _ _ _ fun t1 h1 =>
      load_bind_congr _ _ _ _ fun t2 h2 => ?_
    rw [fold_tail3_avx512_eq s t0 t1 t2 h0 h1 h2]
    by_cases hz : len + 16 = 0
    · rw [if_pos hz, if_pos hz,
        final_collapse_avx512_eq _ (fold_tail3_spec s hs t0 t1 t2 h0 h1 h2).1]
    · rw [if_neg hz, if_neg hz]
      exact load_bind_congr _ _ _ _ fun p _ => partial_then_done_avx512_eq _ _ _
  · rw [if_neg c3, if_neg c3]
    by_cases c2 : len + 32 ≥ 0
    · rw [if_pos c2, if_pos c2]
      refine load_bind_congr _ _ _ _ fun t0 h0 => load_bind_congr _ _ _ _ fun t1 h1 => ?_
      rw [fold_tail2_avx512_eq s t0 t1 h0 h1]
      by_cases hz : len + 32 = 0
      · rw [if_pos hz, if_pos hz, final_collapse_avx512_eq _ (fold_tail2_spec s hs t0 t1 h0 h1).1]
      · rw [if_neg hz, if_neg hz]
        exact load_bind_congr _ _ _ _ fun p _ => partial_then_done_avx512_eq _ _ _
    · rw [if_neg c2, if_neg c2]
      by_cases c1 : len + 48 ≥ 0
      · rw [if_pos c1, if_pos c1]
        refine load_bind_congr _ _ _ _ fun t0 h0 => ?_
        rw [fold_tail1_avx512_eq s t0 h0]
        by_cases hz : len + 48 = 0
        · rw [if_pos hz, if_pos hz, final_collapse_avx512_eq _ (fold_tail1_spec s hs t0 h0).1]
        · rw [if_neg hz, if_neg hz]
          exact load_bind_congr _ _ _ _ fun p _ => partial_then_done_avx512_eq _ _ _
      · rw [if_neg c1, if_neg c1]
        by_cases hz : len + 64 = 0
        · rw [if_pos hz, if_pos hz, final_collapse_avx512_eq s hs]
        · rw [if_neg hz, if_neg hz]
          exact load_bind_congr _ _ _ _ fun p _ => partial_then_done_avx512_eq _ _ _

theorem seed_init_wf (initial : Nat) : (seed_init initial).WF :=
  ⟨shuffle_lt _ _, Nat.two_pow_pos 128, Nat.two_pow_pos 128, Nat.two_pow_pos 128⟩

theorem loop_tail_avx512_eq (mem : Nat → Nat) (fuel src : Nat) (len : Int) (s : FoldState)
    (hs : s.WF) :
    ((main_loop_avx512 mem fuel src len s).bind fun (src, len, s) =>
        tail_reduce_avx512 mem src len s)
      = ((main_loop mem fuel src len s).bind fun (src, len, s) => tail_reduce mem src len s) := by
  rw [main_loop_avx512_eq]
  cases hm : main_loop mem fuel src len s with
  | none => rw [Option.none_bind, Option.none_bind]
  | some r =>
    obtain ⟨src', len', s'⟩ := r
    rw [Option.some_bind, Option.some_bind]
    exact tail_reduce_avx512_eq mem src' len' s' (main_loop_wf mem fuel src len s _ hs hm)

/-- The two builds of `crc_fold` agree on every input. -/
theorem crc_fold_avx512_eq (mem : Nat → Nat) (src : Nat) (len : Int) (initial : Nat) :
    crc_fold_avx512 mem src len initial = crc_fold mem src len initial := by
  unfold crc_fold_avx512 crc_fold
  simp only []
  by_cases hc : len < 16
  · rw [if_pos hc, if_pos hc]
    by_cases hz : len = 0
    · rw [if_pos hz, if_pos hz]
    · rw [if_neg hz, if_neg hz]
      exact partial_then_done_avx512_eq _ _ _
  · rw [if_neg hc, if_neg hc]
    by_cases ha : ((2 ^ 64 - src % 2 ^ 64) % 2 ^ 64) &&& 0xF ≠ 0
    · rw [if_pos ha, if_pos ha, partial_fold_avx512_eq]
      cases hp : partial_fold (((2 ^ 64 - src % 2 ^ 64) % 2 ^ 64) &&& 0xF) (seed_init initial)
          (_mm_loadu_si128 mem src) with
      | none => rw [Option.map_none', Option.none_bind, Option.none_bind]
      | some s1 =>
        rw [Option.map_some', Option.some_bind, Option.some_bind]
        exact loop_tail_avx512_eq mem _ _ _ s1 (partial_fold_wf _ _ _ _ hp)
    · rw [if_neg ha, if_neg ha, Option.some_bind, Option.some_bind]
      exact loop_tail_avx512_eq mem _ src len _ (seed_init_wf initial)

theorem k5_word0_differs :
    _mm_ternarylogic_epi32 1 0 (tableVec crc_mask 0) 0x28 = 0 ∧
    _mm_xor_si128 1 (_mm_and_si128 0 (tableVec crc_mask 0)) = 1 := by
  decide!

/-- C19. The two compile-time variants agree: for every memory, start address,
length and seed, `crc_fold` built with `ENABLE_AVX512` (`do_one_fold_merge` and
the ternary operations `0x96`, `0x28`, `0xC3`) returns what `crc_fold` built
without it returns. The operation `0x28` clears word 0 where AND and XOR keep
the word 0 of the product, and agrees with them in `k5` because that word of
the product is zero; the operation `0xC3` complements word 0 where the XOR
with the mask leaves it, and agrees with it on word 2, the one extracted. -/
theorem avx512_variant_agrees (mem : Nat → Nat) (src : Nat) (len : Int) (initial : Nat) :
    crc_fold_avx512 mem src len initial = crc_fold mem src len initial ∧
    (∀ src data, data < 2 ^ 128 →
      do_one_fold_merge src data = _mm_xor_si128 (do_one_fold src) data) ∧
    (∀ y, _mm_ternarylogic_epi32
        (_mm_clmulepi64_si128 (_mm_slli_si128 y 4) (tableVec crc_k 1) 0x10) y
        (tableVec crc_mask 0) 0x28
      = _mm_xor_si128 (_mm_clmulepi64_si128 (_mm_slli_si128 y 4) (tableVec crc_k 1) 0x10)
          (_mm_and_si128 y (tableVec crc_mask 0))) ∧
    (_mm_ternarylogic_epi32 1 0 (tableVec crc_mask 0) 0x28 = 0 ∧
      _mm_xor_si128 1 (_mm_and_si128 0 (tableVec crc_mask 0)) = 1) ∧
    (∀ c3 c1, _mm_extract_epi32 (_mm_ternarylogic_epi32 c3 c1 c1 0xC3) 2
      = _mm_extract_epi32 (_mm_xor_si128 c3 (_mm_xor_si128 c1 (tableVec crc_mask 0))) 2) ∧
    (_mm_extract_epi32 (_mm_ternarylogic_epi32 0 0 0 0xC3) 0 = 0xFFFFFFFF ∧
      _mm_extract_epi32 (_mm_xor_si128 0 (_mm_xor_si128 0 (tableVec crc_mask 0))) 0 = 0) :=
  ⟨crc_fold_avx512_eq mem src len initial, do_one_fold_merge_eq, k5_merge, k5_word0_differs,
    k7_merge, k7_word0_differs⟩

end CrcFolding
